import Mathlib

/-!
# MultilevelSenseAmp (DNN_NeuroSim_V2.0, Training_pytorch/NeuroSIM/MultilevelSenseAmp.cpp)

A shallow embedding of the multi-level sense amplifier model and proofs about it.

Modelling conventions.
* A C++ `double` is a value of `Dbl`: a rational, or one of the IEEE-754 special values
  `+inf`, `-inf`, `NaN`.  The operations `+`, `-`, `*`, `/` give the exact result on finite
  values and follow IEEE-754 on special values; zero is unsigned and behaves as `+0` when it
  is a divisor.  The double that an operation delivers is `Dbl.rounded` of the exact result:
  the nearest binary64 value, ties to even, with overflow to an infinity.
* The ladder of `Initialize` is given twice: `Initialize` with the exact operations and
  `Initialize.binary64` with every result rounded.  The statements about the order of the
  ladder entries and about their general form depend on the rounding and are made about the
  second one; on the example input (`resistanceOn = 1000`, `resistanceOff = 100000`, four
  levels) no result is rounded and both give the same ladder.  The other member functions are
  given with the exact operations.
* `log` of `<cmath>` is a parameter `ln : ℚ → ℚ` giving its value at positive finite
  arguments; every theorem holds for every such function.
* The process-wide `param` object is passed explicitly.
* Reading `Rref[i]` outside the vector is undefined behaviour: functions that read the ladder
  return `Option`, with `none` for such a read.
* A call of `exit(-1)` is the outcome `Outcome.exited (-1)`; the sub-amplifier's area and the
  shared re-layout routines, which are not part of this source file, are parameters.
-/

namespace NeuroSim

/-- A C++ double: an exact rational or an IEEE-754 special value. -/
inductive Dbl where
  | fin (q : ℚ)
  | pinf
  | ninf
  | nan
deriving DecidableEq

namespace Dbl

/-- Conversion of an `int` to `double`. -/
def ofInt (i : Int) : Dbl := fin i

/-- Conversion of a `bool` to `double` (the usual arithmetic conversion). -/
def ofBool (b : Bool) : Dbl := fin (if b then 1 else 0)

/-- Unary minus. -/
def neg : Dbl → Dbl
  | fin q => fin (-q)
  | pinf => ninf
  | ninf => pinf
  | nan => nan

/-- Addition: the exact sum of finite values, the IEEE-754 rules on special values.  The
double that `a + b` delivers is `rounded` of it. -/
def add : Dbl → Dbl → Dbl
  | fin a, fin b => fin (a + b)
  | fin _, pinf => pinf
  | fin _, ninf => ninf
  | fin _, nan => nan
  | pinf, fin _ => pinf
  | pinf, pinf => pinf
  | pinf, ninf => nan
  | pinf, nan => nan
  | ninf, fin _ => ninf
  | ninf, pinf => nan
  | ninf, ninf => ninf
  | ninf, nan => nan
  | nan, _ => nan

/-- IEEE-754 subtraction. -/
def sub (a b : Dbl) : Dbl := add a (neg b)

/-- Multiplication: the exact product of finite values, the IEEE-754 rules on special values.
The double that `a * b` delivers is `rounded` of it. -/
def mul : Dbl → Dbl → Dbl
  | fin a, fin b => fin (a * b)
  | fin a, pinf => if a = 0 then nan else if 0 < a then pinf else ninf
  | fin a, ninf => if a = 0 then nan else if 0 < a then ninf else pinf
  | fin _, nan => nan
  | pinf, fin b => if b = 0 then nan else if 0 < b then pinf else ninf
  | pinf, pinf => pinf
  | pinf, ninf => ninf
  | pinf, nan => nan
  | ninf, fin b => if b = 0 then nan else if 0 < b then ninf else pinf
  | ninf, pinf => ninf
  | ninf, ninf => pinf
  | ninf, nan => nan
  | nan, _ => nan

/-- Division: the exact quotient of finite values, the IEEE-754 rules on special values; a
zero divisor is `+0`.  The double that `a / b` delivers is `rounded` of it. -/
def div : Dbl → Dbl → Dbl
  | fin a, fin b =>
      if b = 0 then (if a = 0 then nan else if 0 < a then pinf else ninf) else fin (a / b)
  | fin _, pinf => fin 0
  | fin _, ninf => fin 0
  | fin _, nan => nan
  | pinf, fin b => if 0 ≤ b then pinf else ninf
  | pinf, pinf => nan
  | pinf, ninf => nan
  | pinf, nan => nan
  | ninf, fin b => if 0 ≤ b then ninf else pinf
  | ninf, pinf => nan
  | ninf, ninf => nan
  | ninf, nan => nan
  | nan, _ => nan

/-- The comparison `a < b`: false as soon as one side is NaN. -/
def lt : Dbl → Dbl → Bool
  | fin a, fin b => decide (a < b)
  | fin _, pinf => true
  | ninf, fin _ => true
  | ninf, pinf => true
  | _, _ => false

/-- The comparison `a <= b`: false as soon as one side is NaN. -/
def le : Dbl → Dbl → Bool
  | fin a, fin b => decide (a ≤ b)
  | fin _, pinf => true
  | pinf, pinf => true
  | ninf, fin _ => true
  | ninf, pinf => true
  | ninf, ninf => true
  | _, _ => false

/-- The comparison `a > b`. -/
def gt (a b : Dbl) : Bool := lt b a

/-- The comparison `a >= b`. -/
def ge (a b : Dbl) : Bool := le b a

/-- The comparison `a == b`: NaN is equal to nothing, itself included. -/
def eq : Dbl → Dbl → Bool
  | fin a, fin b => decide (a = b)
  | pinf, pinf => true
  | ninf, ninf => true
  | _, _ => false

/-- The function `std::max(a, b)`, which is `(a < b) ? b : a`. -/
def max (a b : Dbl) : Dbl := if lt a b then b else a

/-- The function `pow(x, n)` for a small non-negative integer exponent. -/
def pow (x : Dbl) (n : Nat) : Dbl :=
  match x with
  | fin q => fin (q ^ n)
  | pinf => if n = 0 then fin 1 else pinf
  | ninf => if n = 0 then fin 1 else if n % 2 = 0 then pinf else ninf
  | nan => if n = 0 then fin 1 else nan

/-- The function `log(x)`; `ln` gives its value at positive finite arguments. -/
def log (ln : ℚ → ℚ) : Dbl → Dbl
  | fin q => if q < 0 then nan else if q = 0 then ninf else fin (ln q)
  | pinf => pinf
  | ninf => nan
  | nan => nan

instance : Add Dbl := ⟨add⟩
instance : Sub Dbl := ⟨sub⟩
instance : Mul Dbl := ⟨mul⟩
instance : Div Dbl := ⟨div⟩
instance : OfScientific Dbl := ⟨fun m s e => fin (OfScientific.ofScientific m s e)⟩
instance (n : Nat) : OfNat Dbl n := ⟨fin (n : ℚ)⟩

/-- The integer nearest to `t`, a tie going to the even neighbour: the rounding direction
"to nearest, ties to even" of IEEE-754. -/
def roundTiesToEven (t : ℚ) : ℤ :=
  if t - ⌊t⌋ < 1 / 2 then ⌊t⌋
  else if 1 / 2 < t - ⌊t⌋ then ⌊t⌋ + 1
  else if ⌊t⌋ % 2 = 0 then ⌊t⌋
  else ⌊t⌋ + 1

/-- The spacing of the binary64 values around a magnitude `a`: `2^(e-52)` for the binary
exponent `e` of `a` (53 significant bits), and `2^(-1074)` below `2^(-1022)`, where the values
are subnormal. -/
def spacing (a : ℚ) : ℚ := (2 : ℚ) ^ (Max.max (Int.log 2 a) (-1022) - 52)

/-- The multiple of the spacing nearest to a magnitude `a`, ties to even. -/
def nearest (a : ℚ) : ℚ := (roundTiesToEven (a / spacing a) : ℚ) * spacing a

/-- The largest finite binary64 value, `DBL_MAX`. -/
def maxFinite : ℚ := (2 ^ 53 - 1) * 2 ^ 971

/-- The binary64 value of a rational: the nearest double, ties to even, with overflow to an
infinity when the rounded magnitude reaches `2^1024`. -/
def binary64 (q : ℚ) : Dbl :=
  if 0 ≤ q then
    if nearest q < 2 ^ 1024 then fin (nearest q) else pinf
  else
    if nearest (-q) < 2 ^ 1024 then fin (-nearest (-q)) else ninf

/-- The `double` that an arithmetic operation or a conversion delivers, from its exact
result: a finite exact result is rounded to binary64, a special value is kept. -/
def rounded : Dbl → Dbl
  | fin q => binary64 q
  | x => x

end Dbl

open Dbl

/-- Modelled from the spec: the fields of the process-wide `param` object that this component
reads (`Param.h` is not among the sources): the on/off resistance bounds of the device, taken
as finite numbers, the row count, the device roadmap selector (1 is high-performance) and the
technology node, taken as integers. -/
structure Param where
  resistanceOn : ℚ
  resistanceOff : ℚ
  numRowSubArray : Int
  deviceroadmap : Int
  technode : Int

/-- Modelled from the spec: the single-bit current sense amplifier (`CurrentSenseAmp`, not
among the sources).  Its `Initialize` receives an effective width, two feature flags, the
clock frequency and the read-cell count; the record keeps the last such call. -/
structure CurrentSenseAmp where
  initArgs : Option (Int × Bool × Bool × Dbl × Int)

/-- Modelled from the spec: `CurrentSenseAmp::Initialize`, recording its arguments. -/
def CurrentSenseAmp.Initialize (_c : CurrentSenseAmp) (numCol : Int) (f1 f2 : Bool)
    (clkFreq : Dbl) (numReadCellPerOperationNeuro : Int) : CurrentSenseAmp :=
  { initArgs := some (numCol, f1, f2, clkFreq, numReadCellPerOperationNeuro) }

/-- The member variables of `MultilevelSenseAmp` that the source file reads or writes; their
types follow the parameters of `Initialize` and the `double` results assigned to them. -/
structure MultilevelSenseAmp where
  initialized : Bool
  numCol : Int
  levelOutput : Int
  clkFreq : Dbl
  numReadCellPerOperationNeuro : Int
  parallel : Bool
  Rref : List Dbl
  currentSenseAmp : CurrentSenseAmp
  area : Dbl
  height : Dbl
  width : Dbl
  newHeight : Dbl
  newWidth : Dbl
  readLatency : Dbl
  readDynamicEnergy : Dbl
  leakage : Dbl

namespace MultilevelSenseAmp

/-- The constructor: `initialized = false`, the vector `Rref` is default-constructed (empty);
the scalar members are left as they are (indeterminate), here taken from `u`. -/
def ctor (u : MultilevelSenseAmp) : MultilevelSenseAmp :=
  { u with initialized := false, Rref := [] }

/-- A sample content for the members the constructor leaves indeterminate (all zero). -/
def zeroed : MultilevelSenseAmp :=
  { initialized := false, numCol := 0, levelOutput := 0, clkFreq := 0,
    numReadCellPerOperationNeuro := 0, parallel := false, Rref := [],
    currentSenseAmp := { initArgs := none }, area := 0, height := 0, width := 0,
    newHeight := 0, newWidth := 0, readLatency := 0, readDynamicEnergy := 0, leakage := 0 }

/-- Member function `MultilevelSenseAmp::Initialize`, with the exact operations of `Dbl`.  The
width `(levelOutput-1)*numCol` handed to the sub-amplifier is kept as an integer without
bound (the source computes it in `int`). -/
def Initialize (param : Param) (s : MultilevelSenseAmp) (_numCol _levelOutput : Int)
    (_clkFreq : Dbl) (_numReadCellPerOperationNeuro : Int) (_parallel : Bool) :
    MultilevelSenseAmp :=
  if s.initialized then
    s
  else
    let levelOutput := _levelOutput
    let pushed : List Dbl :=
      if _parallel then
        (List.range (levelOutput - 1).toNat).map fun (i : Nat) =>
          let R_start := fin param.resistanceOn / ofInt param.numRowSubArray
          let R_index := fin param.resistanceOff / ofInt param.numRowSubArray
          R_start + ofInt ((i : Int) + 1) * R_index / ofInt levelOutput
      else
        (List.range (levelOutput - 1).toNat).map fun (i : Nat) =>
          let R_start := fin param.resistanceOn
          let R_index := fin param.resistanceOff
          R_start + ofInt ((i : Int) + 1) * R_index / ofInt levelOutput
    { s with
      numCol := _numCol
      levelOutput := _levelOutput
      clkFreq := _clkFreq
      numReadCellPerOperationNeuro := _numReadCellPerOperationNeuro
      parallel := _parallel
      Rref := s.Rref ++ pushed
      currentSenseAmp :=
        s.currentSenseAmp.Initialize ((levelOutput - 1) * _numCol) false false _clkFreq
          _numReadCellPerOperationNeuro
      initialized := true }

/-- Member function `MultilevelSenseAmp::Initialize` with the ladder computed in binary64
arithmetic: the conversion of a resistance parameter to `double` and the result of every
division, product and sum are rounded to the nearest double; the conversion of an `int` is
exact. -/
def Initialize.binary64 (param : Param) (s : MultilevelSenseAmp) (_numCol _levelOutput : Int)
    (_clkFreq : Dbl) (_numReadCellPerOperationNeuro : Int) (_parallel : Bool) :
    MultilevelSenseAmp :=
  if s.initialized then
    s
  else
    let levelOutput := _levelOutput
    let pushed : List Dbl :=
      if _parallel then
        (List.range (levelOutput - 1).toNat).map fun (i : Nat) =>
          let R_start :=
            Dbl.rounded (Dbl.rounded (fin param.resistanceOn) / ofInt param.numRowSubArray)
          let R_index :=
            Dbl.rounded (Dbl.rounded (fin param.resistanceOff) / ofInt param.numRowSubArray)
          Dbl.rounded
            (R_start
              + Dbl.rounded (Dbl.rounded (ofInt ((i : Int) + 1) * R_index) / ofInt levelOutput))
      else
        (List.range (levelOutput - 1).toNat).map fun (i : Nat) =>
          let R_start := Dbl.rounded (fin param.resistanceOn)
          let R_index := Dbl.rounded (fin param.resistanceOff)
          Dbl.rounded
            (R_start
              + Dbl.rounded (Dbl.rounded (ofInt ((i : Int) + 1) * R_index) / ofInt levelOutput))
    { s with
      numCol := _numCol
      levelOutput := _levelOutput
      clkFreq := _clkFreq
      numReadCellPerOperationNeuro := _numReadCellPerOperationNeuro
      parallel := _parallel
      Rref := s.Rref ++ pushed
      currentSenseAmp :=
        s.currentSenseAmp.Initialize ((levelOutput - 1) * _numCol) false false _clkFreq
          _numReadCellPerOperationNeuro
      initialized := true }

/-- The loop `for (int i=1; i<levelOutput-1; i++)` over the ladder, whose body reads
`Rref[i]` and updates one accumulator; `none` when a read falls outside the vector. -/
def forLevels (levelOutput : Int) (Rref : List Dbl) (init : Dbl) (body : Dbl → Dbl → Dbl) :
    Option Dbl :=
  (List.range' 1 (levelOutput - 2).toNat).foldlM
    (fun acc i => (Rref[i]?).map fun Rref_i => body acc Rref_i) init

/-- The settling time `T` of one reference level in the 130 nm branch of
`GetColumnLatency`, from `ratio = Rref[i]/columnRes`. -/
def GetColumnLatency.T_130 (up_bound mid_bound low_bound T_max ratio : Dbl) : Dbl :=
  if Dbl.ge ratio 20 || Dbl.le ratio 0.05 then
    1e-9
  else if Dbl.le ratio low_bound then
    T_max * (3.915 * Dbl.pow ratio 3 - 5.3996 * Dbl.pow ratio 2 + 2.4653 * ratio + 0.3856)
  else if Dbl.le (Dbl.ofBool (Dbl.le mid_bound ratio)) up_bound then
    T_max * (0.0004 * Dbl.pow ratio 4 - 0.0087 * Dbl.pow ratio 3 + 0.0742 * Dbl.pow ratio 2
      - 0.2725 * ratio + 1.2211)
  else if Dbl.gt ratio up_bound then
    T_max * (0.0004 * Dbl.pow ratio 4 - 0.0087 * Dbl.pow ratio 3 + 0.0742 * Dbl.pow ratio 2
      - 0.2725 * ratio + 1.2211)
  else
    T_max

/-- The settling time `T` of one reference level in the 90 nm branch of
`GetColumnLatency`, from `ratio = Rref[i]/columnRes`. -/
def GetColumnLatency.T_90 (up_bound mid_bound low_bound T_max ratio : Dbl) : Dbl :=
  if Dbl.ge ratio 20 || Dbl.le ratio 0.05 then
    1e-9
  else if Dbl.le ratio low_bound then
    T_max * (3.726 * Dbl.pow ratio 3 - 5.651 * Dbl.pow ratio 2 + 2.8249 * ratio + 0.3574)
  else if Dbl.le (Dbl.ofBool (Dbl.le mid_bound ratio)) up_bound then
    T_max * (0.0000008 * Dbl.pow ratio 4 - 0.00007 * Dbl.pow ratio 3 + 0.0017 * Dbl.pow ratio 2
      - 0.0188 * ratio + 0.9835)
  else if Dbl.gt ratio up_bound then
    T_max * (0.0000008 * Dbl.pow ratio 4 - 0.00007 * Dbl.pow ratio 3 + 0.0017 * Dbl.pow ratio 2
      - 0.0188 * ratio + 0.9835)
  else
    T_max

/-- The settling time `T` of one reference level in the 65 nm branch of
`GetColumnLatency`, from `ratio = Rref[i]/columnRes`. -/
def GetColumnLatency.T_65 (up_bound mid_bound low_bound T_max ratio : Dbl) : Dbl :=
  if Dbl.ge ratio 20 || Dbl.le ratio 0.05 then
    1e-9
  else if Dbl.le ratio low_bound then
    T_max * (1.3899 * Dbl.pow ratio 3 - 2.6913 * Dbl.pow ratio 2 + 2.0483 * ratio + 0.3202)
  else if Dbl.le (Dbl.ofBool (Dbl.le mid_bound ratio)) up_bound then
    T_max * (0.0036 * Dbl.pow ratio 4 - 0.0363 * Dbl.pow ratio 3 + 0.1043 * Dbl.pow ratio 2
      - 0.0346 * ratio + 1.0512)
  else if Dbl.gt ratio up_bound then
    T_max * (0.0036 * Dbl.pow ratio 4 - 0.0363 * Dbl.pow ratio 3 + 0.1043 * Dbl.pow ratio 2
      - 0.0346 * ratio + 1.0512)
  else
    T_max

/-- The settling time `T` of one reference level in the 45 nm and 32 nm branch of
`GetColumnLatency`, from `ratio = Rref[i]/columnRes`. -/
def GetColumnLatency.T_45 (up_bound mid_bound low_bound T_max ratio : Dbl) : Dbl :=
  if Dbl.ge ratio 20 || Dbl.le ratio 0.05 then
    1e-9
  else if Dbl.le ratio low_bound then
    T_max * (3.7949 * Dbl.pow ratio 3 - 5.6685 * Dbl.pow ratio 2 + 2.6492 * ratio + 0.4807)
  else if Dbl.le (Dbl.ofBool (Dbl.le mid_bound ratio)) up_bound then
    T_max * (0.000001 * Dbl.pow ratio 4 - 0.00006 * Dbl.pow ratio 3 + 0.0001 * Dbl.pow ratio 2
      - 0.0171 * ratio + 1.0057)
  else if Dbl.gt ratio up_bound then
    T_max * (0.000001 * Dbl.pow ratio 4 - 0.00006 * Dbl.pow ratio 3 + 0.0001 * Dbl.pow ratio 2
      - 0.0171 * ratio + 1.0057)
  else
    T_max

/-- Member function `MultilevelSenseAmp::GetColumnLatency`. -/
def GetColumnLatency (ln : ℚ → ℚ) (param : Param) (s : MultilevelSenseAmp) (columnRes : Dbl) :
    Option Dbl :=
  let Column_Latency0 : Dbl := 0
  let up_bound : Dbl := 3
  let mid_bound : Dbl := 1.1
  let low_bound : Dbl := 0.9
  if Dbl.eq (1 / columnRes) 0 || Dbl.eq columnRes 0 then
    some 0
  else if param.deviceroadmap = 1 then
    some 1e-9
  else if param.technode = 130 then
    let T_max : Dbl := ((0.2679 : Dbl) * Dbl.log ln (columnRes / 1000) + 0.0478) * 1e-9
    forLevels s.levelOutput s.Rref Column_Latency0 fun Column_Latency Rref_i =>
      let ratio := Rref_i / columnRes
      let T := GetColumnLatency.T_130 up_bound mid_bound low_bound T_max ratio
      Dbl.max Column_Latency T
  else if param.technode = 90 then
    let T_max : Dbl := ((0.0586 : Dbl) * Dbl.log ln (columnRes / 1000) + 1.41) * 1e-9
    forLevels s.levelOutput s.Rref Column_Latency0 fun Column_Latency Rref_i =>
      let ratio := Rref_i / columnRes
      let T := GetColumnLatency.T_90 up_bound mid_bound low_bound T_max ratio
      Dbl.max Column_Latency T
  else if param.technode = 65 then
    let T_max : Dbl := ((0.1239 : Dbl) * Dbl.log ln (columnRes / 1000) + 0.6642) * 1e-9
    forLevels s.levelOutput s.Rref Column_Latency0 fun Column_Latency Rref_i =>
      let ratio := Rref_i / columnRes
      let T := GetColumnLatency.T_65 up_bound mid_bound low_bound T_max ratio
      Dbl.max Column_Latency T
  else if param.technode = 45 ∨ param.technode = 32 then
    let T_max : Dbl := ((0.0714 : Dbl) * Dbl.log ln (columnRes / 1000) + 0.7651) * 1e-9
    forLevels s.levelOutput s.Rref Column_Latency0 fun Column_Latency Rref_i =>
      let ratio := Rref_i / columnRes
      let T := GetColumnLatency.T_45 up_bound mid_bound low_bound T_max ratio
      Dbl.max Column_Latency T
  else
    some 1e-9

/-- The first half of `MultilevelSenseAmp::GetColumnPower`: the local `Column_Power`. -/
def GetColumnPower.Column_Power (ln : ℚ → ℚ) (param : Param) (columnRes : Dbl) : Dbl :=
  if Dbl.eq (1 / columnRes) 0 then
    1e-6
  else if Dbl.eq columnRes 0 then
    0
  else if param.deviceroadmap = 1 then
    if param.technode = 130 then
      ((0.00001 : Dbl) * Dbl.log ln (columnRes / 1000.0) + 9.8898) * 1e-6
    else if param.technode = 90 then
      ((0.0002 : Dbl) * Dbl.log ln (columnRes / 1000.0) + 9.09) * 1e-6
    else if param.technode = 65 then
      ((0.0001 : Dbl) * Dbl.log ln (columnRes / 1000.0) + 7.9579) * 1e-6
    else if param.technode = 45 then
      ((0.0037 : Dbl) * Dbl.log ln (columnRes / 1000.0) + 7.7017) * 1e-6
    else if param.technode = 32 then
      ((0.0064 : Dbl) * Dbl.log ln (columnRes / 1000.0) + 7.9648) * 1e-6
    else if param.technode = 22 then
      ((0.0087 : Dbl) * Dbl.log ln (columnRes / 1000.0) + 3.1939) * 1e-6
    else if param.technode = 14 then
      ((0.0087 : Dbl) * Dbl.log ln (columnRes / 1000.0) + 2.2) * 1e-6
    else if param.technode = 10 then
      ((0.0087 : Dbl) * Dbl.log ln (columnRes / 1000.0) + 1.7) * 1e-6
    else
      ((0.0087 : Dbl) * Dbl.log ln (columnRes / 1000.0) + 1.2) * 1e-6
  else
    if param.technode = 130 then
      ((0.2811 : Dbl) * Dbl.log ln (columnRes / 1000.0) + 7.0809) * 1e-6
    else if param.technode = 90 then
      ((0.0578 : Dbl) * Dbl.log ln (columnRes / 1000.0) + 7.6102) * 1e-6
    else if param.technode = 65 then
      ((0.0710 : Dbl) * Dbl.log ln (columnRes / 1000.0) + 6.4147) * 1e-6
    else if param.technode = 45 then
      ((0.0710 : Dbl) * Dbl.log ln (columnRes / 1000.0) + 6.4147) * 1e-6
    else if param.technode = 32 then
      ((0.0251 : Dbl) * Dbl.log ln (columnRes / 1000.0) + 4.7835) * 1e-6
    else if param.technode = 22 then
      ((0.0516 : Dbl) * Dbl.log ln (columnRes / 1000.0) + 2.2349) * 1e-6
    else if param.technode = 14 then
      ((0.0516 : Dbl) * Dbl.log ln (columnRes / 1000.0) + 1.5) * 1e-6
    else if param.technode = 10 then
      ((0.0516 : Dbl) * Dbl.log ln (columnRes / 1000.0) + 1.1) * 1e-6
    else
      ((0.0516 : Dbl) * Dbl.log ln (columnRes / 1000.0) + 0.7) * 1e-6

/-- The settling time `T` of one reference level in the 130 nm branch of
`GetColumnPower`, from `ratio = Rref[i]/columnRes`. -/
def GetColumnPower.T_130 (up_bound mid_bound low_bound T_max ratio : Dbl) : Dbl :=
  if Dbl.ge ratio 20 || Dbl.le ratio 0.05 then
    1e-9
  else if Dbl.le ratio low_bound then
    T_max * (3.915 * Dbl.pow ratio 3 - 5.3996 * Dbl.pow ratio 2 + 2.4653 * ratio + 0.3856)
  else if Dbl.le (Dbl.ofBool (Dbl.le mid_bound ratio)) up_bound then
    T_max * (0.0004 * Dbl.pow ratio 4 - 0.0087 * Dbl.pow ratio 3 + 0.0742 * Dbl.pow ratio 2
      - 0.2725 * ratio + 1.2211)
  else if Dbl.gt ratio up_bound then
    T_max * (0.0004 * Dbl.pow ratio 4 - 0.0087 * Dbl.pow ratio 3 + 0.0742 * Dbl.pow ratio 2
      - 0.2725 * ratio + 1.2211)
  else
    T_max

/-- The settling time `T` of one reference level in the 90 nm branch of
`GetColumnPower`, from `ratio = Rref[i]/columnRes`. -/
def GetColumnPower.T_90 (up_bound mid_bound low_bound T_max ratio : Dbl) : Dbl :=
  if Dbl.ge ratio 20 || Dbl.le ratio 0.05 then
    1e-9
  else if Dbl.le ratio low_bound then
    T_max * (3.726 * Dbl.pow ratio 3 - 5.651 * Dbl.pow ratio 2 + 2.8249 * ratio + 0.3574)
  else if Dbl.le (Dbl.ofBool (Dbl.le mid_bound ratio)) up_bound then
    T_max * (0.0000008 * Dbl.pow ratio 4 - 0.00007 * Dbl.pow ratio 3 + 0.0017 * Dbl.pow ratio 2
      - 0.0188 * ratio + 0.9835)
  else if Dbl.gt ratio up_bound then
    T_max * (0.0000008 * Dbl.pow ratio 4 - 0.00007 * Dbl.pow ratio 3 + 0.0017 * Dbl.pow ratio 2
      - 0.0188 * ratio + 0.9835)
  else
    T_max

/-- The settling time `T` of one reference level in the 65 nm branch of
`GetColumnPower`, from `ratio = Rref[i]/columnRes`. -/
def GetColumnPower.T_65 (up_bound mid_bound low_bound T_max ratio : Dbl) : Dbl :=
  if Dbl.ge ratio 20 || Dbl.le ratio 0.05 then
    1e-9
  else if Dbl.le ratio low_bound then
    T_max * (1.3899 * Dbl.pow ratio 3 - 2.6913 * Dbl.pow ratio 2 + 2.0483 * ratio + 0.3202)
  else if Dbl.le (Dbl.ofBool (Dbl.le mid_bound ratio)) up_bound then
    T_max * (0.0036 * Dbl.pow ratio 4 - 0.0363 * Dbl.pow ratio 3 + 0.1043 * Dbl.pow ratio 2
      - 0.0346 * ratio + 1.0512)
  else if Dbl.gt ratio up_bound then
    T_max * (0.0036 * Dbl.pow ratio 4 - 0.0363 * Dbl.pow ratio 3 + 0.1043 * Dbl.pow ratio 2
      - 0.0346 * ratio + 1.0512)
  else
    T_max

/-- The settling time `T` of one reference level in the 45 nm and 32 nm branch of
`GetColumnPower`, from `ratio = Rref[i]/columnRes`. -/
def GetColumnPower.T_45 (up_bound mid_bound low_bound T_max ratio : Dbl) : Dbl :=
  if Dbl.ge ratio 20 || Dbl.le ratio 0.05 then
    1e-9
  else if Dbl.le ratio low_bound then
    T_max * (3.7949 * Dbl.pow ratio 3 - 5.6685 * Dbl.pow ratio 2 + 2.6492 * ratio + 0.4807)
  else if Dbl.le (Dbl.ofBool (Dbl.le mid_bound ratio)) up_bound then
    T_max * (0.000001 * Dbl.pow ratio 4 - 0.00006 * Dbl.pow ratio 3 + 0.0001 * Dbl.pow ratio 2
      - 0.0171 * ratio + 1.0057)
  else if Dbl.gt ratio up_bound then
    T_max * (0.000001 * Dbl.pow ratio 4 - 0.00006 * Dbl.pow ratio 3 + 0.0001 * Dbl.pow ratio 2
      - 0.0171 * ratio + 1.0057)
  else
    T_max

/-- Member function `MultilevelSenseAmp::GetColumnPower`; the value returned is the local `Column_Energy`. -/
def GetColumnPower (ln : ℚ → ℚ) (param : Param) (s : MultilevelSenseAmp) (columnRes : Dbl) :
    Option Dbl :=
  let Column_Power : Dbl := GetColumnPower.Column_Power ln param columnRes
  let Column_Energy0 : Dbl := 0
  let up_bound : Dbl := 3
  let mid_bound : Dbl := 1.1
  let low_bound : Dbl := 0.9
  if Dbl.eq (1 / columnRes) 0 || Dbl.eq columnRes 0 then
    some (Column_Energy0 + 0)
  else if param.deviceroadmap = 1 then
    some (Column_Power * 1e-9 * Dbl.ofInt (s.levelOutput - 1))
  else if param.technode = 130 then
    let T_max : Dbl := ((0.2679 : Dbl) * Dbl.log ln (columnRes / 1000) + 0.0478) * 1e-9
    forLevels s.levelOutput s.Rref Column_Energy0 fun Column_Energy Rref_i =>
      let ratio := Rref_i / columnRes
      let T := GetColumnPower.T_130 up_bound mid_bound low_bound T_max ratio
      Column_Energy + Column_Power * T
  else if param.technode = 90 then
    let T_max : Dbl := ((0.0586 : Dbl) * Dbl.log ln (columnRes / 1000) + 1.41) * 1e-9
    forLevels s.levelOutput s.Rref Column_Energy0 fun Column_Energy Rref_i =>
      let ratio := Rref_i / columnRes
      let T := GetColumnPower.T_90 up_bound mid_bound low_bound T_max ratio
      Column_Energy + Column_Power * T
  else if param.technode = 65 then
    let T_max : Dbl := ((0.1239 : Dbl) * Dbl.log ln (columnRes / 1000) + 0.6642) * 1e-9
    forLevels s.levelOutput s.Rref Column_Energy0 fun Column_Energy Rref_i =>
      let ratio := Rref_i / columnRes
      let T := GetColumnPower.T_65 up_bound mid_bound low_bound T_max ratio
      Column_Energy + Column_Power * T
  else if param.technode = 45 ∨ param.technode = 32 then
    let T_max : Dbl := ((0.0714 : Dbl) * Dbl.log ln (columnRes / 1000) + 0.7651) * 1e-9
    forLevels s.levelOutput s.Rref Column_Energy0 fun Column_Energy Rref_i =>
      let ratio := Rref_i / columnRes
      let T := GetColumnPower.T_45 up_bound mid_bound low_bound T_max ratio
      Column_Energy + Column_Power * T
  else
    some (Column_Energy0 + Column_Power * 1e-9 * Dbl.ofInt (s.levelOutput - 1))

/-- One pass of the loop body of `CalculateLatency`: the running maximum, left alone by a
NaN entry, then clamped into `[1e-9, 10e-9]`. -/
def CalculateLatency.step (LatencyCol T_Col columnResistance_j : Dbl) : Dbl :=
  let LatencyCol1 :=
    if Dbl.eq columnResistance_j columnResistance_j then Dbl.max LatencyCol T_Col
    else LatencyCol
  if Dbl.lt LatencyCol1 1e-9 then 1e-9
  else if Dbl.gt LatencyCol1 10e-9 then 10e-9
  else LatencyCol1

/-- Member function `MultilevelSenseAmp::CalculateLatency`. -/
def CalculateLatency (ln : ℚ → ℚ) (param : Param) (s : MultilevelSenseAmp)
    (columnResistance : List Dbl) (numColMuxed numRead : Dbl) : Option MultilevelSenseAmp :=
  if !s.initialized then
    some s
  else do
    let readLatency0 : Dbl := 0
    let LatencyCol ← columnResistance.foldlM
      (fun LatencyCol r => do
        let T_Col ← GetColumnLatency ln param s r
        pure (CalculateLatency.step LatencyCol T_Col r)) (0 : Dbl)
    let readLatency1 := readLatency0 + LatencyCol * numColMuxed
    pure { s with readLatency := readLatency1 * numRead }

/-- One pass of the loop body of `CalculatePower`. -/
def CalculatePower.step (readDynamicEnergy E_Col columnResistance_i : Dbl) : Dbl :=
  if Dbl.eq columnResistance_i columnResistance_i then readDynamicEnergy + E_Col
  else readDynamicEnergy + 0

/-- Member function `MultilevelSenseAmp::CalculatePower`. -/
def CalculatePower (ln : ℚ → ℚ) (param : Param) (s : MultilevelSenseAmp)
    (columnResistance : List Dbl) (numRead : Dbl) : Option MultilevelSenseAmp :=
  if !s.initialized then
    some s
  else do
    let readDynamicEnergy ← columnResistance.foldlM
      (fun readDynamicEnergy r => do
        let E_Col ← GetColumnPower ln param s r
        pure (CalculatePower.step readDynamicEnergy E_Col r)) (0 : Dbl)
    pure { s with leakage := 0, readDynamicEnergy := readDynamicEnergy * numRead }

/-- A component on which `Initialize` has run: the flag is set and the ladder holds the
`levelOutput - 1` entries that call pushed (the constructor leaves the ladder empty and no
other member function writes to it). -/
def Initialized (s : MultilevelSenseAmp) : Prop :=
  s.initialized = true ∧ s.Rref.length = (s.levelOutput - 1).toNat

instance (s : MultilevelSenseAmp) : Decidable (Initialized s) := by
  unfold Initialized
  infer_instance

/-- A component freshly constructed and initialized once, used as a concrete input:
`levelOutput = 4`, `numCol = 8`, sequential mode, `resistanceOn = 1000`,
`resistanceOff = 100000`. -/
def sample : MultilevelSenseAmp :=
  Initialize ⟨1000, 100000, 128, 2, 22⟩ (ctor zeroed) 8 4 (fin 1000000000) 1 false

end MultilevelSenseAmp

/-- The conversion of a `double` to `bool` in a condition such as `if (widthArray)`: true
unless the value compares equal to zero (so NaN is true). -/
def Dbl.toBool (x : Dbl) : Bool := !(Dbl.eq x 0)

/-- The clamp of a value into `[lo, hi]`, written as the source writes it: below `lo` gives
`lo`, above `hi` gives `hi`. -/
def Dbl.clamp (x lo hi : Dbl) : Dbl :=
  if Dbl.lt x lo then lo else if Dbl.gt x hi then hi else x

/-- Modelled from the spec: the layout option of `CalculateArea` (the enumeration `AreaModify`
is declared outside the sources): the default no-op, the magic re-layout and the override
re-layout. -/
inductive AreaModify where
  | NONE
  | MAGIC
  | OVERRIDE
deriving DecidableEq

/-- Modelled from the spec: the routines `CalculateArea` delegates to, none of them among the
sources.  `subAmpArea c x` is the value of `currentSenseAmp.area` after
`currentSenseAmp.CalculateUnitArea()` and `currentSenseAmp.CalculateArea(x)` on the
sub-amplifier `c`; `MagicLayout` and `OverrideLayout` are the shared re-layout routines, which
may change the height, width and area of the component. -/
structure AreaRoutines where
  subAmpArea : CurrentSenseAmp → Dbl → Dbl
  MagicLayout : MultilevelSenseAmp → MultilevelSenseAmp
  OverrideLayout : MultilevelSenseAmp → MultilevelSenseAmp

/-- How a call that may terminate the process ends: it returns, leaving the component in a
state, or the process ends through `exit(status)`. -/
inductive Outcome where
  | returned (s : MultilevelSenseAmp)
  | exited (status : Int)

namespace MultilevelSenseAmp

/-- The tail of `CalculateArea` after the area is set: `newHeight`, `newWidth` and the
`switch` over the layout option. -/
def CalculateArea.modifyLayout (ext : AreaRoutines) (s : MultilevelSenseAmp)
    (heightArray widthArray : Dbl) (_option : AreaModify) : MultilevelSenseAmp :=
  let s1 := { s with newHeight := heightArray, newWidth := widthArray }
  match _option with
  | AreaModify.MAGIC => ext.MagicLayout s1
  | AreaModify.OVERRIDE => ext.OverrideLayout s1
  | AreaModify.NONE => s1

/-- Member function `MultilevelSenseAmp::CalculateArea`. -/
def CalculateArea (ext : AreaRoutines) (s : MultilevelSenseAmp) (heightArray widthArray : Dbl)
    (_option : AreaModify) : Outcome :=
  if !s.initialized then
    Outcome.returned s
  else
    let s0 := { s with area := 0, height := 0, width := 0 }
    if Dbl.toBool widthArray && decide (_option = AreaModify.NONE) then
      let area := ext.subAmpArea s.currentSenseAmp widthArray
      let s1 := { s0 with area := area, width := widthArray, height := area / widthArray }
      Outcome.returned (CalculateArea.modifyLayout ext s1 heightArray widthArray _option)
    else if Dbl.toBool heightArray && decide (_option = AreaModify.NONE) then
      let area := ext.subAmpArea s.currentSenseAmp heightArray
      let s1 := { s0 with area := area, height := heightArray, width := area / heightArray }
      Outcome.returned (CalculateArea.modifyLayout ext s1 heightArray widthArray _option)
    else
      Outcome.exited (-1)

/-- The thresholds read by the per-level loops of an initialized component, in loop order:
`Rref[1]`, ..., `Rref[levelOutput-2]`. -/
def levelThresholds (s : MultilevelSenseAmp) : List Dbl :=
  (s.Rref.drop 1).take (s.levelOutput - 2).toNat

/-- The settling time `T` that `GetColumnLatency` computes for the threshold `Rref_i` in its
low-power branches for the nodes 130, 90, 65 and 45/32 (0 at another node, where the function
has no per-level loop). -/
def GetColumnLatency.levelTime (ln : ℚ → ℚ) (technode : Int) (columnRes Rref_i : Dbl) : Dbl :=
  if technode = 130 then
    GetColumnLatency.T_130 3 1.1 0.9
      (((0.2679 : Dbl) * Dbl.log ln (columnRes / 1000) + 0.0478) * 1e-9) (Rref_i / columnRes)
  else if technode = 90 then
    GetColumnLatency.T_90 3 1.1 0.9
      (((0.0586 : Dbl) * Dbl.log ln (columnRes / 1000) + 1.41) * 1e-9) (Rref_i / columnRes)
  else if technode = 65 then
    GetColumnLatency.T_65 3 1.1 0.9
      (((0.1239 : Dbl) * Dbl.log ln (columnRes / 1000) + 0.6642) * 1e-9) (Rref_i / columnRes)
  else if technode = 45 ∨ technode = 32 then
    GetColumnLatency.T_45 3 1.1 0.9
      (((0.0714 : Dbl) * Dbl.log ln (columnRes / 1000) + 0.7651) * 1e-9) (Rref_i / columnRes)
  else
    0

/-- The settling time `T` that `GetColumnPower` computes for the threshold `Rref_i` in its
low-power branches for the nodes 130, 90, 65 and 45/32 (0 at another node, where the function
has no per-level loop). -/
def GetColumnPower.levelTime (ln : ℚ → ℚ) (technode : Int) (columnRes Rref_i : Dbl) : Dbl :=
  if technode = 130 then
    GetColumnPower.T_130 3 1.1 0.9
      (((0.2679 : Dbl) * Dbl.log ln (columnRes / 1000) + 0.0478) * 1e-9) (Rref_i / columnRes)
  else if technode = 90 then
    GetColumnPower.T_90 3 1.1 0.9
      (((0.0586 : Dbl) * Dbl.log ln (columnRes / 1000) + 1.41) * 1e-9) (Rref_i / columnRes)
  else if technode = 65 then
    GetColumnPower.T_65 3 1.1 0.9
      (((0.1239 : Dbl) * Dbl.log ln (columnRes / 1000) + 0.6642) * 1e-9) (Rref_i / columnRes)
  else if technode = 45 ∨ technode = 32 then
    GetColumnPower.T_45 3 1.1 0.9
      (((0.0714 : Dbl) * Dbl.log ln (columnRes / 1000) + 0.7651) * 1e-9) (Rref_i / columnRes)
  else
    0

/-- The baseline `T_max` that `GetColumnPower` computes in its low-power branches for the
nodes 130, 90, 65 and 45/32 (at another node the local keeps its initial value 0). -/
def GetColumnPower.T_max (ln : ℚ → ℚ) (technode : Int) (columnRes : Dbl) : Dbl :=
  if technode = 130 then
    ((0.2679 : Dbl) * Dbl.log ln (columnRes / 1000) + 0.0478) * 1e-9
  else if technode = 90 then
    ((0.0586 : Dbl) * Dbl.log ln (columnRes / 1000) + 1.41) * 1e-9
  else if technode = 65 then
    ((0.1239 : Dbl) * Dbl.log ln (columnRes / 1000) + 0.6642) * 1e-9
  else if technode = 45 ∨ technode = 32 then
    ((0.0714 : Dbl) * Dbl.log ln (columnRes / 1000) + 0.7651) * 1e-9
  else
    0

/-- The sum of `GetColumnPower(r)` over the entries `r` that are not NaN, taken in sequence
order from 0. -/
def CalculatePower.sumOverColumns (ln : ℚ → ℚ) (param : Param) (s : MultilevelSenseAmp)
    (columnResistance : List Dbl) : Option Dbl :=
  (columnResistance.filter fun r => Dbl.eq r r).foldlM
    (fun S r => (GetColumnPower ln param s r).map fun E_Col => S + E_Col) (0 : Dbl)

/-- The maximum of 0 and `GetColumnLatency(r)` over the entries `r` that are not NaN. -/
def CalculateLatency.maxOverColumns (ln : ℚ → ℚ) (param : Param) (s : MultilevelSenseAmp)
    (columnResistance : List Dbl) : Option Dbl :=
  (columnResistance.filter fun r => Dbl.eq r r).foldlM
    (fun M r => (GetColumnLatency ln param s r).map fun T_Col => Dbl.max M T_Col) (0 : Dbl)

/-- The latency computation with one clamp at the end:
`readLatency = clamp(M, 1e-9, 1e-8) * numColMuxed * numRead` for the maximum `M` over the
columns. -/
def CalculateLatency.clampedOnce (ln : ℚ → ℚ) (param : Param) (s : MultilevelSenseAmp)
    (columnResistance : List Dbl) (numColMuxed numRead : Dbl) : Option MultilevelSenseAmp :=
  if !s.initialized then
    some s
  else
    (CalculateLatency.maxOverColumns ln param s columnResistance).map fun M =>
      { s with readLatency := Dbl.clamp M 1e-9 1e-8 * numColMuxed * numRead }

end MultilevelSenseAmp

/-! ## Arithmetic of `Dbl` -/

theorem Dbl.ofNat_eq (n : Nat) : (OfNat.ofNat n : Dbl) = fin (n : ℚ) := rfl
theorem Dbl.ofScientific_eq (m : Nat) (s : Bool) (e : Nat) :
    (OfScientific.ofScientific m s e : Dbl) = fin (OfScientific.ofScientific m s e) := rfl
theorem Dbl.hAdd_eq (a b : Dbl) : a + b = Dbl.add a b := rfl
theorem Dbl.hMul_eq (a b : Dbl) : a * b = Dbl.mul a b := rfl
theorem Dbl.hDiv_eq (a b : Dbl) : a / b = Dbl.div a b := rfl
theorem Dbl.hSub_eq (a b : Dbl) : a - b = Dbl.sub a b := rfl

/-! ## Rounding to binary64 -/

namespace Dbl

/-- Rounding to the nearest integer does not go below the floor. -/
theorem roundTiesToEven_floor_le (t : ℚ) : ⌊t⌋ ≤ roundTiesToEven t := by
  unfold roundTiesToEven
  split_ifs <;> omega

/-- Rounding to the nearest integer does not go above the floor plus one. -/
theorem roundTiesToEven_le_floor_add_one (t : ℚ) : roundTiesToEven t ≤ ⌊t⌋ + 1 := by
  unfold roundTiesToEven
  split_ifs <;> omega

/-- An integer rounds to itself. -/
theorem roundTiesToEven_intCast (k : ℤ) : roundTiesToEven (k : ℚ) = k := by
  unfold roundTiesToEven
  simp

/-- Rounding to the nearest integer, ties to even, is monotone. -/
theorem roundTiesToEven_mono {s t : ℚ} (h : s ≤ t) : roundTiesToEven s ≤ roundTiesToEven t := by
  by_cases hf : ⌊s⌋ = ⌊t⌋
  · unfold roundTiesToEven
    rw [hf]
    split_ifs <;> first | omega | linarith
  · have h1 : ⌊s⌋ < ⌊t⌋ := lt_of_le_of_ne (Int.floor_mono h) hf
    have h2 := roundTiesToEven_le_floor_add_one s
    have h3 := roundTiesToEven_floor_le t
    omega

/-- A rational less than one half away from an integer rounds to that integer. -/
theorem roundTiesToEven_of_close (t : ℚ) (n : ℤ) (h1 : (n : ℚ) - 1 / 2 < t)
    (h2 : t < (n : ℚ) + 1 / 2) : roundTiesToEven t = n := by
  have hfl : ⌊t⌋ = n ∨ ⌊t⌋ = n - 1 := by
    have ha : n - 1 ≤ ⌊t⌋ := by
      rw [Int.le_floor]
      push_cast
      linarith
    have hb : ⌊t⌋ < n + 1 := by
      rw [Int.floor_lt]
      push_cast
      linarith
    omega
  unfold roundTiesToEven
  rcases hfl with hfl | hfl
  · have hle : (n : ℚ) ≤ t := by
      have := Int.floor_le t
      rw [hfl] at this
      exact this
    rw [hfl]
    rw [if_pos (by linarith)]
  · have hlt : t < (n : ℚ) := by
      have := Int.lt_floor_add_one t
      rw [hfl] at this
      push_cast at this
      linarith
    rw [hfl]
    push_cast
    rw [if_neg (by linarith), if_pos (by linarith)]
    ring

/-- The spacing is positive. -/
theorem spacing_pos (a : ℚ) : 0 < spacing a := by
  unfold spacing
  positivity

/-- A magnitude rounds to a magnitude. -/
theorem nearest_nonneg (a : ℚ) (ha : 0 ≤ a) : 0 ≤ nearest a := by
  unfold nearest
  have h1 : 0 ≤ a / spacing a := div_nonneg ha (spacing_pos a).le
  have h2 : (0 : ℤ) ≤ roundTiesToEven (a / spacing a) :=
    le_trans (Int.floor_nonneg.mpr h1) (roundTiesToEven_floor_le _)
  have h3 : (0 : ℚ) ≤ (roundTiesToEven (a / spacing a) : ℚ) := by exact_mod_cast h2
  exact mul_nonneg h3 (spacing_pos a).le

/-- Zero rounds to zero. -/
theorem nearest_zero : nearest 0 = 0 := by
  unfold nearest
  simp [roundTiesToEven]

/-- A magnitude rounds to at most the next power of two above it. -/
theorem nearest_le_zpow (a : ℚ) :
    nearest a ≤ (2 : ℚ) ^ (Max.max (Int.log 2 a) (-1022) + 1) := by
  have hlt : a < (2 : ℚ) ^ (Int.log 2 a + 1) := by
    have := Int.lt_zpow_succ_log_self (R := ℚ) (b := 2) (by norm_num) a
    exact_mod_cast this
  have hle : (2 : ℚ) ^ (Int.log 2 a + 1) ≤ (2 : ℚ) ^ (Max.max (Int.log 2 a) (-1022) + 1) :=
    zpow_le_zpow_right₀ (by norm_num) (by have := le_max_left (Int.log 2 a) (-1022); omega)
  have hsp : spacing a * (2 : ℚ) ^ (53 : ℤ)
      = (2 : ℚ) ^ (Max.max (Int.log 2 a) (-1022) + 1) := by
    unfold spacing
    rw [← zpow_add₀ (by norm_num : (2 : ℚ) ≠ 0)]
    congr 1
    ring
  have h53 : (2 : ℚ) ^ (53 : ℤ) = ((9007199254740992 : ℤ) : ℚ) := by norm_num
  have hq : a / spacing a ≤ ((9007199254740992 : ℤ) : ℚ) := by
    rw [div_le_iff₀ (spacing_pos a), ← h53, mul_comm, hsp]
    linarith
  have hr : roundTiesToEven (a / spacing a) ≤ 9007199254740992 := by
    have := roundTiesToEven_mono hq
    rwa [roundTiesToEven_intCast] at this
  have hr' : (roundTiesToEven (a / spacing a) : ℚ) ≤ (2 : ℚ) ^ (53 : ℤ) := by
    rw [h53]
    exact_mod_cast hr
  unfold nearest
  calc (roundTiesToEven (a / spacing a) : ℚ) * spacing a
      ≤ (2 : ℚ) ^ (53 : ℤ) * spacing a := mul_le_mul_of_nonneg_right hr' (spacing_pos a).le
    _ = (2 : ℚ) ^ (Max.max (Int.log 2 a) (-1022) + 1) := by rw [mul_comm, hsp]

/-- A normal magnitude rounds to at least the power of two below it. -/
theorem zpow_le_nearest (b : ℚ) (hb : 0 < b) (h : -1022 ≤ Int.log 2 b) :
    (2 : ℚ) ^ (Int.log 2 b) ≤ nearest b := by
  have hle : (2 : ℚ) ^ (Int.log 2 b) ≤ b := by
    have := Int.zpow_log_le_self (R := ℚ) (b := 2) (by norm_num) hb
    exact_mod_cast this
  have hmax : Max.max (Int.log 2 b) (-1022) = Int.log 2 b := max_eq_left h
  have hsp : spacing b * (2 : ℚ) ^ (52 : ℤ) = (2 : ℚ) ^ (Int.log 2 b) := by
    unfold spacing
    rw [hmax, ← zpow_add₀ (by norm_num : (2 : ℚ) ≠ 0)]
    congr 1
    ring
  have h52 : (2 : ℚ) ^ (52 : ℤ) = ((4503599627370496 : ℤ) : ℚ) := by norm_num
  have hq : ((4503599627370496 : ℤ) : ℚ) ≤ b / spacing b := by
    rw [le_div_iff₀ (spacing_pos b), ← h52, mul_comm, hsp]
    exact hle
  have hr : 4503599627370496 ≤ roundTiesToEven (b / spacing b) := by
    have := roundTiesToEven_mono hq
    rwa [roundTiesToEven_intCast] at this
  have hr' : (2 : ℚ) ^ (52 : ℤ) ≤ (roundTiesToEven (b / spacing b) : ℚ) := by
    rw [h52]
    exact_mod_cast hr
  unfold nearest
  calc (2 : ℚ) ^ (Int.log 2 b) = (2 : ℚ) ^ (52 : ℤ) * spacing b := by rw [mul_comm, hsp]
    _ ≤ (roundTiesToEven (b / spacing b) : ℚ) * spacing b :=
        mul_le_mul_of_nonneg_right hr' (spacing_pos b).le

/-- Rounding of magnitudes is monotone. -/
theorem nearest_mono {a b : ℚ} (ha : 0 ≤ a) (h : a ≤ b) : nearest a ≤ nearest b := by
  rcases ha.eq_or_lt with ha0 | ha0
  · rw [← ha0, nearest_zero]
    exact nearest_nonneg b (le_trans ha h)
  have hb0 : 0 < b := lt_of_lt_of_le ha0 h
  have hlog : Int.log 2 a ≤ Int.log 2 b := Int.log_mono_right ha0 h
  by_cases he : Max.max (Int.log 2 a) (-1022) = Max.max (Int.log 2 b) (-1022)
  · have hs : spacing a = spacing b := by
      unfold spacing
      rw [he]
    unfold nearest
    rw [hs]
    have hq : a / spacing b ≤ b / spacing b := div_le_div_of_nonneg_right h (spacing_pos b).le
    have := roundTiesToEven_mono hq
    have h' : (roundTiesToEven (a / spacing b) : ℚ) ≤ (roundTiesToEven (b / spacing b) : ℚ) := by
      exact_mod_cast this
    exact mul_le_mul_of_nonneg_right h' (spacing_pos b).le
  · have hlt : Max.max (Int.log 2 a) (-1022) < Max.max (Int.log 2 b) (-1022) :=
      lt_of_le_of_ne (max_le_max hlog (le_refl _)) he
    have hbn : -1022 ≤ Int.log 2 b := by
      by_contra hcon
      have h1 : Max.max (Int.log 2 b) (-1022) = -1022 := max_eq_right (by omega)
      have h2 := le_max_right (Int.log 2 a) (-1022)
      omega
    have hmaxb : Max.max (Int.log 2 b) (-1022) = Int.log 2 b := max_eq_left hbn
    have h1 := nearest_le_zpow a
    have h2 := zpow_le_nearest b hb0 hbn
    have h3 : (2 : ℚ) ^ (Max.max (Int.log 2 a) (-1022) + 1) ≤ (2 : ℚ) ^ (Int.log 2 b) :=
      zpow_le_zpow_right₀ (by norm_num) (by omega)
    linarith

/-- Rounding to binary64 is monotone. -/
theorem binary64_mono {x y : ℚ} (h : x ≤ y) : Dbl.le (binary64 x) (binary64 y) = true := by
  unfold binary64
  by_cases hx : 0 ≤ x
  · have hy : 0 ≤ y := le_trans hx h
    have hm := nearest_mono hx h
    rw [if_pos hx, if_pos hy]
    split_ifs with h1 h2 h2
    · simpa [Dbl.le] using hm
    · rfl
    · exfalso
      linarith
    · rfl
  · rw [if_neg hx]
    have hx' : 0 ≤ -x := by linarith
    by_cases hy : 0 ≤ y
    · rw [if_pos hy]
      have hnx := nearest_nonneg (-x) hx'
      have hny := nearest_nonneg y hy
      split_ifs
      · simp only [Dbl.le, decide_eq_true_eq]
        linarith
      · rfl
      · rfl
      · rfl
    · rw [if_neg hy]
      have hy' : 0 ≤ -y := by linarith
      have hm := nearest_mono hy' (by linarith : -y ≤ -x)
      split_ifs with h1 h2 h2
      · simp only [Dbl.le, decide_eq_true_eq]
        linarith
      · exfalso
        linarith
      · rfl
      · rfl

/-- The binary exponent of a positive rational, from the two powers of two around it. -/
theorem log_eq_of_bounds (a : ℚ) (e : ℤ) (h1 : (2 : ℚ) ^ e ≤ a) (h2 : a < (2 : ℚ) ^ (e + 1)) :
    Int.log 2 a = e := by
  have ha : 0 < a := lt_of_lt_of_le (by positivity) h1
  have hle : e ≤ Int.log 2 a := by
    rw [← Int.zpow_le_iff_le_log (by norm_num) ha]
    exact_mod_cast h1
  have hlt : Int.log 2 a < e + 1 := by
    rw [← Int.lt_zpow_iff_log_lt (by norm_num) ha]
    exact_mod_cast h2
  omega

/-- The binary64 value of a positive rational in the normal range, from its binary exponent
`e` and the integer `n` within half a unit of its scaled value. -/
theorem binary64_eq (q r : ℚ) (e n : ℤ) (h1 : (2 : ℚ) ^ e ≤ q) (h2 : q < (2 : ℚ) ^ (e + 1))
    (he : -1022 ≤ e) (hlo : ((n : ℚ) - 1 / 2) * (2 : ℚ) ^ (e - 52) < q)
    (hhi : q < ((n : ℚ) + 1 / 2) * (2 : ℚ) ^ (e - 52))
    (hr : r = (n : ℚ) * (2 : ℚ) ^ (e - 52)) (hfin : r < 2 ^ 1024) :
    binary64 q = fin r := by
  have hq : 0 < q := lt_of_lt_of_le (by positivity) h1
  have hlog := log_eq_of_bounds q e h1 h2
  have hs : spacing q = (2 : ℚ) ^ (e - 52) := by
    unfold spacing
    rw [hlog, max_eq_left he]
  have hpos : (0 : ℚ) < (2 : ℚ) ^ (e - 52) := by positivity
  have hn : nearest q = r := by
    unfold nearest
    rw [hs, hr, roundTiesToEven_of_close _ n]
    · rw [lt_div_iff₀ hpos]
      exact hlo
    · rw [div_lt_iff₀ hpos]
      exact hhi
  unfold binary64
  rw [if_pos hq.le, hn, if_pos hfin]

/-- A value of `binary64` is never NaN. -/
theorem binary64_ne_nan (q : ℚ) : binary64 q ≠ nan := by
  unfold binary64
  split_ifs <;> simp

/-- The binary64 value of a rational that is not negative is not negative. -/
theorem binary64_nonneg (q : ℚ) (hq : 0 ≤ q) : Dbl.le (fin 0) (binary64 q) = true := by
  unfold binary64
  rw [if_pos hq]
  split_ifs
  · simpa [Dbl.le] using nearest_nonneg q hq
  · rfl

/-- A magnitude that rounds to a finite value rounds to at most the largest finite value. -/
theorem nearest_le_max (a : ℚ) (ha : 0 ≤ a) (h : nearest a < 2 ^ 1024) :
    nearest a ≤ (2 ^ 53 - 1) * 2 ^ 971 := by
  rcases ha.eq_or_lt with ha0 | ha0
  · rw [← ha0, nearest_zero]
    norm_num
  by_cases h1 : Int.log 2 a ≤ 1022
  · have h2 := nearest_le_zpow a
    have h3 : (2 : ℚ) ^ (Max.max (Int.log 2 a) (-1022) + 1) ≤ (2 : ℚ) ^ (1023 : ℤ) :=
      zpow_le_zpow_right₀ (by norm_num) (by
        have := max_le h1 (by norm_num : (-1022 : ℤ) ≤ 1022)
        omega)
    have h4 : (2 : ℚ) ^ (1023 : ℤ) ≤ (2 ^ 53 - 1) * 2 ^ 971 := by norm_num
    linarith
  · by_cases h2 : Int.log 2 a = 1023
    · have hs : spacing a = 2 ^ 971 := by
        unfold spacing
        rw [h2]
        norm_num
      unfold nearest at h ⊢
      rw [hs] at h ⊢
      generalize roundTiesToEven (a / 2 ^ 971) = t at h ⊢
      have hn : (t : ℚ) < ((9007199254740992 : ℤ) : ℚ) := by
        have h5 : (0 : ℚ) < 2 ^ 971 := by positivity
        have h6 : (2 : ℚ) ^ 1024 = ((9007199254740992 : ℤ) : ℚ) * 2 ^ 971 := by norm_num
        rw [h6] at h
        exact lt_of_mul_lt_mul_right h h5.le
      have hn' : t ≤ 9007199254740992 - 1 := by
        have : t < 9007199254740992 := by exact_mod_cast hn
        omega
      have hn2 : (t : ℚ) ≤ 2 ^ 53 - 1 := by
        have : (t : ℚ) ≤ ((9007199254740992 - 1 : ℤ) : ℚ) := by
          exact_mod_cast hn'
        have h7 : (((9007199254740992 - 1 : ℤ) : ℤ) : ℚ) = 2 ^ 53 - 1 := by norm_num
        rw [h7] at this
        exact this
      exact mul_le_mul_of_nonneg_right hn2 (pow_nonneg (by norm_num) _)
    · exfalso
      have h3 : (1024 : ℤ) ≤ Int.log 2 a := by omega
      have h4 := zpow_le_nearest a ha0 (by omega)
      have h5 : (2 : ℚ) ^ (1024 : ℤ) ≤ (2 : ℚ) ^ (Int.log 2 a) :=
        zpow_le_zpow_right₀ (by norm_num) h3
      have h6 : (2 : ℚ) ^ (1024 : ℤ) = 2 ^ 1024 := by norm_num
      linarith

/-- The largest finite binary64 value rounds to itself. -/
theorem nearest_max : nearest ((2 ^ 53 - 1) * 2 ^ 971) = (2 ^ 53 - 1) * 2 ^ 971 := by
  have h := binary64_eq ((2 ^ 53 - 1) * 2 ^ 971) ((2 ^ 53 - 1) * 2 ^ 971) 1023 (2 ^ 53 - 1)
    (by norm_num) (by norm_num) (by norm_num) (by norm_num) (by norm_num) (by norm_num)
    (by norm_num)
  unfold binary64 at h
  rw [if_pos (by norm_num)] at h
  split_ifs at h with h1
  · exact Dbl.fin.inj h

/-- The value `-DBL_MAX` is a double. -/
theorem binary64_neg_maxFinite : binary64 (-maxFinite) = fin (-maxFinite) := by
  have h1 : ¬ (0 : ℚ) ≤ -maxFinite := by
    unfold maxFinite
    norm_num
  have h2 : nearest (- -maxFinite) = maxFinite := by
    rw [neg_neg]
    exact nearest_max
  have h3 : maxFinite < 2 ^ 1024 := by
    unfold maxFinite
    norm_num
  unfold binary64
  rw [if_neg h1, h2, if_pos h3]

/-- The binary64 value of a rational that is at least `-DBL_MAX` is at least `-DBL_MAX`. -/
theorem binary64_ge_neg_maxFinite (v : ℚ) (h : -maxFinite ≤ v) :
    Dbl.le (fin (-maxFinite)) (binary64 v) = true := by
  have := binary64_mono h
  rwa [binary64_neg_maxFinite] at this

/-- A binary64 value other than `-inf` is at least `-DBL_MAX`. -/
theorem binary64_ne_ninf (q : ℚ) (h : binary64 q ≠ ninf) :
    Dbl.le (fin (-maxFinite)) (binary64 q) = true := by
  by_cases hq : 0 ≤ q
  · apply binary64_ge_neg_maxFinite
    have : (0 : ℚ) ≤ maxFinite := by
      unfold maxFinite
      norm_num
    linarith
  · unfold binary64 at h ⊢
    rw [if_neg hq] at h ⊢
    by_cases hf : nearest (-q) < 2 ^ 1024
    · rw [if_pos hf]
      have := nearest_le_max (-q) (by linarith) hf
      simp only [Dbl.le, decide_eq_true_eq, maxFinite]
      linarith
    · rw [if_neg hf] at h
      exact absurd rfl h

/-- A value that is at least some finite value is at most `+inf`. -/
theorem le_pinf_of_le (c : ℚ) (d : Dbl) (h : Dbl.le (fin c) d = true) : Dbl.le d pinf = true := by
  cases d <;> simp_all [Dbl.le]

/-- A rational of at least `2^1024` converts to `+inf`. -/
theorem binary64_overflow (q : ℚ) (h : 2 ^ 1024 ≤ q) : Dbl.binary64 q = pinf := by
  have hq : (0 : ℚ) < q := lt_of_lt_of_le (by positivity) h
  have h0 : (2 : ℚ) ^ (1024 : ℤ) = 2 ^ 1024 := by norm_num
  have hlog : Int.log 2 ((2 : ℚ) ^ 1024) = 1024 := by
    rw [← h0]
    exact_mod_cast Int.log_zpow (R := ℚ) (b := 2) (by norm_num) 1024
  have h1 := Dbl.zpow_le_nearest ((2 : ℚ) ^ 1024) (by positivity) (by rw [hlog]; norm_num)
  rw [hlog, h0] at h1
  have h2 := Dbl.nearest_mono (by positivity) h
  unfold Dbl.binary64
  rw [if_pos hq.le, if_neg (not_lt.mpr (le_trans h1 h2))]

/-- The number 1000 is a double. -/
theorem binary64_1000 : Dbl.binary64 1000 = fin 1000 := by
  apply Dbl.binary64_eq _ _ 9 8796093022208000 <;> norm_num

/-- The number 100000 is a double. -/
theorem binary64_100000 : Dbl.binary64 100000 = fin 100000 := by
  apply Dbl.binary64_eq _ _ 16 6871947673600000 <;> norm_num

end Dbl

namespace MultilevelSenseAmp

/-- The ladder entry pushed at index `i` in sequential mode, as a rational. -/
theorem seq_entry (ron roff : ℚ) (L : Int) (hL : L ≠ 0) (i : Nat) :
    fin ron + ofInt ((i : Int) + 1) * fin roff / ofInt L
      = fin (ron + (((i : ℚ) + 1) / (L : ℚ)) * roff) := by
  have hL' : (L : ℚ) ≠ 0 := by exact_mod_cast hL
  simp only [Dbl.hAdd_eq, Dbl.hMul_eq, Dbl.hDiv_eq, Dbl.ofInt, Dbl.mul, Dbl.div, Dbl.add,
    if_neg hL']
  congr 1
  push_cast
  field_simp

/-- The ladder pushed by `Initialize` in sequential mode, in exact arithmetic. -/
theorem Initialize_Rref_seq (param : Param) (s : MultilevelSenseAmp) (numCol levelOutput : Int)
    (clkFreq : Dbl) (nrc : Int) (hs : s.initialized = false) (hL : levelOutput ≠ 0) :
    (Initialize param s numCol levelOutput clkFreq nrc false).Rref
      = s.Rref ++ (List.range (levelOutput - 1).toNat).map fun (i : Nat) =>
          fin (param.resistanceOn + (((i : ℚ) + 1) / (levelOutput : ℚ)) * param.resistanceOff) := by
  simp only [Initialize, hs, Bool.false_eq_true, if_false, seq_entry _ _ _ hL]


/-! ### The ladder in binary64 arithmetic -/

/-- The products `(i+1) * R_index` of the ladder do not decrease with `i`. -/
theorem ladder_mul_step (X : Dbl) (hX : Dbl.le (fin 0) X = true) (i j : Int) (hi : 0 < i)
    (hij : i ≤ j) :
    Dbl.le (fin 0) (Dbl.rounded (ofInt i * X)) = true ∧
      Dbl.le (Dbl.rounded (ofInt i * X)) (Dbl.rounded (ofInt j * X)) = true := by
  have hiq : (0 : ℚ) < (i : ℚ) := by exact_mod_cast hi
  have hjq : (0 : ℚ) < (j : ℚ) := by exact_mod_cast (lt_of_lt_of_le hi hij)
  have hijq : (i : ℚ) ≤ (j : ℚ) := by exact_mod_cast hij
  cases X with
  | fin x =>
    have hx : 0 ≤ x := by simpa [Dbl.le] using hX
    show Dbl.le (fin 0) (Dbl.binary64 ((i : ℚ) * x)) = true ∧
      Dbl.le (Dbl.binary64 ((i : ℚ) * x)) (Dbl.binary64 ((j : ℚ) * x)) = true
    exact ⟨Dbl.binary64_nonneg _ (mul_nonneg hiq.le hx),
      Dbl.binary64_mono (mul_le_mul_of_nonneg_right hijq hx)⟩
  | pinf =>
    simp only [Dbl.hMul_eq, Dbl.ofInt, Dbl.mul, if_neg hiq.ne', if_neg hjq.ne', if_pos hiq,
      if_pos hjq, Dbl.rounded, Dbl.le, and_self]
  | ninf => simp [Dbl.le] at hX
  | nan => simp [Dbl.le] at hX

/-- Dividing by `levelOutput` keeps the order of the products. -/
theorem ladder_div_step (A A' : Dbl) (hA : Dbl.le (fin 0) A = true)
    (h : Dbl.le A A' = true) (L : Int) (hL : 0 < L) :
    Dbl.le (fin 0) (Dbl.rounded (A / ofInt L)) = true ∧
      Dbl.le (Dbl.rounded (A / ofInt L)) (Dbl.rounded (A' / ofInt L)) = true := by
  have hLq : (0 : ℚ) < (L : ℚ) := by exact_mod_cast hL
  cases A with
  | fin a =>
    have ha : 0 ≤ a := by simpa [Dbl.le] using hA
    have h1 : (fin a : Dbl) / ofInt L = fin (a / (L : ℚ)) := by
      simp only [Dbl.hDiv_eq, Dbl.ofInt, Dbl.div, if_neg hLq.ne']
    have hn := Dbl.binary64_nonneg (a / (L : ℚ)) (div_nonneg ha hLq.le)
    cases A' with
    | fin a' =>
      have haa : a ≤ a' := by simpa [Dbl.le] using h
      have h2 : (fin a' : Dbl) / ofInt L = fin (a' / (L : ℚ)) := by
        simp only [Dbl.hDiv_eq, Dbl.ofInt, Dbl.div, if_neg hLq.ne']
      rw [h1, h2]
      exact ⟨hn, Dbl.binary64_mono (div_le_div_of_nonneg_right haa hLq.le)⟩
    | pinf =>
      have h2 : (pinf : Dbl) / ofInt L = pinf := by
        simp only [Dbl.hDiv_eq, Dbl.ofInt, Dbl.div, if_pos hLq.le]
      rw [h1, h2]
      exact ⟨hn, Dbl.le_pinf_of_le 0 _ hn⟩
    | ninf => simp [Dbl.le] at h
    | nan => simp [Dbl.le] at h
  | pinf =>
    cases A' with
    | pinf =>
      have h2 : (pinf : Dbl) / ofInt L = pinf := by
        simp only [Dbl.hDiv_eq, Dbl.ofInt, Dbl.div, if_pos hLq.le]
      rw [h2]
      exact ⟨rfl, rfl⟩
    | fin a' => simp [Dbl.le] at h
    | ninf => simp [Dbl.le] at h
    | nan => simp [Dbl.le] at h
  | ninf => simp [Dbl.le] at hA
  | nan => simp [Dbl.le] at hA

/-- Adding `R_start` keeps the order of the quotients. -/
theorem ladder_add_step (S : Dbl) (hS : Dbl.le (fin (-Dbl.maxFinite)) S = true) (B B' : Dbl)
    (hB : Dbl.le (fin 0) B = true) (h : Dbl.le B B' = true) :
    Dbl.le (Dbl.rounded (S + B)) (Dbl.rounded (S + B')) = true := by
  cases S with
  | fin s =>
    have hs : -Dbl.maxFinite ≤ s := by simpa [Dbl.le] using hS
    cases B with
    | fin b =>
      have hb : 0 ≤ b := by simpa [Dbl.le] using hB
      cases B' with
      | fin b' =>
        have hbb : b ≤ b' := by simpa [Dbl.le] using h
        exact Dbl.binary64_mono (by linarith : s + b ≤ s + b')
      | pinf =>
        exact Dbl.le_pinf_of_le _ _ (Dbl.binary64_ge_neg_maxFinite (s + b) (by linarith))
      | ninf => simp [Dbl.le] at h
      | nan => simp [Dbl.le] at h
    | pinf =>
      cases B' with
      | pinf => rfl
      | fin b' => simp [Dbl.le] at h
      | ninf => simp [Dbl.le] at h
      | nan => simp [Dbl.le] at h
    | ninf => simp [Dbl.le] at hB
    | nan => simp [Dbl.le] at hB
  | pinf =>
    cases B with
    | fin b =>
      cases B' with
      | fin b' => rfl
      | pinf => rfl
      | ninf => simp [Dbl.le] at h
      | nan => simp [Dbl.le] at h
    | pinf =>
      cases B' with
      | pinf => rfl
      | fin b' => simp [Dbl.le] at h
      | ninf => simp [Dbl.le] at h
      | nan => simp [Dbl.le] at h
    | ninf => simp [Dbl.le] at hB
    | nan => simp [Dbl.le] at hB
  | ninf => simp [Dbl.le] at hS
  | nan => simp [Dbl.le] at hS

/-- An entry of the binary64 ladder is at most the next one. -/
theorem ladder_step (S X : Dbl) (hS : Dbl.le (fin (-Dbl.maxFinite)) S = true)
    (hX : Dbl.le (fin 0) X = true) (L : Int) (hL : 0 < L) (i : Nat) :
    Dbl.le
      (Dbl.rounded (S + Dbl.rounded (Dbl.rounded (ofInt ((i : Int) + 1) * X) / ofInt L)))
      (Dbl.rounded
        (S + Dbl.rounded (Dbl.rounded (ofInt (((i + 1 : Nat) : Int) + 1) * X) / ofInt L)))
      = true := by
  obtain ⟨h1, h2⟩ := ladder_mul_step X hX ((i : Int) + 1) (((i + 1 : Nat) : Int) + 1)
    (by omega) (by push_cast; omega)
  obtain ⟨h3, h4⟩ := ladder_div_step _ _ h1 h2 L hL
  exact ladder_add_step S hS _ _ h3 h4

/-- The start and the step of the ladder in parallel mode: a resistance that does not convert
to `-inf`, divided by a positive row count, is at least `-DBL_MAX`; when it is not negative, so
is the quotient. -/
theorem ladder_parallel_bounds (q : ℚ) (N : Int) (hN : 0 < N) :
    (Dbl.binary64 q ≠ ninf →
      Dbl.le (fin (-Dbl.maxFinite)) (Dbl.rounded (Dbl.binary64 q / ofInt N)) = true) ∧
    (0 ≤ q → Dbl.le (fin 0) (Dbl.rounded (Dbl.binary64 q / ofInt N)) = true) := by
  have hNq : (0 : ℚ) < (N : ℚ) := by exact_mod_cast hN
  have hN1 : (1 : ℚ) ≤ (N : ℚ) := by exact_mod_cast hN
  have hmax : (0 : ℚ) ≤ Dbl.maxFinite := by
    unfold Dbl.maxFinite
    norm_num
  constructor
  · intro h
    have h1 := Dbl.binary64_ne_ninf q h
    cases hb : Dbl.binary64 q with
    | fin v =>
      rw [hb] at h1
      have hv : -Dbl.maxFinite ≤ v := by simpa [Dbl.le] using h1
      have h2 : (fin v : Dbl) / ofInt N = fin (v / (N : ℚ)) := by
        simp only [Dbl.hDiv_eq, Dbl.ofInt, Dbl.div, if_neg hNq.ne']
      rw [h2]
      apply Dbl.binary64_ge_neg_maxFinite
      by_cases hv0 : 0 ≤ v
      · have := div_nonneg hv0 hNq.le
        linarith
      · have hneg : 0 ≤ -v := by linarith
        have := div_le_self hneg hN1
        rw [neg_div] at this
        linarith
    | pinf =>
      simp only [Dbl.hDiv_eq, Dbl.ofInt, Dbl.div, if_pos hNq.le, Dbl.rounded, Dbl.le]
    | ninf => exact absurd hb h
    | nan => exact absurd hb (Dbl.binary64_ne_nan q)
  · intro hq
    have h1 := Dbl.binary64_nonneg q hq
    cases hb : Dbl.binary64 q with
    | fin v =>
      rw [hb] at h1
      have hv : 0 ≤ v := by simpa [Dbl.le] using h1
      have h2 : (fin v : Dbl) / ofInt N = fin (v / (N : ℚ)) := by
        simp only [Dbl.hDiv_eq, Dbl.ofInt, Dbl.div, if_neg hNq.ne']
      rw [h2]
      exact Dbl.binary64_nonneg _ (div_nonneg hv hNq.le)
    | pinf =>
      simp only [Dbl.hDiv_eq, Dbl.ofInt, Dbl.div, if_pos hNq.le, Dbl.rounded, Dbl.le]
    | ninf =>
      rw [hb] at h1
      simp [Dbl.le] at h1
    | nan => exact absurd hb (Dbl.binary64_ne_nan q)

/-- The ladder pushed by the binary64 `Initialize` in sequential mode. -/
theorem Initialize_binary64_Rref_seq (param : Param) (s : MultilevelSenseAmp)
    (numCol levelOutput : Int) (clkFreq : Dbl) (nrc : Int) (hs : s.initialized = false) :
    (Initialize.binary64 param s numCol levelOutput clkFreq nrc false).Rref
      = s.Rref ++ (List.range (levelOutput - 1).toNat).map fun (i : Nat) =>
          Dbl.rounded (Dbl.binary64 param.resistanceOn
            + Dbl.rounded (Dbl.rounded (ofInt ((i : Int) + 1) * Dbl.binary64 param.resistanceOff)
                / ofInt levelOutput)) := by
  simp only [Initialize.binary64, hs, Bool.false_eq_true, if_false, Dbl.rounded]

/-- The ladder pushed by the binary64 `Initialize` in parallel mode. -/
theorem Initialize_binary64_Rref_par (param : Param) (s : MultilevelSenseAmp)
    (numCol levelOutput : Int) (clkFreq : Dbl) (nrc : Int) (hs : s.initialized = false) :
    (Initialize.binary64 param s numCol levelOutput clkFreq nrc true).Rref
      = s.Rref ++ (List.range (levelOutput - 1).toNat).map fun (i : Nat) =>
          Dbl.rounded
            (Dbl.rounded (Dbl.binary64 param.resistanceOn / ofInt param.numRowSubArray)
              + Dbl.rounded (Dbl.rounded (ofInt ((i : Int) + 1)
                  * Dbl.rounded (Dbl.binary64 param.resistanceOff / ofInt param.numRowSubArray))
                / ofInt levelOutput)) := by
  simp only [Initialize.binary64, hs, Bool.false_eq_true, if_false, if_true, Dbl.rounded]

/-- C1, amended: for every `levelOutput >= 2`, with a positive off-state resistance, an
on-state resistance that does not convert to `-inf` and, in parallel mode, a positive row
count, `Initialize` in binary64 arithmetic on a freshly constructed component produces a
ladder `Rref` with exactly `levelOutput - 1` entries in which every entry is at most the next
one (and none is NaN), in parallel and in sequential mode. -/
theorem initialize_ladder_length_and_nondecreasing (param : Param)
    (u : MultilevelSenseAmp) (numCol levelOutput : Int) (clkFreq : Dbl)
    (numReadCellPerOperationNeuro : Int) (parallel : Bool)
    (hlevel : 2 ≤ levelOutput) (hoff : 0 < param.resistanceOff)
    (hon : Dbl.binary64 param.resistanceOn ≠ ninf)
    (hrow : parallel = true → 0 < param.numRowSubArray) :
    ((Initialize.binary64 param (ctor u) numCol levelOutput clkFreq
        numReadCellPerOperationNeuro parallel).Rref.length : Int) = levelOutput - 1 ∧
    ∀ (i : Nat) (a b : Dbl),
      (Initialize.binary64 param (ctor u) numCol levelOutput clkFreq
        numReadCellPerOperationNeuro parallel).Rref[i]? = some a →
      (Initialize.binary64 param (ctor u) numCol levelOutput clkFreq
        numReadCellPerOperationNeuro parallel).Rref[i + 1]? = some b →
      Dbl.le a b = true := by
  have hL : 0 < levelOutput := by omega
  have hfresh : (ctor u).initialized = false := rfl
  have hnil : (ctor u).Rref = [] := rfl
  cases parallel with
  | false =>
    rw [Initialize_binary64_Rref_seq param (ctor u) numCol levelOutput clkFreq _ hfresh, hnil]
    refine ⟨by simp; omega, ?_⟩
    intro i a b ha hb
    simp only [List.nil_append, List.getElem?_map, List.getElem?_range, Option.map_eq_some'] at ha hb
    obtain ⟨j, hj, rfl⟩ := ha
    obtain ⟨k, hk, rfl⟩ := hb
    rw [List.getElem?_eq_some_iff] at hj hk
    obtain ⟨_, hj⟩ := hj
    obtain ⟨_, hk⟩ := hk
    simp only [List.getElem_range] at hj hk
    subst hj hk
    exact ladder_step _ _ (Dbl.binary64_ne_ninf _ hon) (Dbl.binary64_nonneg _ hoff.le)
      levelOutput hL i
  | true =>
    have hN := hrow rfl
    rw [Initialize_binary64_Rref_par param (ctor u) numCol levelOutput clkFreq _ hfresh, hnil]
    refine ⟨by simp; omega, ?_⟩
    intro i a b ha hb
    simp only [List.nil_append, List.getElem?_map, List.getElem?_range, Option.map_eq_some'] at ha hb
    obtain ⟨j, hj, rfl⟩ := ha
    obtain ⟨k, hk, rfl⟩ := hb
    rw [List.getElem?_eq_some_iff] at hj hk
    obtain ⟨_, hj⟩ := hj
    obtain ⟨_, hk⟩ := hk
    simp only [List.getElem_range] at hj hk
    subst hj hk
    exact ladder_step _ _ ((ladder_parallel_bounds _ _ hN).1 hon)
      ((ladder_parallel_bounds _ _ hN).2 hoff.le) levelOutput hL i


/-- The binary64 value of an entry `R_start + (i+1)*R_index/levelOutput`, from the binary64
values of the product, of the quotient and of the sum. -/
theorem ladder_entry_eval (s x : ℚ) (L k : Int) (hL : L ≠ 0) (a b c : ℚ)
    (h1 : Dbl.binary64 ((k : ℚ) * x) = fin a) (h2 : Dbl.binary64 (a / (L : ℚ)) = fin b)
    (h3 : Dbl.binary64 (s + b) = fin c) :
    Dbl.rounded (fin s + Dbl.rounded (Dbl.rounded (ofInt k * fin x) / ofInt L)) = fin c := by
  have hL' : (L : ℚ) ≠ 0 := by exact_mod_cast hL
  simp only [Dbl.hMul_eq, Dbl.hDiv_eq, Dbl.hAdd_eq, Dbl.ofInt, Dbl.mul, Dbl.div, Dbl.add,
    Dbl.rounded, h1, h2, h3, if_neg hL']

/-- C1, amended, at a concrete input: parallel mode, `levelOutput = 4`, 128 rows. -/
theorem initialize_ladder_length_and_nondecreasing_witness :
    ((Initialize.binary64 ⟨1000, 100000, 128, 2, 22⟩ (ctor zeroed) 8 4 (fin 1000000000) 1
        true).Rref.length : Int) = 4 - 1 ∧
    ∀ (i : Nat) (a b : Dbl),
      (Initialize.binary64 ⟨1000, 100000, 128, 2, 22⟩ (ctor zeroed) 8 4 (fin 1000000000) 1
        true).Rref[i]? = some a →
      (Initialize.binary64 ⟨1000, 100000, 128, 2, 22⟩ (ctor zeroed) 8 4 (fin 1000000000) 1
        true).Rref[i + 1]? = some b →
      Dbl.le a b = true :=
  initialize_ladder_length_and_nondecreasing ⟨1000, 100000, 128, 2, 22⟩ zeroed 8 4
    (fin 1000000000) 1 true (by decide) (by norm_num)
    (by
      show Dbl.binary64 1000 ≠ ninf
      rw [binary64_1000]
      exact fun h => Dbl.noConfusion h)
    (fun _ => by decide)

/-- C1, as stated, fails: with `resistanceOn = 1e16`, `resistanceOff = 1` and
`levelOutput = 4` in sequential mode the steps `0.25`, `0.5` and `0.75` are absorbed by the
rounding of the sum (the doubles around `1e16` are 2 apart), so the ladder is
`[1e16, 1e16, 1e16]` and no entry is strictly below the next one. -/
theorem initialize_ladder_not_strictly_increasing :
    (Initialize.binary64 ⟨10 ^ 16, 1, 128, 2, 22⟩ (ctor zeroed) 8 4 (fin 1000000000) 1
        false).Rref = [fin (10 ^ 16), fin (10 ^ 16), fin (10 ^ 16)] ∧
    ¬ ∀ (i : Nat) (a b : Dbl),
      (Initialize.binary64 ⟨10 ^ 16, 1, 128, 2, 22⟩ (ctor zeroed) 8 4 (fin 1000000000) 1
        false).Rref[i]? = some a →
      (Initialize.binary64 ⟨10 ^ 16, 1, 128, 2, 22⟩ (ctor zeroed) 8 4 (fin 1000000000) 1
        false).Rref[i + 1]? = some b →
      Dbl.lt a b = true := by
  have hon : Dbl.binary64 (10 ^ 16) = fin (10 ^ 16) := by
    apply Dbl.binary64_eq _ _ 53 5000000000000000 <;> norm_num
  have hoff : Dbl.binary64 1 = fin 1 := by
    apply Dbl.binary64_eq _ _ 0 4503599627370496 <;> norm_num
  have e0 : Dbl.rounded (fin (10 ^ 16)
      + Dbl.rounded (Dbl.rounded (ofInt (((0 : Nat) : Int) + 1) * fin 1) / ofInt 4))
        = fin (10 ^ 16) := by
    apply ladder_entry_eval _ _ _ _ (by decide) 1 (1 / 4)
    · apply Dbl.binary64_eq _ _ 0 4503599627370496 <;> norm_num
    · apply Dbl.binary64_eq _ _ (-2) 4503599627370496 <;> norm_num
    · apply Dbl.binary64_eq _ _ 53 5000000000000000 <;> norm_num
  have e1 : Dbl.rounded (fin (10 ^ 16)
      + Dbl.rounded (Dbl.rounded (ofInt (((1 : Nat) : Int) + 1) * fin 1) / ofInt 4))
        = fin (10 ^ 16) := by
    apply ladder_entry_eval _ _ _ _ (by decide) 2 (1 / 2)
    · apply Dbl.binary64_eq _ _ 1 4503599627370496 <;> norm_num
    · apply Dbl.binary64_eq _ _ (-1) 4503599627370496 <;> norm_num
    · apply Dbl.binary64_eq _ _ 53 5000000000000000 <;> norm_num
  have e2 : Dbl.rounded (fin (10 ^ 16)
      + Dbl.rounded (Dbl.rounded (ofInt (((2 : Nat) : Int) + 1) * fin 1) / ofInt 4))
        = fin (10 ^ 16) := by
    apply ladder_entry_eval _ _ _ _ (by decide) 3 (3 / 4)
    · apply Dbl.binary64_eq _ _ 1 6755399441055744 <;> norm_num
    · apply Dbl.binary64_eq _ _ (-1) 6755399441055744 <;> norm_num
    · apply Dbl.binary64_eq _ _ 53 5000000000000000 <;> norm_num
  have h : (Initialize.binary64 ⟨10 ^ 16, 1, 128, 2, 22⟩ (ctor zeroed) 8 4 (fin 1000000000) 1
      false).Rref = [fin (10 ^ 16), fin (10 ^ 16), fin (10 ^ 16)] := by
    rw [Initialize_binary64_Rref_seq _ _ _ _ _ _ rfl]
    have h3 : ((4 : Int) - 1).toNat = 3 := by decide
    simp only [h3, ctor, List.nil_append, List.range_succ, List.range_zero, List.map_append,
      List.map_cons, List.map_nil, hon, hoff, e0, e1, e2, List.cons_append]
  refine ⟨h, ?_⟩
  rw [h]
  intro hall
  have := hall 0 (fin (10 ^ 16)) (fin (10 ^ 16)) rfl rfl
  simp [Dbl.lt] at this


/-- An entry of the binary64 ladder whose product `(i+1)*R_index` overflows is `+inf`. -/
theorem ladder_entry_overflow (s x : ℚ) (L k : Int) (hL : 0 < L)
    (h1 : Dbl.binary64 ((k : ℚ) * x) = pinf) :
    Dbl.rounded (fin s + Dbl.rounded (Dbl.rounded (ofInt k * fin x) / ofInt L)) = pinf := by
  have hL' : (0 : ℚ) ≤ (L : ℚ) := by exact_mod_cast hL.le
  simp only [Dbl.hMul_eq, Dbl.hDiv_eq, Dbl.hAdd_eq, Dbl.ofInt, Dbl.mul, Dbl.div, Dbl.add,
    Dbl.rounded, h1, if_pos hL']

/-- The binary64 value of `R_start + ((i+1)/levelOutput) * R_index` evaluated in this order,
from the binary64 values of the quotient, of the product and of the sum. -/
theorem interpolation_eval (s x : ℚ) (L k : Int) (hL : L ≠ 0) (t d c : ℚ)
    (hs : Dbl.binary64 s = fin s) (hx : Dbl.binary64 x = fin x)
    (h1 : Dbl.binary64 ((k : ℚ) / (L : ℚ)) = fin t) (h2 : Dbl.binary64 (t * x) = fin d)
    (h3 : Dbl.binary64 (s + d) = fin c) :
    Dbl.rounded (Dbl.rounded (fin s)
        + Dbl.rounded (Dbl.rounded (ofInt k / ofInt L) * Dbl.rounded (fin x))) = fin c := by
  have hL' : (L : ℚ) ≠ 0 := by exact_mod_cast hL
  simp only [Dbl.hMul_eq, Dbl.hDiv_eq, Dbl.hAdd_eq, Dbl.ofInt, Dbl.mul, Dbl.div, Dbl.add,
    Dbl.rounded, hs, hx, h1, h2, h3, if_neg hL']

/-- The entry of index `i` of the binary64 ladder of a fresh component, sequential mode. -/
theorem Initialize_binary64_getElem_seq (param : Param) (s : MultilevelSenseAmp)
    (numCol levelOutput : Int) (clkFreq : Dbl) (nrc : Int) (hs : s.initialized = false)
    (hnil : s.Rref = []) (i : Nat) (hlt : i < (levelOutput - 1).toNat) :
    (Initialize.binary64 param s numCol levelOutput clkFreq nrc false).Rref[i]?
      = some (Dbl.rounded (Dbl.binary64 param.resistanceOn
            + Dbl.rounded (Dbl.rounded (ofInt ((i : Int) + 1) * Dbl.binary64 param.resistanceOff)
                / ofInt levelOutput))) := by
  rw [Initialize_binary64_Rref_seq param s numCol levelOutput clkFreq _ hs, hnil]
  simp only [List.nil_append, List.getElem?_map, List.getElem?_range hlt, Option.map_some']

/-- The entry of index `i` of the binary64 ladder of a fresh component, parallel mode. -/
theorem Initialize_binary64_getElem_par (param : Param) (s : MultilevelSenseAmp)
    (numCol levelOutput : Int) (clkFreq : Dbl) (nrc : Int) (hs : s.initialized = false)
    (hnil : s.Rref = []) (i : Nat) (hlt : i < (levelOutput - 1).toNat) :
    (Initialize.binary64 param s numCol levelOutput clkFreq nrc true).Rref[i]?
      = some (Dbl.rounded
            (Dbl.rounded (Dbl.binary64 param.resistanceOn / ofInt param.numRowSubArray)
              + Dbl.rounded (Dbl.rounded (ofInt ((i : Int) + 1)
                  * Dbl.rounded (Dbl.binary64 param.resistanceOff / ofInt param.numRowSubArray))
                / ofInt levelOutput))) := by
  rw [Initialize_binary64_Rref_par param s numCol levelOutput clkFreq _ hs, hnil]
  simp only [List.nil_append, List.getElem?_map, List.getElem?_range hlt, Option.map_some']

/-- The binary64 value of an entry in parallel mode, from the binary64 values of the two
quotients by the row count, of the product, of the quotient and of the sum. -/
theorem ladder_entry_eval_par (ron roff : ℚ) (N L k : Int) (hN : N ≠ 0) (hL : L ≠ 0)
    (s x a b c : ℚ) (hon : Dbl.binary64 ron = fin ron) (hoff : Dbl.binary64 roff = fin roff)
    (hs : Dbl.binary64 (ron / (N : ℚ)) = fin s) (hx : Dbl.binary64 (roff / (N : ℚ)) = fin x)
    (h1 : Dbl.binary64 ((k : ℚ) * x) = fin a) (h2 : Dbl.binary64 (a / (L : ℚ)) = fin b)
    (h3 : Dbl.binary64 (s + b) = fin c) :
    Dbl.rounded (Dbl.rounded (Dbl.binary64 ron / ofInt N)
        + Dbl.rounded (Dbl.rounded (ofInt k * Dbl.rounded (Dbl.binary64 roff / ofInt N))
            / ofInt L)) = fin c := by
  have hN' : (N : ℚ) ≠ 0 := by exact_mod_cast hN
  have h4 : Dbl.rounded (Dbl.binary64 ron / ofInt N) = fin s := by
    simp only [hon, Dbl.hDiv_eq, Dbl.ofInt, Dbl.div, if_neg hN', Dbl.rounded, hs]
  have h5 : Dbl.rounded (Dbl.binary64 roff / ofInt N) = fin x := by
    simp only [hoff, Dbl.hDiv_eq, Dbl.ofInt, Dbl.div, if_neg hN', Dbl.rounded, hx]
  rw [h4, h5]
  exact ladder_entry_eval s x L k hL a b c h1 h2 h3

/-- C2, amended: after `Initialize` in binary64 arithmetic on a fresh component, for every
index `i` with `0 <= i <= levelOutput - 2` the ladder entry is
`R_start + (i+1)*R_index/levelOutput` evaluated in this order, each result rounded to a
double: the product `(i+1)*R_index`, then its quotient by `levelOutput`, then the sum with
`R_start`.  In sequential mode `R_start` and `R_index` are `resistanceOn` and `resistanceOff`
converted to double; in parallel mode they are the rounded quotients of these by
`numRowSubArray`.  When no result on the way is rounded (the parameters and the exact value of
each result are doubles), the entry is `resistanceOn + ((i+1)/levelOutput) * resistanceOff` in
sequential mode and, for a nonzero row count, that value divided by `numRowSubArray` in
parallel mode. -/
theorem initialize_ladder_entries_in_source_order (param : Param) (u : MultilevelSenseAmp)
    (numCol levelOutput : Int) (clkFreq : Dbl) (numReadCellPerOperationNeuro : Int) (i : Nat)
    (hi : (i : Int) ≤ levelOutput - 2) :
    (Initialize.binary64 param (ctor u) numCol levelOutput clkFreq numReadCellPerOperationNeuro
        false).Rref[i]?
      = some (Dbl.rounded (Dbl.rounded (fin param.resistanceOn)
          + Dbl.rounded (Dbl.rounded (ofInt ((i : Int) + 1) * Dbl.rounded (fin param.resistanceOff))
              / ofInt levelOutput))) ∧
    (Initialize.binary64 param (ctor u) numCol levelOutput clkFreq numReadCellPerOperationNeuro
        true).Rref[i]?
      = some (Dbl.rounded
          (Dbl.rounded (Dbl.rounded (fin param.resistanceOn) / ofInt param.numRowSubArray)
            + Dbl.rounded (Dbl.rounded (ofInt ((i : Int) + 1)
                * Dbl.rounded (Dbl.rounded (fin param.resistanceOff)
                    / ofInt param.numRowSubArray))
              / ofInt levelOutput))) ∧
    (Dbl.binary64 param.resistanceOn = fin param.resistanceOn →
      Dbl.binary64 param.resistanceOff = fin param.resistanceOff →
      Dbl.binary64 (((i : ℚ) + 1) * param.resistanceOff)
        = fin (((i : ℚ) + 1) * param.resistanceOff) →
      Dbl.binary64 (((i : ℚ) + 1) * param.resistanceOff / (levelOutput : ℚ))
        = fin (((i : ℚ) + 1) * param.resistanceOff / (levelOutput : ℚ)) →
      Dbl.binary64
          (param.resistanceOn + ((i : ℚ) + 1) * param.resistanceOff / (levelOutput : ℚ))
        = fin (param.resistanceOn + ((i : ℚ) + 1) * param.resistanceOff / (levelOutput : ℚ)) →
      (Initialize.binary64 param (ctor u) numCol levelOutput clkFreq
          numReadCellPerOperationNeuro false).Rref[i]?
        = some (fin (param.resistanceOn
            + (((i : ℚ) + 1) / (levelOutput : ℚ)) * param.resistanceOff))) ∧
    (param.numRowSubArray ≠ 0 →
      Dbl.binary64 param.resistanceOn = fin param.resistanceOn →
      Dbl.binary64 param.resistanceOff = fin param.resistanceOff →
      Dbl.binary64 (param.resistanceOn / (param.numRowSubArray : ℚ))
        = fin (param.resistanceOn / (param.numRowSubArray : ℚ)) →
      Dbl.binary64 (param.resistanceOff / (param.numRowSubArray : ℚ))
        = fin (param.resistanceOff / (param.numRowSubArray : ℚ)) →
      Dbl.binary64 (((i : ℚ) + 1) * (param.resistanceOff / (param.numRowSubArray : ℚ)))
        = fin (((i : ℚ) + 1) * (param.resistanceOff / (param.numRowSubArray : ℚ))) →
      Dbl.binary64 (((i : ℚ) + 1) * (param.resistanceOff / (param.numRowSubArray : ℚ))
          / (levelOutput : ℚ))
        = fin (((i : ℚ) + 1) * (param.resistanceOff / (param.numRowSubArray : ℚ))
          / (levelOutput : ℚ)) →
      Dbl.binary64 (param.resistanceOn / (param.numRowSubArray : ℚ)
          + ((i : ℚ) + 1) * (param.resistanceOff / (param.numRowSubArray : ℚ))
            / (levelOutput : ℚ))
        = fin (param.resistanceOn / (param.numRowSubArray : ℚ)
          + ((i : ℚ) + 1) * (param.resistanceOff / (param.numRowSubArray : ℚ))
            / (levelOutput : ℚ)) →
      (Initialize.binary64 param (ctor u) numCol levelOutput clkFreq
          numReadCellPerOperationNeuro true).Rref[i]?
        = some (fin ((param.resistanceOn
            + (((i : ℚ) + 1) / (levelOutput : ℚ)) * param.resistanceOff)
              / (param.numRowSubArray : ℚ)))) := by
  have hfresh : (ctor u).initialized = false := rfl
  have hnil : (ctor u).Rref = [] := rfl
  have hlt : i < (levelOutput - 1).toNat := by omega
  have hL : levelOutput ≠ 0 := by omega
  have hLq : (levelOutput : ℚ) ≠ 0 := by exact_mod_cast hL
  have hk : ((((i : Int) + 1 : Int)) : ℚ) = (i : ℚ) + 1 := by push_cast; rfl
  refine ⟨?_, ?_, ?_, ?_⟩
  · rw [Initialize_binary64_getElem_seq param (ctor u) numCol levelOutput clkFreq _ hfresh hnil
      i hlt]
    rfl
  · rw [Initialize_binary64_getElem_par param (ctor u) numCol levelOutput clkFreq _ hfresh hnil
      i hlt]
    rfl
  · intro hon hoff h1 h2 h3
    rw [Initialize_binary64_getElem_seq param (ctor u) numCol levelOutput clkFreq _ hfresh hnil
      i hlt, hon, hoff,
      ladder_entry_eval param.resistanceOn param.resistanceOff levelOutput ((i : Int) + 1) hL
        _ _ _ (by rw [hk]; exact h1) h2 h3]
    congr 2
    field_simp
  · intro hN hon hoff hs hx h1 h2 h3
    have hNq : (param.numRowSubArray : ℚ) ≠ 0 := by exact_mod_cast hN
    rw [Initialize_binary64_getElem_par param (ctor u) numCol levelOutput clkFreq _ hfresh hnil
      i hlt,
      ladder_entry_eval_par param.resistanceOn param.resistanceOff param.numRowSubArray
        levelOutput ((i : Int) + 1) hN hL _ _ _ _ _ hon hoff hs hx (by rw [hk]; exact h1) h2 h3]
    congr 2
    field_simp
    ring

/-- C2, amended, at a concrete input: index 2 of a four-level ladder with 128 rows, where no
result is rounded, so that the entry is `1000 + (3/4) * 100000` in sequential mode and that
value divided by 128 in parallel mode. -/
theorem initialize_ladder_entries_in_source_order_witness :
    (Initialize.binary64 ⟨1000, 100000, 128, 2, 22⟩ (ctor zeroed) 8 4 (fin 1000000000) 1
        false).Rref[2]?
      = some (Dbl.rounded (Dbl.rounded (fin 1000)
          + Dbl.rounded (Dbl.rounded (ofInt (((2 : Nat) : Int) + 1) * Dbl.rounded (fin 100000))
              / ofInt 4))) ∧
    (Initialize.binary64 ⟨1000, 100000, 128, 2, 22⟩ (ctor zeroed) 8 4 (fin 1000000000) 1
        true).Rref[2]?
      = some (Dbl.rounded
          (Dbl.rounded (Dbl.rounded (fin 1000) / ofInt 128)
            + Dbl.rounded (Dbl.rounded (ofInt (((2 : Nat) : Int) + 1)
                * Dbl.rounded (Dbl.rounded (fin 100000) / ofInt 128))
              / ofInt 4))) ∧
    (Initialize.binary64 ⟨1000, 100000, 128, 2, 22⟩ (ctor zeroed) 8 4 (fin 1000000000) 1
        false).Rref[2]?
      = some (fin (1000 + ((((2 : Nat) : ℚ) + 1) / ((4 : Int) : ℚ)) * 100000)) ∧
    (Initialize.binary64 ⟨1000, 100000, 128, 2, 22⟩ (ctor zeroed) 8 4 (fin 1000000000) 1
        true).Rref[2]?
      = some (fin ((1000 + ((((2 : Nat) : ℚ) + 1) / ((4 : Int) : ℚ)) * 100000)
            / ((128 : Int) : ℚ))) := by
  obtain ⟨h1, h2, h3, h4⟩ :=
    initialize_ladder_entries_in_source_order ⟨1000, 100000, 128, 2, 22⟩ zeroed 8 4
      (fin 1000000000) 1 2 (by decide)
  refine ⟨h1, h2, h3 binary64_1000 binary64_100000 ?_ ?_ ?_,
    h4 (by decide) binary64_1000 binary64_100000 ?_ ?_ ?_ ?_ ?_⟩
  · apply Dbl.binary64_eq _ _ 18 5153960755200000 <;> norm_num
  · apply Dbl.binary64_eq _ _ 16 5153960755200000 <;> norm_num
  · apply Dbl.binary64_eq _ _ 16 5222680231936000 <;> norm_num
  · apply Dbl.binary64_eq _ _ 2 8796093022208000 <;> norm_num
  · apply Dbl.binary64_eq _ _ 9 6871947673600000 <;> norm_num
  · apply Dbl.binary64_eq _ _ 11 5153960755200000 <;> norm_num
  · apply Dbl.binary64_eq _ _ 9 5153960755200000 <;> norm_num
  · apply Dbl.binary64_eq _ _ 9 5222680231936000 <;> norm_num

/-- On the sample input the binary64 ladder is `[26000, 51000, 76000]`, the ladder of exact
arithmetic: no result on the way is rounded. -/
theorem Initialize_binary64_sample_Rref :
    (Initialize.binary64 ⟨1000, 100000, 128, 2, 22⟩ (ctor zeroed) 8 4 (fin 1000000000) 1
        false).Rref = [fin 26000, fin 51000, fin 76000] := by
  have e0 : Dbl.rounded (fin 1000
      + Dbl.rounded (Dbl.rounded (ofInt (((0 : Nat) : Int) + 1) * fin 100000) / ofInt 4))
        = fin 26000 := by
    apply ladder_entry_eval _ _ _ _ (by decide) 100000 25000
    · apply Dbl.binary64_eq _ _ 16 6871947673600000 <;> norm_num
    · apply Dbl.binary64_eq _ _ 14 6871947673600000 <;> norm_num
    · apply Dbl.binary64_eq _ _ 14 7146825580544000 <;> norm_num
  have e1 : Dbl.rounded (fin 1000
      + Dbl.rounded (Dbl.rounded (ofInt (((1 : Nat) : Int) + 1) * fin 100000) / ofInt 4))
        = fin 51000 := by
    apply ladder_entry_eval _ _ _ _ (by decide) 200000 50000
    · apply Dbl.binary64_eq _ _ 17 6871947673600000 <;> norm_num
    · apply Dbl.binary64_eq _ _ 15 6871947673600000 <;> norm_num
    · apply Dbl.binary64_eq _ _ 15 7009386627072000 <;> norm_num
  have e2 : Dbl.rounded (fin 1000
      + Dbl.rounded (Dbl.rounded (ofInt (((2 : Nat) : Int) + 1) * fin 100000) / ofInt 4))
        = fin 76000 := by
    apply ladder_entry_eval _ _ _ _ (by decide) 300000 75000
    · apply Dbl.binary64_eq _ _ 18 5153960755200000 <;> norm_num
    · apply Dbl.binary64_eq _ _ 16 5153960755200000 <;> norm_num
    · apply Dbl.binary64_eq _ _ 16 5222680231936000 <;> norm_num
  rw [Initialize_binary64_Rref_seq _ _ _ _ _ _ rfl]
  have h3 : ((4 : Int) - 1).toNat = 3 := by decide
  simp only [h3, ctor, List.nil_append, List.range_succ, List.range_zero, List.map_append,
    List.map_cons, List.map_nil, binary64_1000, binary64_100000, e0, e1, e2, List.cons_append]

/-- C2, as stated, fails.  With `resistanceOn = 1000`, `resistanceOff = 100000` and
`levelOutput = 3` in sequential mode the first entry of the ladder is the double
`4718737402538667 / 2^37` (34333.333333333336), while `1000 + ((0+1)/3) * 100000` evaluated in
double arithmetic is `4718737402538666 / 2^37` (34333.33333333333) and its exact value
`103000/3` is not a double.  With `resistanceOn = 1`, `resistanceOff = 2^1023` and
`levelOutput = 4` the product `2 * resistanceOff` overflows, so the entry of index 1 is `+inf`,
while `1 + ((1+1)/4) * 2^1023` is finite. -/
theorem initialize_ladder_entry_not_interpolation :
    ((Initialize.binary64 ⟨1000, 100000, 128, 2, 22⟩ (ctor zeroed) 8 3 (fin 1000000000) 1
        false).Rref[0]? = some (fin (4718737402538667 / 2 ^ 37)) ∧
      Dbl.rounded (Dbl.rounded (fin 1000)
          + Dbl.rounded (Dbl.rounded (ofInt (0 + 1) / ofInt 3) * Dbl.rounded (fin 100000)))
        = fin (4718737402538666 / 2 ^ 37) ∧
      (4718737402538667 / 2 ^ 37 : ℚ) ≠ 4718737402538666 / 2 ^ 37 ∧
      (4718737402538667 / 2 ^ 37 : ℚ) ≠ 1000 + ((0 + 1) / 3) * 100000) ∧
    ((Initialize.binary64 ⟨1, 2 ^ 1023, 128, 2, 22⟩ (ctor zeroed) 8 4 (fin 1000000000) 1
        false).Rref[1]? = some pinf ∧
      Dbl.rounded (Dbl.rounded (fin 1)
          + Dbl.rounded (Dbl.rounded (ofInt (1 + 1) / ofInt 4) * Dbl.rounded (fin (2 ^ 1023))))
        = fin (2 ^ 1022)) := by
  refine ⟨⟨?_, ?_, by norm_num, by norm_num⟩, ?_, ?_⟩
  · rw [Initialize_binary64_getElem_seq _ _ _ _ _ _ rfl rfl 0 (by decide)]
    show some (Dbl.rounded (Dbl.binary64 1000
      + Dbl.rounded (Dbl.rounded (ofInt (((0 : Nat) : Int) + 1) * Dbl.binary64 100000)
          / ofInt 3))) = some (fin (4718737402538667 / 2 ^ 37))
    rw [binary64_1000, binary64_100000]
    congr 1
    apply ladder_entry_eval _ _ _ _ (by decide) 100000 (4581298449066667 / 2 ^ 37)
    · apply Dbl.binary64_eq _ _ 16 6871947673600000 <;> norm_num
    · apply Dbl.binary64_eq _ _ 15 4581298449066667 <;> norm_num
    · apply Dbl.binary64_eq _ _ 15 4718737402538667 <;> norm_num
  · apply interpolation_eval _ _ _ _ (by decide) (6004799503160661 / 2 ^ 54)
      (4581298449066666 / 2 ^ 37)
    · exact binary64_1000
    · exact binary64_100000
    · apply Dbl.binary64_eq _ _ (-2) 6004799503160661 <;> norm_num
    · apply Dbl.binary64_eq _ _ 15 4581298449066666 <;> norm_num
    · apply Dbl.binary64_eq _ _ 15 4718737402538666 <;> norm_num
  · have hon : Dbl.binary64 1 = fin 1 := by
      apply Dbl.binary64_eq _ _ 0 4503599627370496 <;> norm_num
    have hoff : Dbl.binary64 (2 ^ 1023) = fin (2 ^ 1023) := by
      apply Dbl.binary64_eq _ _ 1023 4503599627370496 <;> norm_num
    have hover : Dbl.binary64 ((((((1 : Nat) : Int) + 1 : Int)) : ℚ) * 2 ^ 1023) = pinf := by
      apply binary64_overflow
      norm_num
    rw [Initialize_binary64_getElem_seq _ _ _ _ _ _ rfl rfl 1 (by decide)]
    show some (Dbl.rounded (Dbl.binary64 1
      + Dbl.rounded (Dbl.rounded (ofInt (((1 : Nat) : Int) + 1) * Dbl.binary64 (2 ^ 1023))
          / ofInt 4))) = some pinf
    rw [hon, hoff, ladder_entry_overflow _ _ _ _ (by decide) hover]
  · apply interpolation_eval _ _ _ _ (by decide) (1 / 2) (2 ^ 1022)
    · apply Dbl.binary64_eq _ _ 0 4503599627370496 <;> norm_num
    · apply Dbl.binary64_eq _ _ 1023 4503599627370496 <;> norm_num
    · apply Dbl.binary64_eq _ _ (-1) 4503599627370496 <;> norm_num
    · apply Dbl.binary64_eq _ _ 1022 4503599627370496 <;> norm_num
    · apply Dbl.binary64_eq _ _ 1022 4503599627370496 <;> norm_num


/-! ### The ladder of the example -/

/-- C3, as stated, fails: with `levelOutput = 4`, `numCol = 8`, sequential mode,
`resistanceOn = 1000` and `resistanceOff = 100000` the ladder is `[26000, 51000, 76000]`,
not `[34000, 67000, 100000]`. -/
theorem initialize_example_ladder_differs :
    (Initialize ⟨1000, 100000, 128, 2, 22⟩ (ctor zeroed) 8 4 (fin 1000000000) 1 false).Rref
        = [fin 26000, fin 51000, fin 76000] ∧
    (Initialize ⟨1000, 100000, 128, 2, 22⟩ (ctor zeroed) 8 4 (fin 1000000000) 1 false).Rref
        ≠ [fin 34000, fin 67000, fin 100000] := by
  have h : (Initialize ⟨1000, 100000, 128, 2, 22⟩ (ctor zeroed) 8 4 (fin 1000000000) 1
      false).Rref = [fin 26000, fin 51000, fin 76000] := by
    rw [Initialize_Rref_seq _ _ _ _ _ _ rfl (by decide)]
    have h3 : ((4 : Int) - 1).toNat = 3 := by decide
    simp only [h3, ctor, List.nil_append, List.range_succ, List.range_zero, List.map_append,
      List.map_cons, List.map_nil, List.cons.injEq, Dbl.fin.injEq, and_true]
    norm_num
  rw [h]
  refine ⟨rfl, ?_⟩
  simp only [ne_eq, List.cons.injEq, Dbl.fin.injEq, and_true, not_and]
  norm_num

/-- C3, amended: `Initialize` with `levelOutput = 4`, `numCol = 8`, `parallel = false` on a
fresh component, with `resistanceOn = 1000` and `resistanceOff = 100000`, produces the ladder
`[26000, 51000, 76000]`, that is `1000 + (i+1) * 100000 / 4` for `i = 0, 1, 2`. -/
theorem initialize_example_ladder (u : MultilevelSenseAmp) (clkFreq : Dbl)
    (numReadCellPerOperationNeuro numRowSubArray deviceroadmap technode : Int) :
    (Initialize ⟨1000, 100000, numRowSubArray, deviceroadmap, technode⟩ (ctor u) 8 4 clkFreq
        numReadCellPerOperationNeuro false).Rref
      = [fin 26000, fin 51000, fin 76000] := by
  rw [Initialize_Rref_seq _ _ _ _ _ _ rfl (by decide)]
  have h3 : ((4 : Int) - 1).toNat = 3 := by decide
  simp only [h3, ctor, List.nil_append, List.range_succ, List.range_zero, List.map_append,
    List.map_cons, List.map_nil, List.cons.injEq, Dbl.fin.injEq, and_true]
  norm_num

/-- C4: `Initialize` sets the `initialized` flag, and a second call, with the same or with
different arguments and parameters, returns the component exactly as the first call left it:
`numCol`, `levelOutput`, `clkFreq`, `numReadCellPerOperationNeuro`, `parallel`, the ladder
`Rref` and every other member are unchanged. -/
theorem initialize_twice_is_noop (param param' : Param) (s : MultilevelSenseAmp)
    (numCol levelOutput : Int) (clkFreq : Dbl) (numReadCellPerOperationNeuro : Int)
    (parallel : Bool) (numCol' levelOutput' : Int) (clkFreq' : Dbl)
    (numReadCellPerOperationNeuro' : Int) (parallel' : Bool) :
    (Initialize param s numCol levelOutput clkFreq numReadCellPerOperationNeuro
        parallel).initialized = true ∧
    Initialize param'
        (Initialize param s numCol levelOutput clkFreq numReadCellPerOperationNeuro parallel)
        numCol' levelOutput' clkFreq' numReadCellPerOperationNeuro' parallel'
      = Initialize param s numCol levelOutput clkFreq numReadCellPerOperationNeuro parallel := by
  have h1 : (Initialize param s numCol levelOutput clkFreq numReadCellPerOperationNeuro
        parallel).initialized = true := by
    unfold Initialize
    split <;> simp_all
  refine ⟨h1, ?_⟩
  generalize Initialize param s numCol levelOutput clkFreq numReadCellPerOperationNeuro
    parallel = t at h1 ⊢
  simp only [Initialize, h1, if_true]


/-! ## Column functions on an initialized component -/

/-- The first `Initialize` on a constructed component makes it `Initialized`. -/
theorem Initialized_Initialize (param : Param) (u : MultilevelSenseAmp)
    (numCol levelOutput : Int) (clkFreq : Dbl) (numReadCellPerOperationNeuro : Int)
    (parallel : Bool) :
    Initialized
      (Initialize param (ctor u) numCol levelOutput clkFreq numReadCellPerOperationNeuro
        parallel) := by
  cases parallel <;> simp [Initialized, Initialize, ctor]

/-- The sample component is `Initialized`. -/
theorem Initialized_sample : Initialized sample :=
  Initialized_Initialize _ _ _ _ _ _ _

/-- A loop over ladder indices inside the vector performs no out-of-range read. -/
theorem foldlM_levels_some (Rref : List Dbl) (body : Dbl → Dbl → Dbl) (l : List Nat)
    (h : ∀ i ∈ l, i < Rref.length) (init : Dbl) :
    ∃ v, l.foldlM (fun acc i => (Rref[i]?).map fun Rref_i => body acc Rref_i) init
      = some v := by
  induction l generalizing init with
  | nil => exact ⟨init, rfl⟩
  | cons i l ih =>
    have hi : i < Rref.length := h i (List.mem_cons_self _ _)
    obtain ⟨v, hv⟩ := ih (fun j hj => h j (List.mem_cons_of_mem _ hj)) (body init Rref[i])
    refine ⟨v, ?_⟩
    simp only [List.foldlM_cons, List.getElem?_eq_getElem hi, Option.map_some',
      Option.some_bind, Option.bind_eq_bind]
    exact hv

/-- On an initialized component the per-level loop reads inside the ladder. -/
theorem forLevels_some (s : MultilevelSenseAmp) (hs : Initialized s) (init : Dbl)
    (body : Dbl → Dbl → Dbl) : ∃ v, forLevels s.levelOutput s.Rref init body = some v := by
  unfold forLevels
  apply foldlM_levels_some
  intro i hi
  rw [List.mem_range'_1] at hi
  rw [hs.2]
  omega

/-- On an initialized component `GetColumnLatency` returns a value. -/
theorem GetColumnLatency_some (ln : ℚ → ℚ) (param : Param) (s : MultilevelSenseAmp)
    (hs : Initialized s) (columnRes : Dbl) :
    ∃ v, GetColumnLatency ln param s columnRes = some v := by
  unfold GetColumnLatency
  lift_lets
  intros
  split_ifs
  all_goals first | exact ⟨_, rfl⟩ | exact forLevels_some s hs _ _

/-- On an initialized component `GetColumnPower` returns a value. -/
theorem GetColumnPower_some (ln : ℚ → ℚ) (param : Param) (s : MultilevelSenseAmp)
    (hs : Initialized s) (columnRes : Dbl) :
    ∃ v, GetColumnPower ln param s columnRes = some v := by
  unfold GetColumnPower
  lift_lets
  intros
  split_ifs
  all_goals first | exact ⟨_, rfl⟩ | exact forLevels_some s hs _ _


/-- The function `Initialize` keeps an initialized component initialized (it is then a no-op). -/
theorem Initialized_Initialize_again (param : Param) (s : MultilevelSenseAmp)
    (hs : Initialized s) (numCol levelOutput : Int) (clkFreq : Dbl)
    (numReadCellPerOperationNeuro : Int) (parallel : Bool) :
    Initialized
      (Initialize param s numCol levelOutput clkFreq numReadCellPerOperationNeuro parallel) := by
  simp only [Initialize, hs.1, if_true]
  exact hs

/-- The function `CalculateLatency` keeps an initialized component initialized. -/
theorem Initialized_CalculateLatency (ln : ℚ → ℚ) (param : Param) (s s' : MultilevelSenseAmp)
    (hs : Initialized s) (columnResistance : List Dbl) (numColMuxed numRead : Dbl)
    (h : CalculateLatency ln param s columnResistance numColMuxed numRead = some s') :
    Initialized s' := by
  simp only [CalculateLatency, hs.1, Bool.not_true, Bool.false_eq_true, if_false,
    Option.bind_eq_bind, Option.pure_def, Option.bind_eq_some] at h
  obtain ⟨_, _, h⟩ := h
  injection h with h
  subst h
  exact ⟨rfl, hs.2⟩

/-- The function `CalculatePower` keeps an initialized component initialized. -/
theorem Initialized_CalculatePower (ln : ℚ → ℚ) (param : Param) (s s' : MultilevelSenseAmp)
    (hs : Initialized s) (columnResistance : List Dbl) (numRead : Dbl)
    (h : CalculatePower ln param s columnResistance numRead = some s') :
    Initialized s' := by
  simp only [CalculatePower, hs.1, Bool.not_true, Bool.false_eq_true, if_false,
    Option.bind_eq_bind, Option.pure_def, Option.bind_eq_some] at h
  obtain ⟨_, _, h⟩ := h
  injection h with h
  subst h
  exact ⟨rfl, hs.2⟩


/-! ## Latency and power -/

/-- The clamp at the end of the loop body brings every running maximum that is not NaN into
`[1e-9, 1e-8]`. -/
theorem CalculateLatency.step_clamped (LatencyCol T_Col r : Dbl) (h : LatencyCol ≠ nan) :
    ∃ q : ℚ, CalculateLatency.step LatencyCol T_Col r = fin q ∧ 1e-9 ≤ q ∧ q ≤ 1e-8 := by
  have hmax : Dbl.max LatencyCol T_Col ≠ nan := by
    unfold Dbl.max
    split_ifs with hlt
    · intro hT
      subst hT
      cases LatencyCol <;> simp [Dbl.lt] at hlt
    · exact h
  have hL1 : (if Dbl.eq r r then Dbl.max LatencyCol T_Col else LatencyCol) ≠ nan := by
    split_ifs
    · exact hmax
    · exact h
  unfold CalculateLatency.step
  generalize (if Dbl.eq r r then Dbl.max LatencyCol T_Col else LatencyCol) = x at hL1
  cases x with
  | fin a =>
    simp only [Dbl.ofScientific_eq, Dbl.lt, Dbl.gt, decide_eq_true_eq]
    split_ifs with h1 h2
    · exact ⟨_, rfl, le_refl _, by norm_num⟩
    · exact ⟨_, rfl, by norm_num, by norm_num⟩
    · refine ⟨a, rfl, le_of_not_lt h1, ?_⟩
      have := le_of_not_lt h2
      norm_num at this ⊢
      exact this
  | pinf =>
    simp only [Dbl.ofScientific_eq, Dbl.lt, Dbl.gt]
    exact ⟨_, rfl, by norm_num, by norm_num⟩
  | ninf =>
    simp only [Dbl.ofScientific_eq, Dbl.lt, Dbl.gt]
    exact ⟨_, rfl, by norm_num, by norm_num⟩
  | nan => exact absurd rfl hL1

/-- The column loop of `CalculateLatency` returns; after at least one entry the running
maximum is a finite value in `[1e-9, 1e-8]`. -/
theorem CalculateLatency.loop_clamped (ln : ℚ → ℚ) (param : Param) (s : MultilevelSenseAmp)
    (hs : Initialized s) (columnResistance : List Dbl) (hne : columnResistance ≠ [])
    (init : Dbl) (hinit : init ≠ nan) :
    ∃ q : ℚ, columnResistance.foldlM
        (fun LatencyCol r => do
          let T_Col ← GetColumnLatency ln param s r
          pure (CalculateLatency.step LatencyCol T_Col r)) init = some (fin q)
      ∧ 1e-9 ≤ q ∧ q ≤ 1e-8 := by
  induction columnResistance generalizing init with
  | nil => exact absurd rfl hne
  | cons r rest ih =>
    obtain ⟨T, hT⟩ := GetColumnLatency_some ln param s hs r
    obtain ⟨q, hq, hq1, hq2⟩ := CalculateLatency.step_clamped init T r hinit
    simp only [List.foldlM_cons, hT, Option.bind_eq_bind, Option.some_bind, Option.pure_def, hq]
    by_cases hrest : rest = []
    · subst hrest
      exact ⟨q, rfl, hq1, hq2⟩
    · exact ih hrest (fin q) (by simp)

/-- On an initialized component, for a non-empty sequence of arbitrary entries and finite
factors with a product that is not negative, the latency lies within the scaled clamp. -/
theorem CalculateLatency_bounds (ln : ℚ → ℚ) (param : Param) (s : MultilevelSenseAmp)
    (hs : Initialized s) (columnResistance : List Dbl) (hne : columnResistance ≠ [])
    (a b : ℚ) (hab : 0 ≤ a * b) :
    ∃ s', CalculateLatency ln param s columnResistance (fin a) (fin b) = some s' ∧
      Dbl.le (1e-9 * fin a * fin b) s'.readLatency = true ∧
      Dbl.le s'.readLatency (1e-8 * fin a * fin b) = true := by
  obtain ⟨q, hq, hq1, hq2⟩ :=
    CalculateLatency.loop_clamped ln param s hs columnResistance hne 0 (by simp [Dbl.ofNat_eq])
  refine ⟨{ s with readLatency := ((0 : Dbl) + fin q * fin a) * fin b }, ?_, ?_, ?_⟩
  · simp only [Option.bind_eq_bind, Option.pure_def] at hq
    simp only [CalculateLatency, hs.1, Bool.not_true, Bool.false_eq_true, if_false,
      Option.bind_eq_bind, Option.pure_def, hq, Option.some_bind]
  · simp only [Dbl.ofScientific_eq, Dbl.ofNat_eq, Dbl.hAdd_eq, Dbl.hMul_eq, Dbl.mul, Dbl.add,
      Dbl.le, decide_eq_true_eq]
    have : 0 ≤ (q - 1e-9) * (a * b) := mul_nonneg (by linarith) hab
    push_cast
    nlinarith
  · simp only [Dbl.ofScientific_eq, Dbl.ofNat_eq, Dbl.hAdd_eq, Dbl.hMul_eq, Dbl.mul, Dbl.add,
      Dbl.le, decide_eq_true_eq]
    have : 0 ≤ (1e-8 - q) * (a * b) := mul_nonneg (by linarith) hab
    push_cast
    nlinarith


/-- C5, amended: on an initialized component, for every non-empty sequence of finite, positive
column resistances and all finite `numColMuxed`, `numRead` whose product is not negative,
`CalculateLatency` returns and the `readLatency` it sets lies within
`[1e-9 * numColMuxed * numRead, 1e-8 * numColMuxed * numRead]`. -/
theorem calculateLatency_within_bounds (ln : ℚ → ℚ) (param : Param) (s : MultilevelSenseAmp)
    (hs : Initialized s) (columnResistance : List Dbl) (hne : columnResistance ≠ [])
    (_hpos : ∀ r ∈ columnResistance, ∃ q : ℚ, r = fin q ∧ 0 < q)
    (numColMuxed numRead : ℚ) (hprod : 0 ≤ numColMuxed * numRead) :
    ∃ s', CalculateLatency ln param s columnResistance (fin numColMuxed) (fin numRead) = some s' ∧
      Dbl.le (1e-9 * fin numColMuxed * fin numRead) s'.readLatency = true ∧
      Dbl.le s'.readLatency (1e-8 * fin numColMuxed * fin numRead) = true :=
  CalculateLatency_bounds ln param s hs columnResistance hne numColMuxed numRead hprod

/-- C5, amended, at a concrete input: two resistances, `numColMuxed = 2`, `numRead = 3`. -/
theorem calculateLatency_within_bounds_witness :
    ∃ s', CalculateLatency (fun _ => 0) ⟨1000, 100000, 128, 2, 65⟩ sample
        [fin 1000, fin 50000] (fin 2) (fin 3) = some s' ∧
      Dbl.le (1e-9 * fin 2 * fin 3) s'.readLatency = true ∧
      Dbl.le s'.readLatency (1e-8 * fin 2 * fin 3) = true :=
  calculateLatency_within_bounds (fun _ => 0) ⟨1000, 100000, 128, 2, 65⟩ sample
    Initialized_sample [fin 1000, fin 50000] (by simp)
    (by
      intro r hr
      simp only [List.mem_cons, List.mem_singleton, List.not_mem_nil, or_false] at hr
      rcases hr with rfl | rfl
      · exact ⟨1000, rfl, by norm_num⟩
      · exact ⟨50000, rfl, by norm_num⟩)
    2 3 (by norm_num)

/-- The flag of the sample component is set. -/
theorem sample_initialized : sample.initialized = true := Initialized_sample.1

/-- C5, as stated, fails on an initialized component: for the empty sequence with
`numColMuxed = numRead = 1` the result is `readLatency = 0`, below the lower bound `1e-9`; and
for the single resistance `1000` under the high-performance roadmap with `numColMuxed = 1`,
`numRead = -1` the result is `readLatency = -1e-9`, above the upper bound `-1e-8`. -/
theorem calculateLatency_outside_bounds :
    Initialized sample ∧
    (∀ ln : ℚ → ℚ, ∃ s', CalculateLatency ln ⟨1000, 100000, 128, 2, 22⟩ sample [] (fin 1) (fin 1)
        = some s' ∧ s'.readLatency = fin 0 ∧
      Dbl.le (1e-9 * fin 1 * fin 1) s'.readLatency = false) ∧
    (∀ ln : ℚ → ℚ, ∃ s', CalculateLatency ln ⟨1000, 100000, 128, 1, 22⟩ sample [fin 1000]
        (fin 1) (fin (-1)) = some s' ∧ s'.readLatency = fin (-1e-9) ∧
      Dbl.le s'.readLatency (1e-8 * fin 1 * fin (-1)) = false) := by
  refine ⟨Initialized_sample, ?_, ?_⟩
  · intro ln
    refine ⟨{ sample with readLatency := fin 0 }, ?_, rfl, ?_⟩
    · simp [CalculateLatency, sample_initialized, Dbl.ofNat_eq, Dbl.hAdd_eq, Dbl.hMul_eq,
        Dbl.mul, Dbl.add]
    · simp [Dbl.ofScientific_eq, Dbl.hMul_eq, Dbl.mul, Dbl.le]
      norm_num
  · intro ln
    refine ⟨{ sample with readLatency := fin (-1e-9) }, ?_, rfl, ?_⟩
    · simp [CalculateLatency, CalculateLatency.step, GetColumnLatency, sample_initialized,
        Dbl.ofNat_eq, Dbl.ofScientific_eq, Dbl.hAdd_eq, Dbl.hMul_eq, Dbl.hDiv_eq, Dbl.mul,
        Dbl.add, Dbl.div, Dbl.eq, Dbl.max, Dbl.lt, Dbl.gt]
      norm_num
    · simp [Dbl.ofScientific_eq, Dbl.hMul_eq, Dbl.mul, Dbl.le]
      norm_num

/-- C6, as stated, fails on an initialized component: with an empty sequence and
`numRead = NaN`, `CalculateLatency` sets `readLatency = NaN` and `CalculatePower` sets
`readDynamicEnergy = NaN` (the product `0 * NaN`), not zero. -/
theorem calculate_empty_nan_not_zero :
    Initialized sample ∧
    (∀ ln : ℚ → ℚ, ∃ s', CalculateLatency ln ⟨1000, 100000, 128, 2, 22⟩ sample [] (fin 1) nan
        = some s' ∧ s'.readLatency = nan ∧ s'.readLatency ≠ fin 0) ∧
    (∀ ln : ℚ → ℚ, ∃ s', CalculatePower ln ⟨1000, 100000, 128, 2, 22⟩ sample [] nan
        = some s' ∧ s'.readDynamicEnergy = nan ∧ s'.readDynamicEnergy ≠ fin 0) := by
  refine ⟨Initialized_sample, ?_, ?_⟩
  · intro ln
    refine ⟨{ sample with readLatency := nan }, ?_, rfl, by simp⟩
    simp [CalculateLatency, sample_initialized, Dbl.ofNat_eq, Dbl.hAdd_eq, Dbl.hMul_eq,
      Dbl.mul, Dbl.add]
  · intro ln
    refine ⟨{ sample with leakage := 0, readDynamicEnergy := nan }, ?_, rfl, by simp⟩
    simp [CalculatePower, sample_initialized, Dbl.ofNat_eq, Dbl.hMul_eq, Dbl.mul]

/-- C6, amended: on an initialized component, `CalculateLatency` and `CalculatePower` called
with an empty sequence yield zero for finite factors: `readLatency = 0` for all finite
`numColMuxed` and `numRead`, and `readDynamicEnergy = 0` for every finite `numRead`. -/
theorem calculate_empty_is_zero (ln : ℚ → ℚ) (param : Param) (s : MultilevelSenseAmp)
    (hs : Initialized s) (numColMuxed numRead : ℚ) :
    (∃ s', CalculateLatency ln param s [] (fin numColMuxed) (fin numRead) = some s' ∧
      s'.readLatency = fin 0) ∧
    (∃ s', CalculatePower ln param s [] (fin numRead) = some s' ∧
      s'.readDynamicEnergy = fin 0) := by
  constructor
  · refine ⟨{ s with readLatency := fin 0 }, ?_, rfl⟩
    simp [CalculateLatency, hs.1, Dbl.ofNat_eq, Dbl.hAdd_eq, Dbl.hMul_eq, Dbl.mul, Dbl.add]
  · refine ⟨{ s with leakage := 0, readDynamicEnergy := fin 0 }, ?_, rfl⟩
    simp [CalculatePower, hs.1, Dbl.ofNat_eq, Dbl.hMul_eq, Dbl.mul]

/-- C6, amended, at a concrete input: `numColMuxed = 2`, `numRead = 3`. -/
theorem calculate_empty_is_zero_witness :
    (∃ s', CalculateLatency (fun _ => 0) ⟨1000, 100000, 128, 2, 65⟩ sample [] (fin 2) (fin 3)
        = some s' ∧ s'.readLatency = fin 0) ∧
    (∃ s', CalculatePower (fun _ => 0) ⟨1000, 100000, 128, 2, 65⟩ sample [] (fin 3) = some s' ∧
      s'.readDynamicEnergy = fin 0) :=
  calculate_empty_is_zero (fun _ => 0) ⟨1000, 100000, 128, 2, 65⟩ sample Initialized_sample 2 3

/-- C7: for `columnRes = 0`, whatever the roadmap, technology node, `levelOutput` and ladder,
`GetColumnLatency` returns exactly 0 and `GetColumnPower` returns exactly 0. -/
theorem getColumn_zero_resistance (ln : ℚ → ℚ) (param : Param) (s : MultilevelSenseAmp) :
    GetColumnLatency ln param s (fin 0) = some (fin 0) ∧
    GetColumnPower ln param s (fin 0) = some (fin 0) := by
  constructor
  · simp [GetColumnLatency, Dbl.ofNat_eq, Dbl.hDiv_eq, Dbl.div, Dbl.eq]
  · simp [GetColumnPower, Dbl.ofNat_eq, Dbl.hDiv_eq, Dbl.hAdd_eq, Dbl.div, Dbl.eq, Dbl.add]

/-- C8, as stated, fails: for `columnRes = +inf` `GetColumnPower` returns 0, not `1e-6`. -/
theorem getColumnPower_infinite_not_floor :
    (∀ ln : ℚ → ℚ, GetColumnPower ln ⟨1000, 100000, 128, 1, 22⟩ sample pinf = some (fin 0)) ∧
    (∀ ln : ℚ → ℚ, GetColumnPower ln ⟨1000, 100000, 128, 1, 22⟩ sample pinf ≠ some 1e-6) := by
  have h : ∀ ln : ℚ → ℚ,
      GetColumnPower ln ⟨1000, 100000, 128, 1, 22⟩ sample pinf = some (fin 0) := by
    intro ln
    simp [GetColumnPower, Dbl.ofNat_eq, Dbl.hDiv_eq, Dbl.hAdd_eq, Dbl.div, Dbl.eq, Dbl.add]
  refine ⟨h, fun ln => ?_⟩
  rw [h ln]
  simp [Dbl.ofScientific_eq]
  norm_num

/-- C8, amended: for `columnRes = +inf`, whatever the roadmap, technology node, `levelOutput`
and ladder, `GetColumnLatency` returns 0; inside `GetColumnPower` the local `Column_Power` is
set to the floor `1e-6`, and the value `GetColumnPower` returns (the column energy) is 0. -/
theorem getColumn_infinite_resistance (ln : ℚ → ℚ) (param : Param) (s : MultilevelSenseAmp) :
    GetColumnLatency ln param s pinf = some (fin 0) ∧
    GetColumnPower.Column_Power ln param pinf = 1e-6 ∧
    GetColumnPower ln param s pinf = some (fin 0) := by
  refine ⟨?_, ?_, ?_⟩
  · simp [GetColumnLatency, Dbl.ofNat_eq, Dbl.hDiv_eq, Dbl.div, Dbl.eq]
  · simp [GetColumnPower.Column_Power, Dbl.ofNat_eq, Dbl.hDiv_eq, Dbl.div, Dbl.eq]
  · simp [GetColumnPower, Dbl.ofNat_eq, Dbl.hDiv_eq, Dbl.hAdd_eq, Dbl.div, Dbl.eq, Dbl.add]

/-- A resistance that is neither zero nor infinite passes the degenerate-case test. -/
theorem degenerate_test_false (columnRes : Dbl) (hzero : columnRes ≠ fin 0)
    (hpinf : columnRes ≠ pinf) (hninf : columnRes ≠ ninf) :
    (Dbl.eq (1 / columnRes) 0 || Dbl.eq columnRes 0) = false := by
  cases columnRes with
  | fin q =>
    have hq : q ≠ 0 := fun h => hzero (by rw [h])
    simp [Dbl.ofNat_eq, Dbl.hDiv_eq, Dbl.div, Dbl.eq, hq]
  | pinf => exact absurd rfl hpinf
  | ninf => exact absurd rfl hninf
  | nan => simp [Dbl.ofNat_eq, Dbl.hDiv_eq, Dbl.div, Dbl.eq]

/-- C9: under the high-performance roadmap (`deviceroadmap = 1`), for every technology node,
every `levelOutput` and ladder, and every column resistance that is neither zero nor
infinite, `GetColumnLatency` returns exactly `1e-9`. -/
theorem getColumnLatency_highPerformance (ln : ℚ → ℚ) (resistanceOn resistanceOff : ℚ)
    (numRowSubArray technode : Int) (s : MultilevelSenseAmp) (columnRes : Dbl)
    (hzero : columnRes ≠ fin 0) (hpinf : columnRes ≠ pinf) (hninf : columnRes ≠ ninf) :
    GetColumnLatency ln ⟨resistanceOn, resistanceOff, numRowSubArray, 1, technode⟩ s columnRes
      = some (fin 1e-9) := by
  simp [GetColumnLatency, degenerate_test_false columnRes hzero hpinf hninf,
    Dbl.ofScientific_eq]

/-- C9 at a concrete input: `columnRes = 25000` at the 130 nm node. -/
theorem getColumnLatency_highPerformance_witness :
    GetColumnLatency (fun _ => 0) ⟨1000, 100000, 128, 1, 130⟩ sample (fin 25000)
      = some (fin 1e-9) :=
  getColumnLatency_highPerformance (fun _ => 0) 1000 100000 128 130 sample (fin 25000)
    (by simp) (by simp) (by simp)

/-- C10, as stated, fails: under the high-performance roadmap, at `columnRes = 1000` on a
four-level component, the parameter sets with `technode = 22` and `technode = 14` (equal
otherwise) give different values of `GetColumnPower`, whatever `log` returns. -/
theorem getColumnPower_highPerformance_depends_on_technode :
    ¬ ∃ ln : ℚ → ℚ,
      GetColumnPower ln ⟨1000, 100000, 128, 1, 22⟩ sample (fin 1000)
        = GetColumnPower ln ⟨1000, 100000, 128, 1, 14⟩ sample (fin 1000) := by
  rintro ⟨ln, h⟩
  simp [GetColumnPower, GetColumnPower.Column_Power, sample, Initialize, ctor, zeroed,
    Dbl.ofNat_eq, Dbl.ofScientific_eq, Dbl.hDiv_eq, Dbl.hAdd_eq, Dbl.hMul_eq, Dbl.div, Dbl.eq,
    Dbl.add, Dbl.mul, Dbl.log, Dbl.ofInt] at h
  norm_num at h

/-- C10, amended: under the high-performance roadmap `GetColumnPower` depends on the
technology node only through the node's power fit `Column_Power`: two parameter sets that
differ only in `technode` and whose `Column_Power` agree at `columnRes` return the same value;
for a resistance neither zero nor infinite that value is
`Column_Power * 1e-9 * (levelOutput - 1)`. -/
theorem getColumnPower_highPerformance (ln : ℚ → ℚ) (resistanceOn resistanceOff : ℚ)
    (numRowSubArray technode technode' : Int) (s : MultilevelSenseAmp) (columnRes : Dbl)
    (hfit :
      GetColumnPower.Column_Power ln ⟨resistanceOn, resistanceOff, numRowSubArray, 1, technode⟩
          columnRes
        = GetColumnPower.Column_Power ln
            ⟨resistanceOn, resistanceOff, numRowSubArray, 1, technode'⟩ columnRes) :
    GetColumnPower ln ⟨resistanceOn, resistanceOff, numRowSubArray, 1, technode⟩ s columnRes
      = GetColumnPower ln ⟨resistanceOn, resistanceOff, numRowSubArray, 1, technode'⟩ s columnRes
    ∧ (columnRes ≠ fin 0 → columnRes ≠ pinf → columnRes ≠ ninf →
        GetColumnPower ln ⟨resistanceOn, resistanceOff, numRowSubArray, 1, technode⟩ s columnRes
          = some (GetColumnPower.Column_Power ln
                ⟨resistanceOn, resistanceOff, numRowSubArray, 1, technode⟩ columnRes
              * 1e-9 * Dbl.ofInt (s.levelOutput - 1))) := by
  constructor
  · by_cases hd : (Dbl.eq (1 / columnRes) 0 || Dbl.eq columnRes 0) = true
    · simp [GetColumnPower, hd]
    · simp [GetColumnPower, hd, hfit]
  · intro hzero hpinf hninf
    simp [GetColumnPower, degenerate_test_false columnRes hzero hpinf hninf]

/-- C10, amended, at a concrete input: the nodes 7 and 5 share the catch-all fit. -/
theorem getColumnPower_highPerformance_witness :
    GetColumnPower (fun _ => 0) ⟨1000, 100000, 128, 1, 7⟩ sample (fin 25000)
      = GetColumnPower (fun _ => 0) ⟨1000, 100000, 128, 1, 5⟩ sample (fin 25000)
    ∧ (fin 25000 ≠ fin 0 → fin 25000 ≠ pinf → fin 25000 ≠ ninf →
        GetColumnPower (fun _ => 0) ⟨1000, 100000, 128, 1, 7⟩ sample (fin 25000)
          = some (GetColumnPower.Column_Power (fun _ => 0) ⟨1000, 100000, 128, 1, 7⟩ (fin 25000)
              * 1e-9 * Dbl.ofInt (sample.levelOutput - 1))) :=
  getColumnPower_highPerformance (fun _ => 0) 1000 100000 128 7 5 sample (fin 25000)
    (by simp [GetColumnPower.Column_Power])


/-! ## Area, and calls before initialization -/

/-- C11: on an initialized component, `CalculateArea` called with `heightArray = 0` and
`widthArray = 0` under the default layout option `NONE` never returns (in particular not
with `area = 0`): it takes the fatal path, ending the process through `exit(-1)`. -/
theorem calculateArea_no_constraint_is_fatal (ext : AreaRoutines) (s : MultilevelSenseAmp)
    (hs : Initialized s) :
    CalculateArea ext s (fin 0) (fin 0) AreaModify.NONE = Outcome.exited (-1) ∧
    ∀ s', CalculateArea ext s (fin 0) (fin 0) AreaModify.NONE ≠ Outcome.returned s' := by
  have h : CalculateArea ext s (fin 0) (fin 0) AreaModify.NONE = Outcome.exited (-1) := by
    simp [CalculateArea, hs.1, Dbl.toBool, Dbl.eq, Dbl.ofNat_eq]
  refine ⟨h, fun s' => ?_⟩
  rw [h]
  exact fun hc => Outcome.noConfusion hc

/-- C11 at a concrete input: the sample component, a sub-amplifier of area 6 and re-layout
routines that change nothing. -/
theorem calculateArea_no_constraint_is_fatal_witness :
    CalculateArea ⟨fun _ _ => fin 6, id, id⟩ sample (fin 0) (fin 0) AreaModify.NONE
        = Outcome.exited (-1) ∧
    ∀ s', CalculateArea ⟨fun _ _ => fin 6, id, id⟩ sample (fin 0) (fin 0) AreaModify.NONE
        ≠ Outcome.returned s' :=
  calculateArea_no_constraint_is_fatal ⟨fun _ _ => fin 6, id, id⟩ sample Initialized_sample

/-- C12, as stated, fails: on an initialized component under `NONE`, with both constraints
nonzero (`heightArray = 2`, `widthArray = 3`) `CalculateArea` does not take the fatal path; it
returns with the area computed under the width constraint. -/
theorem calculateArea_both_constraints_not_fatal :
    Initialized sample ∧
    ∀ ext : AreaRoutines,
      CalculateArea ext sample (fin 2) (fin 3) AreaModify.NONE
        = Outcome.returned
            { sample with
              area := ext.subAmpArea sample.currentSenseAmp (fin 3)
              width := fin 3
              height := ext.subAmpArea sample.currentSenseAmp (fin 3) / fin 3
              newHeight := fin 2
              newWidth := fin 3 } ∧
      CalculateArea ext sample (fin 2) (fin 3) AreaModify.NONE ≠ Outcome.exited (-1) := by
  refine ⟨Initialized_sample, fun ext => ?_⟩
  have h : CalculateArea ext sample (fin 2) (fin 3) AreaModify.NONE
        = Outcome.returned
            { sample with
              area := ext.subAmpArea sample.currentSenseAmp (fin 3)
              width := fin 3
              height := ext.subAmpArea sample.currentSenseAmp (fin 3) / fin 3
              newHeight := fin 2
              newWidth := fin 3 } := by
    simp [CalculateArea, CalculateArea.modifyLayout, sample_initialized, Dbl.toBool, Dbl.eq,
      Dbl.ofNat_eq]
  refine ⟨h, ?_⟩
  rw [h]
  exact fun hc => Outcome.noConfusion hc

/-- C12, amended: on an initialized component under the default layout option `NONE`, at
least one of `heightArray` and `widthArray` must be nonzero: when both are zero
`CalculateArea` takes the fatal path `exit(-1)`; when `widthArray` is nonzero (whether
`heightArray` is nonzero or not) it returns with the sub-amplifier's area under the width
constraint and `height = area / width`; when only `heightArray` is nonzero it returns with the
sub-amplifier's area under the height constraint and `width = area / height`. -/
theorem calculateArea_default_layout (ext : AreaRoutines) (s : MultilevelSenseAmp)
    (hs : Initialized s) (heightArray widthArray : Dbl) :
    (Dbl.toBool widthArray = false → Dbl.toBool heightArray = false →
      CalculateArea ext s heightArray widthArray AreaModify.NONE = Outcome.exited (-1)) ∧
    (Dbl.toBool widthArray = true →
      CalculateArea ext s heightArray widthArray AreaModify.NONE
        = Outcome.returned
            { s with
              area := ext.subAmpArea s.currentSenseAmp widthArray
              width := widthArray
              height := ext.subAmpArea s.currentSenseAmp widthArray / widthArray
              newHeight := heightArray
              newWidth := widthArray }) ∧
    (Dbl.toBool widthArray = false → Dbl.toBool heightArray = true →
      CalculateArea ext s heightArray widthArray AreaModify.NONE
        = Outcome.returned
            { s with
              area := ext.subAmpArea s.currentSenseAmp heightArray
              height := heightArray
              width := ext.subAmpArea s.currentSenseAmp heightArray / heightArray
              newHeight := heightArray
              newWidth := widthArray }) := by
  refine ⟨?_, ?_, ?_⟩
  · intro hw hh
    simp [CalculateArea, hs.1, hw, hh]
  · intro hw
    simp [CalculateArea, CalculateArea.modifyLayout, hs.1, hw]
  · intro hw hh
    simp [CalculateArea, CalculateArea.modifyLayout, hs.1, hw, hh]

/-- C12, amended, at a concrete input: `heightArray = 2`, `widthArray = 3`. -/
theorem calculateArea_default_layout_witness :
    (Dbl.toBool (fin 3) = false → Dbl.toBool (fin 2) = false →
      CalculateArea ⟨fun _ _ => fin 6, id, id⟩ sample (fin 2) (fin 3) AreaModify.NONE
        = Outcome.exited (-1)) ∧
    (Dbl.toBool (fin 3) = true →
      CalculateArea ⟨fun _ _ => fin 6, id, id⟩ sample (fin 2) (fin 3) AreaModify.NONE
        = Outcome.returned
            { sample with
              area := (⟨fun _ _ => fin 6, id, id⟩ : AreaRoutines).subAmpArea
                sample.currentSenseAmp (fin 3)
              width := fin 3
              height := (⟨fun _ _ => fin 6, id, id⟩ : AreaRoutines).subAmpArea
                sample.currentSenseAmp (fin 3) / fin 3
              newHeight := fin 2
              newWidth := fin 3 }) ∧
    (Dbl.toBool (fin 3) = false → Dbl.toBool (fin 2) = true →
      CalculateArea ⟨fun _ _ => fin 6, id, id⟩ sample (fin 2) (fin 3) AreaModify.NONE
        = Outcome.returned
            { sample with
              area := (⟨fun _ _ => fin 6, id, id⟩ : AreaRoutines).subAmpArea
                sample.currentSenseAmp (fin 2)
              height := fin 2
              width := (⟨fun _ _ => fin 6, id, id⟩ : AreaRoutines).subAmpArea
                sample.currentSenseAmp (fin 2) / fin 2
              newHeight := fin 2
              newWidth := fin 3 }) :=
  calculateArea_default_layout ⟨fun _ _ => fin 6, id, id⟩ sample Initialized_sample (fin 2)
    (fin 3)

/-- C13, the code at the failing input: on the initialized sample component, with the layout
option `MAGIC` or `OVERRIDE`, `CalculateArea` ends in `exit(-1)` for every height and width
constraint (nonzero ones included) and whatever the external routines do; the re-layout
routine is never applied. -/
theorem calculateArea_relayout_options_fatal (ext : AreaRoutines) (heightArray widthArray : Dbl) :
    CalculateArea ext sample heightArray widthArray AreaModify.MAGIC = Outcome.exited (-1) ∧
    CalculateArea ext sample heightArray widthArray AreaModify.OVERRIDE = Outcome.exited (-1) := by
  constructor <;> simp [CalculateArea, sample_initialized]

/-- C15: on a component that has not been initialized, `CalculateLatency` and
`CalculatePower` return for every argument list and leave the component exactly as it was:
`readLatency`, `readDynamicEnergy`, `leakage` and every other member keep their values. -/
theorem calculate_uninitialized_is_noop (ln : ℚ → ℚ) (param : Param) (s : MultilevelSenseAmp)
    (hs : s.initialized = false) (columnResistance : List Dbl) (numColMuxed numRead : Dbl) :
    CalculateLatency ln param s columnResistance numColMuxed numRead = some s ∧
    CalculatePower ln param s columnResistance numRead = some s := by
  constructor
  · simp [CalculateLatency, hs]
  · simp [CalculatePower, hs]

/-- C15 at a concrete input: a freshly constructed component and two resistances. -/
theorem calculate_uninitialized_is_noop_witness :
    CalculateLatency (fun _ => 0) ⟨1000, 100000, 128, 2, 65⟩ (ctor zeroed) [fin 1000, nan]
        (fin 2) (fin 3) = some (ctor zeroed) ∧
    CalculatePower (fun _ => 0) ⟨1000, 100000, 128, 2, 65⟩ (ctor zeroed) [fin 1000, nan]
        (fin 3) = some (ctor zeroed) :=
  calculate_uninitialized_is_noop (fun _ => 0) ⟨1000, 100000, 128, 2, 65⟩ (ctor zeroed) rfl
    [fin 1000, nan] (fin 2) (fin 3)


end MultilevelSenseAmp

/-! ## Per-level timing -/

/-- Adding zero on the right changes nothing, special values included. -/
theorem Dbl.add_zero_right (x : Dbl) : x + 0 = x := by
  cases x <;> simp [Dbl.hAdd_eq, Dbl.ofNat_eq, Dbl.add]

/-- Adding zero on the left changes nothing, special values included. -/
theorem Dbl.add_zero_left (x : Dbl) : (0 : Dbl) + x = x := by
  cases x <;> simp [Dbl.hAdd_eq, Dbl.ofNat_eq, Dbl.add]

/-- Multiplication of doubles is commutative, special values included. -/
theorem Dbl.mul_comm' (x y : Dbl) : x * y = y * x := by
  cases x <;> cases y <;> simp [Dbl.hMul_eq, Dbl.mul, mul_comm]

/-- Multiplying by one on the right changes nothing, special values included. -/
theorem Dbl.mul_one_right (x : Dbl) : x * Dbl.ofInt 1 = x := by
  cases x <;> simp [Dbl.hMul_eq, Dbl.ofInt, Dbl.mul]

/-- The chained comparison `mid_bound <= ratio <= up_bound` of the source compares a truth
value, 0 or 1, with `up_bound = 3`: it holds for every `ratio`, NaN included. -/
theorem Dbl.chained_comparison_true (ratio : Dbl) :
    Dbl.le (Dbl.ofBool (Dbl.le 1.1 ratio)) 3 = true := by
  cases h : Dbl.le 1.1 ratio <;> simp [Dbl.ofBool, Dbl.le, Dbl.ofNat_eq]

namespace MultilevelSenseAmp

/-- With `levelOutput = 2` the per-level loop runs zero times. -/
theorem forLevels_two (Rref : List Dbl) (init : Dbl) (body : Dbl → Dbl → Dbl) :
    forLevels 2 Rref init body = some init := by
  simp [forLevels]

/-- A loop over the ladder indices `k, ..., k+n-1`, all inside the vector, is the fold over
those entries. -/
theorem foldlM_levels_eq (Rref : List Dbl) (body : Dbl → Dbl → Dbl) (n k : Nat)
    (h : k + n ≤ Rref.length) (init : Dbl) :
    (List.range' k n).foldlM (fun acc i => (Rref[i]?).map fun Rref_i => body acc Rref_i) init
      = some (((Rref.drop k).take n).foldl body init) := by
  induction n generalizing k init with
  | zero => simp
  | succ n ih =>
    have hk : k < Rref.length := by omega
    rw [List.range'_succ, List.foldlM_cons, List.getElem?_eq_getElem hk, Option.map_some',
      Option.bind_eq_bind, Option.some_bind, ih (k + 1) (by omega), List.drop_eq_getElem_cons hk,
      List.take_succ_cons, List.foldl_cons]

/-- On an initialized component the per-level loop is the fold over `levelThresholds`. -/
theorem forLevels_eq (s : MultilevelSenseAmp) (hs : Initialized s) (init : Dbl)
    (body : Dbl → Dbl → Dbl) :
    forLevels s.levelOutput s.Rref init body = some ((levelThresholds s).foldl body init) := by
  unfold forLevels levelThresholds
  by_cases h0 : (s.levelOutput - 2).toNat = 0
  · simp [h0]
  · apply foldlM_levels_eq
    rw [hs.2]
    omega

/-- C16: in the per-level settling-time selection of `GetColumnLatency` (low-power roadmap,
nodes 130, 90, 65 and 45/32, with the bounds 3, 1.1 and 0.9 of the source), for every
`ratio` with `0.9 < ratio < 20` the time is `T_max` times that node's quartic, also for
`ratio` in `(0.9, 1.1)`; the chained condition `mid_bound <= ratio <= up_bound` holds for
every `ratio`, so the selection has three branches only: the branch `ratio > up_bound` and
the final `T = T_max` are never taken. -/
theorem levelTime_quartic_above_low_bound (T_max : Dbl) (q : ℚ) (hlow : 0.9 < q)
    (hhigh : q < 20) :
    GetColumnLatency.T_130 3 1.1 0.9 T_max (fin q)
      = T_max * (0.0004 * Dbl.pow (fin q) 4 - 0.0087 * Dbl.pow (fin q) 3 + 0.0742 * Dbl.pow (fin q) 2
          - 0.2725 * (fin q) + 1.2211) ∧
    GetColumnLatency.T_90 3 1.1 0.9 T_max (fin q)
      = T_max * (0.0000008 * Dbl.pow (fin q) 4 - 0.00007 * Dbl.pow (fin q) 3 + 0.0017 * Dbl.pow (fin q) 2
          - 0.0188 * (fin q) + 0.9835) ∧
    GetColumnLatency.T_65 3 1.1 0.9 T_max (fin q)
      = T_max * (0.0036 * Dbl.pow (fin q) 4 - 0.0363 * Dbl.pow (fin q) 3 + 0.1043 * Dbl.pow (fin q) 2
          - 0.0346 * (fin q) + 1.0512) ∧
    GetColumnLatency.T_45 3 1.1 0.9 T_max (fin q)
      = T_max * (0.000001 * Dbl.pow (fin q) 4 - 0.00006 * Dbl.pow (fin q) 3 + 0.0001 * Dbl.pow (fin q) 2
          - 0.0171 * (fin q) + 1.0057) ∧
    (∀ ratio : Dbl, Dbl.le (Dbl.ofBool (Dbl.le 1.1 ratio)) 3 = true) ∧
    (∀ ratio : Dbl, GetColumnLatency.T_130 3 1.1 0.9 T_max ratio
      = if Dbl.ge ratio 20 || Dbl.le ratio 0.05 then 1e-9
        else if Dbl.le ratio 0.9 then T_max * (3.915 * Dbl.pow ratio 3 - 5.3996 * Dbl.pow ratio 2 + 2.4653 * ratio + 0.3856)
        else T_max * (0.0004 * Dbl.pow ratio 4 - 0.0087 * Dbl.pow ratio 3 + 0.0742 * Dbl.pow ratio 2
          - 0.2725 * ratio + 1.2211)) ∧
    (∀ ratio : Dbl, GetColumnLatency.T_90 3 1.1 0.9 T_max ratio
      = if Dbl.ge ratio 20 || Dbl.le ratio 0.05 then 1e-9
        else if Dbl.le ratio 0.9 then T_max * (3.726 * Dbl.pow ratio 3 - 5.651 * Dbl.pow ratio 2 + 2.8249 * ratio + 0.3574)
        else T_max * (0.0000008 * Dbl.pow ratio 4 - 0.00007 * Dbl.pow ratio 3 + 0.0017 * Dbl.pow ratio 2
          - 0.0188 * ratio + 0.9835)) ∧
    (∀ ratio : Dbl, GetColumnLatency.T_65 3 1.1 0.9 T_max ratio
      = if Dbl.ge ratio 20 || Dbl.le ratio 0.05 then 1e-9
        else if Dbl.le ratio 0.9 then T_max * (1.3899 * Dbl.pow ratio 3 - 2.6913 * Dbl.pow ratio 2 + 2.0483 * ratio + 0.3202)
        else T_max * (0.0036 * Dbl.pow ratio 4 - 0.0363 * Dbl.pow ratio 3 + 0.1043 * Dbl.pow ratio 2
          - 0.0346 * ratio + 1.0512)) ∧
    (∀ ratio : Dbl, GetColumnLatency.T_45 3 1.1 0.9 T_max ratio
      = if Dbl.ge ratio 20 || Dbl.le ratio 0.05 then 1e-9
        else if Dbl.le ratio 0.9 then T_max * (3.7949 * Dbl.pow ratio 3 - 5.6685 * Dbl.pow ratio 2 + 2.6492 * ratio + 0.4807)
        else T_max * (0.000001 * Dbl.pow ratio 4 - 0.00006 * Dbl.pow ratio 3 + 0.0001 * Dbl.pow ratio 2
          - 0.0171 * ratio + 1.0057)) := by
  have hge : Dbl.ge (fin q) 20 = false := by
    simp [Dbl.ge, Dbl.le, Dbl.ofNat_eq]
    exact hhigh
  have hle : Dbl.le (fin q) 0.05 = false := by
    simp [Dbl.le, Dbl.ofScientific_eq]
    linarith
  have hlo : Dbl.le (fin q) 0.9 = false := by
    simp [Dbl.le, Dbl.ofScientific_eq]
    exact hlow
  have hch := Dbl.chained_comparison_true
  refine ⟨?_, ?_, ?_, ?_, hch, ?_, ?_, ?_, ?_⟩
  · simp only [GetColumnLatency.T_130, hge, hle, hlo, hch, Bool.or_false, Bool.false_eq_true,
      if_false, if_true]
  · simp only [GetColumnLatency.T_90, hge, hle, hlo, hch, Bool.or_false, Bool.false_eq_true,
      if_false, if_true]
  · simp only [GetColumnLatency.T_65, hge, hle, hlo, hch, Bool.or_false, Bool.false_eq_true,
      if_false, if_true]
  · simp only [GetColumnLatency.T_45, hge, hle, hlo, hch, Bool.or_false, Bool.false_eq_true,
      if_false, if_true]
  · intro ratio
    simp only [GetColumnLatency.T_130, hch, if_true]
  · intro ratio
    simp only [GetColumnLatency.T_90, hch, if_true]
  · intro ratio
    simp only [GetColumnLatency.T_65, hch, if_true]
  · intro ratio
    simp only [GetColumnLatency.T_45, hch, if_true]

/-- C16 at a concrete input: `ratio = 1`, inside `(0.9, 1.1)`, with `T_max = 1e-9`. -/
theorem levelTime_quartic_above_low_bound_witness :
    GetColumnLatency.T_130 3 1.1 0.9 (fin 1e-9) (fin 1)
      = fin 1e-9 * (0.0004 * Dbl.pow (fin 1) 4 - 0.0087 * Dbl.pow (fin 1) 3 + 0.0742 * Dbl.pow (fin 1) 2
          - 0.2725 * (fin 1) + 1.2211) ∧
    GetColumnLatency.T_90 3 1.1 0.9 (fin 1e-9) (fin 1)
      = fin 1e-9 * (0.0000008 * Dbl.pow (fin 1) 4 - 0.00007 * Dbl.pow (fin 1) 3 + 0.0017 * Dbl.pow (fin 1) 2
          - 0.0188 * (fin 1) + 0.9835) ∧
    GetColumnLatency.T_65 3 1.1 0.9 (fin 1e-9) (fin 1)
      = fin 1e-9 * (0.0036 * Dbl.pow (fin 1) 4 - 0.0363 * Dbl.pow (fin 1) 3 + 0.1043 * Dbl.pow (fin 1) 2
          - 0.0346 * (fin 1) + 1.0512) ∧
    GetColumnLatency.T_45 3 1.1 0.9 (fin 1e-9) (fin 1)
      = fin 1e-9 * (0.000001 * Dbl.pow (fin 1) 4 - 0.00006 * Dbl.pow (fin 1) 3 + 0.0001 * Dbl.pow (fin 1) 2
          - 0.0171 * (fin 1) + 1.0057) ∧
    (∀ ratio : Dbl, Dbl.le (Dbl.ofBool (Dbl.le 1.1 ratio)) 3 = true) ∧
    (∀ ratio : Dbl, GetColumnLatency.T_130 3 1.1 0.9 (fin 1e-9) ratio
      = if Dbl.ge ratio 20 || Dbl.le ratio 0.05 then 1e-9
        else if Dbl.le ratio 0.9 then fin 1e-9 * (3.915 * Dbl.pow ratio 3 - 5.3996 * Dbl.pow ratio 2 + 2.4653 * ratio + 0.3856)
        else fin 1e-9 * (0.0004 * Dbl.pow ratio 4 - 0.0087 * Dbl.pow ratio 3 + 0.0742 * Dbl.pow ratio 2
          - 0.2725 * ratio + 1.2211)) ∧
    (∀ ratio : Dbl, GetColumnLatency.T_90 3 1.1 0.9 (fin 1e-9) ratio
      = if Dbl.ge ratio 20 || Dbl.le ratio 0.05 then 1e-9
        else if Dbl.le ratio 0.9 then fin 1e-9 * (3.726 * Dbl.pow ratio 3 - 5.651 * Dbl.pow ratio 2 + 2.8249 * ratio + 0.3574)
        else fin 1e-9 * (0.0000008 * Dbl.pow ratio 4 - 0.00007 * Dbl.pow ratio 3 + 0.0017 * Dbl.pow ratio 2
          - 0.0188 * ratio + 0.9835)) ∧
    (∀ ratio : Dbl, GetColumnLatency.T_65 3 1.1 0.9 (fin 1e-9) ratio
      = if Dbl.ge ratio 20 || Dbl.le ratio 0.05 then 1e-9
        else if Dbl.le ratio 0.9 then fin 1e-9 * (1.3899 * Dbl.pow ratio 3 - 2.6913 * Dbl.pow ratio 2 + 2.0483 * ratio + 0.3202)
        else fin 1e-9 * (0.0036 * Dbl.pow ratio 4 - 0.0363 * Dbl.pow ratio 3 + 0.1043 * Dbl.pow ratio 2
          - 0.0346 * ratio + 1.0512)) ∧
    (∀ ratio : Dbl, GetColumnLatency.T_45 3 1.1 0.9 (fin 1e-9) ratio
      = if Dbl.ge ratio 20 || Dbl.le ratio 0.05 then 1e-9
        else if Dbl.le ratio 0.9 then fin 1e-9 * (3.7949 * Dbl.pow ratio 3 - 5.6685 * Dbl.pow ratio 2 + 2.6492 * ratio + 0.4807)
        else fin 1e-9 * (0.000001 * Dbl.pow ratio 4 - 0.00006 * Dbl.pow ratio 3 + 0.0001 * Dbl.pow ratio 2
          - 0.0171 * ratio + 1.0057)) :=
  levelTime_quartic_above_low_bound (fin 1e-9) 1 (by norm_num) (by norm_num)

/-- For a zero or infinite resistance `GetColumnLatency` returns 0. -/
theorem GetColumnLatency_degenerate (ln : ℚ → ℚ) (param : Param) (s : MultilevelSenseAmp)
    (columnRes : Dbl) (hd : (Dbl.eq (1 / columnRes) 0 || Dbl.eq columnRes 0) = true) :
    GetColumnLatency ln param s columnRes = some 0 := by
  simp only [GetColumnLatency, hd, if_true]

/-- For a zero or infinite resistance `GetColumnPower` returns 0. -/
theorem GetColumnPower_degenerate (ln : ℚ → ℚ) (param : Param) (s : MultilevelSenseAmp)
    (columnRes : Dbl) (hd : (Dbl.eq (1 / columnRes) 0 || Dbl.eq columnRes 0) = true) :
    GetColumnPower ln param s columnRes = some 0 := by
  simp only [GetColumnPower, hd, if_true, Dbl.add_zero_right]

/-- In its low-power branches for the nodes 130, 90, 65, 45 and 32 `GetColumnLatency` is the
per-level loop taking the running maximum of `GetColumnLatency.levelTime`. -/
theorem GetColumnLatency_lowPower (ln : ℚ → ℚ) (param : Param) (s : MultilevelSenseAmp)
    (columnRes : Dbl) (hd : (Dbl.eq (1 / columnRes) 0 || Dbl.eq columnRes 0) = false)
    (hroad : param.deviceroadmap ≠ 1)
    (hnode : param.technode = 130 ∨ param.technode = 90 ∨ param.technode = 65 ∨
      param.technode = 45 ∨ param.technode = 32) :
    GetColumnLatency ln param s columnRes
      = forLevels s.levelOutput s.Rref 0 fun Column_Latency Rref_i =>
          Dbl.max Column_Latency
            (GetColumnLatency.levelTime ln param.technode columnRes Rref_i) := by
  rcases hnode with h | h | h | h | h <;>
    simp [GetColumnLatency, GetColumnLatency.levelTime, hd, hroad, h]

/-- In its low-power branches for the nodes 130, 90, 65, 45 and 32 `GetColumnPower` is the
per-level loop adding `Column_Power * GetColumnPower.levelTime`. -/
theorem GetColumnPower_lowPower (ln : ℚ → ℚ) (param : Param) (s : MultilevelSenseAmp)
    (columnRes : Dbl) (hd : (Dbl.eq (1 / columnRes) 0 || Dbl.eq columnRes 0) = false)
    (hroad : param.deviceroadmap ≠ 1)
    (hnode : param.technode = 130 ∨ param.technode = 90 ∨ param.technode = 65 ∨
      param.technode = 45 ∨ param.technode = 32) :
    GetColumnPower ln param s columnRes
      = forLevels s.levelOutput s.Rref 0 fun Column_Energy Rref_i =>
          Column_Energy + GetColumnPower.Column_Power ln param columnRes
            * GetColumnPower.levelTime ln param.technode columnRes Rref_i := by
  rcases hnode with h | h | h | h | h <;>
    simp [GetColumnPower, GetColumnPower.levelTime, hd, hroad, h]

/-- C19: with `levelOutput = 2` under a low-power roadmap at any of the nodes 130, 90, 65, 45
and 32, the per-level loops run zero times: for every column resistance `GetColumnLatency`
returns 0 and `GetColumnPower` returns 0, whereas under the high-performance roadmap the same
configuration returns `Column_Power * 1e-9` for a resistance neither zero nor infinite. -/
theorem getColumn_two_levels (ln : ℚ → ℚ) (resistanceOn resistanceOff : ℚ)
    (numRowSubArray deviceroadmap technode : Int) (s : MultilevelSenseAmp) (columnRes : Dbl)
    (hlevel : s.levelOutput = 2) (hroad : deviceroadmap ≠ 1)
    (hnode : technode = 130 ∨ technode = 90 ∨ technode = 65 ∨ technode = 45 ∨ technode = 32) :
    GetColumnLatency ln ⟨resistanceOn, resistanceOff, numRowSubArray, deviceroadmap, technode⟩ s
        columnRes = some (fin 0) ∧
    GetColumnPower ln ⟨resistanceOn, resistanceOff, numRowSubArray, deviceroadmap, technode⟩ s
        columnRes = some (fin 0) ∧
    (columnRes ≠ fin 0 → columnRes ≠ pinf → columnRes ≠ ninf →
      GetColumnPower ln ⟨resistanceOn, resistanceOff, numRowSubArray, 1, technode⟩ s columnRes
        = some (GetColumnPower.Column_Power ln
              ⟨resistanceOn, resistanceOff, numRowSubArray, 1, technode⟩ columnRes * 1e-9)) := by
  have h0 : (0 : Dbl) = fin 0 := by simp [Dbl.ofNat_eq]
  refine ⟨?_, ?_, ?_⟩
  · by_cases hd : (Dbl.eq (1 / columnRes) 0 || Dbl.eq columnRes 0) = true
    · rw [GetColumnLatency_degenerate _ _ _ _ hd, h0]
    · rw [GetColumnLatency_lowPower _ _ _ _ (by simpa using hd) hroad hnode, hlevel,
        forLevels_two, h0]
  · by_cases hd : (Dbl.eq (1 / columnRes) 0 || Dbl.eq columnRes 0) = true
    · rw [GetColumnPower_degenerate _ _ _ _ hd, h0]
    · rw [GetColumnPower_lowPower _ _ _ _ (by simpa using hd) hroad hnode, hlevel,
        forLevels_two, h0]
  · intro hzero hpinf hninf
    have h1 : Dbl.ofInt (2 - 1) = Dbl.ofInt 1 := rfl
    simp [GetColumnPower, degenerate_test_false columnRes hzero hpinf hninf, hlevel, h1,
      Dbl.mul_one_right]

/-- C19 at a concrete input: a two-level component at the 65 nm node, `columnRes = 25000`. -/
theorem getColumn_two_levels_witness :
    GetColumnLatency (fun _ => 0) ⟨1000, 100000, 128, 2, 65⟩
        { sample with levelOutput := 2, Rref := [fin 51000] } (fin 25000) = some (fin 0) ∧
    GetColumnPower (fun _ => 0) ⟨1000, 100000, 128, 2, 65⟩
        { sample with levelOutput := 2, Rref := [fin 51000] } (fin 25000) = some (fin 0) ∧
    (fin 25000 ≠ fin 0 → fin 25000 ≠ pinf → fin 25000 ≠ ninf →
      GetColumnPower (fun _ => 0) ⟨1000, 100000, 128, 1, 65⟩
          { sample with levelOutput := 2, Rref := [fin 51000] } (fin 25000)
        = some (GetColumnPower.Column_Power (fun _ => 0) ⟨1000, 100000, 128, 1, 65⟩ (fin 25000)
            * 1e-9)) :=
  getColumn_two_levels (fun _ => 0) 1000 100000 128 2 65
    { sample with levelOutput := 2, Rref := [fin 51000] } (fin 25000) rfl (by decide)
    (by decide)


end MultilevelSenseAmp

/-! ## Sums and maxima over the columns -/

/-- The function `std::max` never produces a NaN from a first argument that is not one. -/
theorem Dbl.max_ne_nan (a b : Dbl) (h : a ≠ nan) : Dbl.max a b ≠ nan := by
  unfold Dbl.max
  split_ifs with hlt
  · intro hb
    subst hb
    cases a <;> simp [Dbl.lt] at hlt
  · exact h

/-- The function `std::max` on finite values is the maximum of rationals. -/
theorem Dbl.max_fin (a b : ℚ) : Dbl.max (fin a) (fin b) = fin (Max.max a b) := by
  simp only [Dbl.max, Dbl.lt, decide_eq_true_eq, max_def]
  split_ifs <;> first | rfl | (congr 1; linarith)

/-- The function `std::max` keeps its first argument when the second is NaN. -/
theorem Dbl.max_nan (a : Dbl) : Dbl.max a nan = a := by
  cases a <;> rfl

/-- The function `std::max` keeps its first argument when the second is `-inf`. -/
theorem Dbl.max_ninf (a : Dbl) : Dbl.max a ninf = a := by
  cases a <;> rfl

/-- The function `std::max` keeps `+inf` as first argument. -/
theorem Dbl.pinf_max (b : Dbl) : Dbl.max pinf b = pinf := by
  cases b <;> rfl

/-- The clamp of a finite value, as a maximum and minimum of rationals. -/
theorem Dbl.clamp_fin (m lo hi : ℚ) (h : lo ≤ hi) :
    Dbl.clamp (fin m) (fin lo) (fin hi) = fin (Max.max lo (Min.min m hi)) := by
  simp only [Dbl.clamp, Dbl.lt, Dbl.gt, decide_eq_true_eq, max_def, min_def]
  split_ifs <;> first | rfl | (congr 1; linarith)

/-- The clamp of `+inf` is the upper bound. -/
theorem Dbl.clamp_pinf (lo hi : ℚ) : Dbl.clamp pinf (fin lo) (fin hi) = fin hi := by
  simp [Dbl.clamp, Dbl.lt, Dbl.gt]

/-- The clamp of `-inf` is the lower bound. -/
theorem Dbl.clamp_ninf (lo hi : ℚ) : Dbl.clamp ninf (fin lo) (fin hi) = fin lo := by
  simp [Dbl.clamp, Dbl.lt, Dbl.gt]

/-- The clamp of NaN is NaN. -/
theorem Dbl.clamp_nan (lo hi : ℚ) : Dbl.clamp nan (fin lo) (fin hi) = nan := by
  simp [Dbl.clamp, Dbl.lt, Dbl.gt]

/-- Clamping twice is clamping once. -/
theorem Dbl.clamp_clamp (x : Dbl) (lo hi : ℚ) (h : lo ≤ hi) :
    Dbl.clamp (Dbl.clamp x (fin lo) (fin hi)) (fin lo) (fin hi)
      = Dbl.clamp x (fin lo) (fin hi) := by
  cases x with
  | fin m =>
    rw [Dbl.clamp_fin m lo hi h, Dbl.clamp_fin _ lo hi h]
    congr 1
    simp only [max_def, min_def]
    split_ifs <;> linarith
  | pinf =>
    rw [Dbl.clamp_pinf, Dbl.clamp_fin _ lo hi h]
    congr 1
    simp only [max_def, min_def]
    split_ifs <;> linarith
  | ninf =>
    rw [Dbl.clamp_ninf, Dbl.clamp_fin _ lo hi h]
    congr 1
    simp only [max_def, min_def]
    split_ifs <;> linarith
  | nan => rw [Dbl.clamp_nan, Dbl.clamp_nan]

/-- Clamping the running maximum before taking `std::max` with the next value or after it
gives the same clamped result. -/
theorem Dbl.clamp_max_clamp (M T : Dbl) (lo hi : ℚ) (h : lo ≤ hi) (hM : M ≠ nan) :
    Dbl.clamp (Dbl.max (Dbl.clamp M (fin lo) (fin hi)) T) (fin lo) (fin hi)
      = Dbl.clamp (Dbl.max M T) (fin lo) (fin hi) := by
  cases T with
  | nan => rw [Dbl.max_nan, Dbl.max_nan, Dbl.clamp_clamp _ _ _ h]
  | ninf => rw [Dbl.max_ninf, Dbl.max_ninf, Dbl.clamp_clamp _ _ _ h]
  | pinf =>
    cases M with
    | nan => exact absurd rfl hM
    | fin m => rw [Dbl.clamp_fin m lo hi h]; rfl
    | pinf => rw [Dbl.clamp_pinf]; rfl
    | ninf => rw [Dbl.clamp_ninf]; rfl
  | fin t =>
    cases M with
    | nan => exact absurd rfl hM
    | fin m =>
      rw [Dbl.clamp_fin m lo hi h, Dbl.max_fin, Dbl.max_fin, Dbl.clamp_fin _ lo hi h,
        Dbl.clamp_fin _ lo hi h]
      congr 1
      simp only [max_def, min_def]
      split_ifs <;> linarith
    | pinf =>
      rw [Dbl.clamp_pinf, Dbl.max_fin, Dbl.pinf_max, Dbl.clamp_pinf, Dbl.clamp_fin _ lo hi h]
      congr 1
      simp only [max_def, min_def]
      split_ifs <;> linarith
    | ninf =>
      have h1 : Dbl.max ninf (fin t) = fin t := rfl
      rw [Dbl.clamp_ninf, Dbl.max_fin, h1, Dbl.clamp_fin _ lo hi h, Dbl.clamp_fin _ lo hi h]
      congr 1
      simp only [max_def, min_def]
      split_ifs <;> linarith

/-- The function `std::max` can absorb two further values in either order. -/
theorem Dbl.max_swap (z u v : Dbl) :
    Dbl.max (Dbl.max z u) v = Dbl.max (Dbl.max z v) u := by
  cases u with
  | nan => rw [Dbl.max_nan, Dbl.max_nan]
  | ninf => rw [Dbl.max_ninf, Dbl.max_ninf]
  | pinf =>
    cases v with
    | nan => rw [Dbl.max_nan, Dbl.max_nan]
    | ninf => rw [Dbl.max_ninf, Dbl.max_ninf]
    | pinf => rfl
    | fin b =>
      cases z with
      | nan => rfl
      | pinf => rfl
      | ninf => rfl
      | fin c => rw [Dbl.max_fin]; rfl
  | fin a =>
    cases v with
    | nan => rw [Dbl.max_nan, Dbl.max_nan]
    | ninf => rw [Dbl.max_ninf, Dbl.max_ninf]
    | pinf =>
      cases z with
      | nan => rfl
      | pinf => rfl
      | ninf => rfl
      | fin c => rw [Dbl.max_fin]; rfl
    | fin b =>
      cases z with
      | nan => rfl
      | pinf => rfl
      | ninf =>
        have h1 : ∀ t : ℚ, Dbl.max ninf (fin t) = fin t := fun _ => rfl
        rw [h1, h1, Dbl.max_fin, Dbl.max_fin, max_comm a b]
      | fin c =>
        rw [Dbl.max_fin, Dbl.max_fin, Dbl.max_fin, Dbl.max_fin, max_assoc, max_assoc, max_comm a b]

namespace MultilevelSenseAmp

/-- The loop body of `CalculateLatency` ends with the clamp into `[1e-9, 1e-8]`. -/
theorem CalculateLatency.step_eq (LatencyCol T_Col r : Dbl) :
    CalculateLatency.step LatencyCol T_Col r
      = Dbl.clamp (if Dbl.eq r r then Dbl.max LatencyCol T_Col else LatencyCol)
          (fin 1e-9) (fin 1e-8) := by
  have h : (10e-9 : Dbl) = fin 1e-8 := by
    simp only [Dbl.ofScientific_eq]
    congr 1
    norm_num
  simp only [CalculateLatency.step, Dbl.clamp, h, Dbl.ofScientific_eq]


/-- The column loop of `CalculatePower` adds the energies of the entries that are not NaN. -/
theorem CalculatePower.loop_sum (ln : ℚ → ℚ) (param : Param) (s : MultilevelSenseAmp)
    (hs : Initialized s) (columnResistance : List Dbl) (init : Dbl) :
    columnResistance.foldlM
        (fun readDynamicEnergy r => do
          let E_Col ← GetColumnPower ln param s r
          pure (CalculatePower.step readDynamicEnergy E_Col r)) init
      = (columnResistance.filter fun r => Dbl.eq r r).foldlM
          (fun S r => (GetColumnPower ln param s r).map fun E_Col => S + E_Col) init := by
  simp only [Option.bind_eq_bind, Option.pure_def]
  induction columnResistance generalizing init with
  | nil => rfl
  | cons r rest ih =>
    obtain ⟨E, hE⟩ := GetColumnPower_some ln param s hs r
    cases hr : Dbl.eq r r
    · have hstep : CalculatePower.step init E r = init := by
        simp only [CalculatePower.step, hr, Bool.false_eq_true, if_false, Dbl.add_zero_right]
      rw [List.foldlM_cons, hE, Option.bind_eq_bind, Option.some_bind, Option.some_bind, hstep,
        List.filter_cons_of_neg (by simp [hr])]
      exact ih init
    · have hstep : CalculatePower.step init E r = init + E := by
        simp only [CalculatePower.step, hr, if_true]
      rw [List.foldlM_cons, hE, Option.bind_eq_bind, Option.some_bind, Option.some_bind, hstep,
        List.filter_cons_of_pos (by simp [hr]), List.foldlM_cons, hE, Option.map_some',
        Option.bind_eq_bind, Option.some_bind]
      exact ih (init + E)

/-- On an initialized component the sum over the columns is defined. -/
theorem CalculatePower.sum_some (ln : ℚ → ℚ) (param : Param) (s : MultilevelSenseAmp)
    (hs : Initialized s) (l : List Dbl) (init : Dbl) :
    ∃ S, l.foldlM (fun S r => (GetColumnPower ln param s r).map fun E_Col => S + E_Col) init
      = some S := by
  induction l generalizing init with
  | nil => exact ⟨init, rfl⟩
  | cons r rest ih =>
    obtain ⟨E, hE⟩ := GetColumnPower_some ln param s hs r
    obtain ⟨S, hS⟩ := ih (init + E)
    exact ⟨S, by simp only [List.foldlM_cons, hE, Option.map_some', Option.bind_eq_bind,
      Option.some_bind, hS]⟩

/-- On an initialized component `CalculatePower` scales the sum over the columns. -/
theorem CalculatePower_eq (ln : ℚ → ℚ) (param : Param) (s : MultilevelSenseAmp)
    (hs : Initialized s) (columnResistance : List Dbl) (numRead : Dbl) :
    CalculatePower ln param s columnResistance numRead
      = (CalculatePower.sumOverColumns ln param s columnResistance).bind fun S =>
          some { s with leakage := 0, readDynamicEnergy := S * numRead } := by
  have h := CalculatePower.loop_sum ln param s hs columnResistance 0
  unfold CalculatePower CalculatePower.sumOverColumns
  simp only [hs.1, Bool.not_true, Bool.false_eq_true, if_false, Option.bind_eq_bind,
    Option.pure_def] at h ⊢
  rw [h]

/-- C14: on an initialized component, for every sequence of column resistances (NaN entries
allowed) and every `numRead`, after `CalculatePower` the member `readDynamicEnergy` is
`numRead` times the sum of `GetColumnPower(r)` over exactly the entries `r` that are not NaN
(a NaN entry contributes zero), whatever value `readDynamicEnergy` held before the call, and
`leakage` is 0. -/
theorem calculatePower_sums_non_nan_entries (ln : ℚ → ℚ) (param : Param)
    (s : MultilevelSenseAmp) (hs : Initialized s) (columnResistance : List Dbl)
    (numRead : Dbl) :
    ∃ S, CalculatePower.sumOverColumns ln param s columnResistance = some S ∧
      ∀ before : Dbl,
        ∃ s', CalculatePower ln param { s with readDynamicEnergy := before } columnResistance
            numRead = some s' ∧
          s'.readDynamicEnergy = numRead * S ∧ s'.leakage = 0 := by
  obtain ⟨S, hS⟩ := CalculatePower.sum_some ln param s hs
    (columnResistance.filter fun r => Dbl.eq r r) 0
  refine ⟨S, hS, fun before => ?_⟩
  have hs' : Initialized { s with readDynamicEnergy := before } := ⟨hs.1, hs.2⟩
  have hS' : CalculatePower.sumOverColumns ln param { s with readDynamicEnergy := before }
      columnResistance = some S := hS
  rw [CalculatePower_eq ln param _ hs', hS']
  exact ⟨_, rfl, Dbl.mul_comm' _ _, rfl⟩

/-- C14 at a concrete input: three entries, the middle one NaN, `numRead = 3`. -/
theorem calculatePower_sums_non_nan_entries_witness :
    ∃ S, CalculatePower.sumOverColumns (fun _ => 0) ⟨1000, 100000, 128, 2, 65⟩ sample
        [fin 25000, nan, fin 51000] = some S ∧
      ∀ before : Dbl,
        ∃ s', CalculatePower (fun _ => 0) ⟨1000, 100000, 128, 2, 65⟩
            { sample with readDynamicEnergy := before } [fin 25000, nan, fin 51000] (fin 3)
              = some s' ∧
          s'.readDynamicEnergy = fin 3 * S ∧ s'.leakage = 0 :=
  calculatePower_sums_non_nan_entries (fun _ => 0) ⟨1000, 100000, 128, 2, 65⟩ sample
    Initialized_sample [fin 25000, nan, fin 51000] (fin 3)


/-- The column loop of `CalculateLatency`, started from a running maximum or from its clamp,
ends at the clamp of the maximum over the entries that are not NaN. -/
theorem CalculateLatency.loop_max (ln : ℚ → ℚ) (param : Param) (s : MultilevelSenseAmp)
    (hs : Initialized s) (columnResistance : List Dbl) (hne : columnResistance ≠ [])
    (a b : Dbl) (hb : b ≠ nan) (hab : a = b ∨ a = Dbl.clamp b (fin 1e-9) (fin 1e-8)) :
    ∃ M, (columnResistance.filter fun r => Dbl.eq r r).foldlM
          (fun M r => (GetColumnLatency ln param s r).map fun T_Col => Dbl.max M T_Col) b
        = some M ∧
      columnResistance.foldlM
          (fun LatencyCol r =>
            (GetColumnLatency ln param s r).bind fun T_Col =>
              some (CalculateLatency.step LatencyCol T_Col r)) a
        = some (Dbl.clamp M (fin 1e-9) (fin 1e-8)) := by
  have hlh : (1e-9 : ℚ) ≤ 1e-8 := by norm_num
  induction columnResistance generalizing a b with
  | nil => exact absurd rfl hne
  | cons r rest ih =>
    obtain ⟨T, hT⟩ := GetColumnLatency_some ln param s hs r
    cases hr : Dbl.eq r r
    · have hstep : CalculateLatency.step a T r = Dbl.clamp b (fin 1e-9) (fin 1e-8) := by
        rw [CalculateLatency.step_eq, hr]
        simp only [Bool.false_eq_true, if_false]
        rcases hab with h | h
        · rw [h]
        · rw [h, Dbl.clamp_clamp _ _ _ hlh]
      rw [List.foldlM_cons, hT, Option.some_bind, Option.bind_eq_bind, Option.some_bind, hstep,
        List.filter_cons_of_neg (by simp [hr])]
      by_cases hrest : rest = []
      · subst hrest
        exact ⟨b, rfl, rfl⟩
      · exact ih hrest _ b hb (Or.inr rfl)
    · have hstep : CalculateLatency.step a T r
          = Dbl.clamp (Dbl.max b T) (fin 1e-9) (fin 1e-8) := by
        rw [CalculateLatency.step_eq, hr]
        simp only [if_true]
        rcases hab with h | h
        · rw [h]
        · rw [h, Dbl.clamp_max_clamp _ _ _ _ hlh hb]
      rw [List.foldlM_cons, hT, Option.some_bind, Option.bind_eq_bind, Option.some_bind, hstep,
        List.filter_cons_of_pos (by simp [hr]), List.foldlM_cons, hT, Option.map_some',
        Option.bind_eq_bind, Option.some_bind]
      by_cases hrest : rest = []
      · subst hrest
        exact ⟨Dbl.max b T, rfl, rfl⟩
      · exact ih hrest _ (Dbl.max b T) (Dbl.max_ne_nan b T hb) (Or.inr rfl)

/-- On an initialized component and a non-empty sequence, clamping in every pass is clamping
once at the end. -/
theorem CalculateLatency_eq_clampedOnce (ln : ℚ → ℚ) (param : Param) (s : MultilevelSenseAmp)
    (hs : Initialized s) (columnResistance : List Dbl) (hne : columnResistance ≠ [])
    (numColMuxed numRead : Dbl) :
    CalculateLatency ln param s columnResistance numColMuxed numRead
      = CalculateLatency.clampedOnce ln param s columnResistance numColMuxed numRead := by
  obtain ⟨M, hM, hloop⟩ := CalculateLatency.loop_max ln param s hs columnResistance hne
    (fin 0) (fin 0) (by simp) (Or.inl rfl)
  have h0 : (0 : Dbl) = fin 0 := by simp [Dbl.ofNat_eq]
  unfold CalculateLatency CalculateLatency.clampedOnce CalculateLatency.maxOverColumns
  simp only [hs.1, Bool.not_true, Bool.false_eq_true, if_false, Option.bind_eq_bind,
    Option.pure_def, h0, hM, hloop, Option.some_bind, Option.map_some']
  rw [← h0, Dbl.add_zero_left]
  rfl

/-- On an initialized component the maximum over a list of columns is a plain fold. -/
theorem CalculateLatency.max_fold (ln : ℚ → ℚ) (param : Param) (s : MultilevelSenseAmp)
    (hs : Initialized s) (l : List Dbl) (init : Dbl) :
    l.foldlM (fun M r => (GetColumnLatency ln param s r).map fun T_Col => Dbl.max M T_Col) init
      = some (l.foldl (fun M r => Dbl.max M ((GetColumnLatency ln param s r).getD 0)) init) := by
  induction l generalizing init with
  | nil => rfl
  | cons r rest ih =>
    obtain ⟨T, hT⟩ := GetColumnLatency_some ln param s hs r
    rw [List.foldlM_cons, hT, Option.map_some', Option.bind_eq_bind, Option.some_bind, ih,
      List.foldl_cons, hT, Option.getD_some]

/-- On an initialized component the maximum over the columns does not depend on their
order. -/
theorem CalculateLatency.maxOverColumns_perm (ln : ℚ → ℚ) (param : Param)
    (s : MultilevelSenseAmp) (hs : Initialized s) (l₁ l₂ : List Dbl) (h : l₁.Perm l₂) :
    CalculateLatency.maxOverColumns ln param s l₁
      = CalculateLatency.maxOverColumns ln param s l₂ := by
  unfold CalculateLatency.maxOverColumns
  rw [CalculateLatency.max_fold ln param s hs, CalculateLatency.max_fold ln param s hs]
  congr 1
  exact List.Perm.foldl_eq'
    (f := fun M r => Dbl.max M ((GetColumnLatency ln param s r).getD 0))
    (h.filter _) (fun x _ y _ z => Dbl.max_swap z _ _) _

/-- C18: clamping after every pass is clamping once at the end: on an initialized component,
for every non-empty sequence of column resistances (NaN entries allowed) and every
`numColMuxed` and `numRead`, `CalculateLatency` sets
`readLatency = clamp(M, 1e-9, 1e-8) * numColMuxed * numRead`, where `M` is the maximum of 0
and `GetColumnLatency(r)` over the entries `r` that are not NaN; the result does not depend on
the value `readLatency` held before the call nor on the order of the entries. -/
theorem calculateLatency_clamp_once (ln : ℚ → ℚ) (param : Param) (s : MultilevelSenseAmp)
    (hs : Initialized s) (columnResistance : List Dbl) (hne : columnResistance ≠ [])
    (numColMuxed numRead : Dbl) :
    ∃ M, CalculateLatency.maxOverColumns ln param s columnResistance = some M ∧
      (∀ before : Dbl,
        CalculateLatency ln param { s with readLatency := before } columnResistance numColMuxed
            numRead
          = some { s with readLatency := Dbl.clamp M 1e-9 1e-8 * numColMuxed * numRead }) ∧
      (∀ reordered : List Dbl, columnResistance.Perm reordered →
        CalculateLatency ln param s reordered numColMuxed numRead
          = CalculateLatency ln param s columnResistance numColMuxed numRead) := by
  have hM := CalculateLatency.max_fold ln param s hs
    (columnResistance.filter fun r => Dbl.eq r r) 0
  refine ⟨_, hM, fun before => ?_, fun reordered hperm => ?_⟩
  · have hs' : Initialized { s with readLatency := before } := ⟨hs.1, hs.2⟩
    have hM' : CalculateLatency.maxOverColumns ln param { s with readLatency := before }
        columnResistance = some _ := hM
    rw [CalculateLatency_eq_clampedOnce ln param _ hs' columnResistance hne]
    unfold CalculateLatency.clampedOnce
    rw [hM']
    simp only [hs.1, Bool.not_true, Bool.false_eq_true, if_false, Option.map_some']
  · have hne' : reordered ≠ [] := by
      intro h0
      rw [h0] at hperm
      exact hne hperm.eq_nil
    rw [CalculateLatency_eq_clampedOnce ln param s hs reordered hne',
      CalculateLatency_eq_clampedOnce ln param s hs columnResistance hne]
    unfold CalculateLatency.clampedOnce
    rw [CalculateLatency.maxOverColumns_perm ln param s hs reordered columnResistance hperm.symm]

/-- C18 at a concrete input: three entries, the middle one NaN, factors 2 and 3. -/
theorem calculateLatency_clamp_once_witness :
    ∃ M, CalculateLatency.maxOverColumns (fun _ => 0) ⟨1000, 100000, 128, 2, 65⟩ sample
        [fin 25000, nan, fin 51000] = some M ∧
      (∀ before : Dbl,
        CalculateLatency (fun _ => 0) ⟨1000, 100000, 128, 2, 65⟩
            { sample with readLatency := before } [fin 25000, nan, fin 51000] (fin 2) (fin 3)
          = some { sample with readLatency := Dbl.clamp M 1e-9 1e-8 * fin 2 * fin 3 }) ∧
      (∀ reordered : List Dbl, [fin 25000, nan, fin 51000].Perm reordered →
        CalculateLatency (fun _ => 0) ⟨1000, 100000, 128, 2, 65⟩ sample reordered (fin 2) (fin 3)
          = CalculateLatency (fun _ => 0) ⟨1000, 100000, 128, 2, 65⟩ sample
              [fin 25000, nan, fin 51000] (fin 2) (fin 3)) :=
  calculateLatency_clamp_once (fun _ => 0) ⟨1000, 100000, 128, 2, 65⟩ sample Initialized_sample
    [fin 25000, nan, fin 51000] (by simp) (fin 2) (fin 3)


/-! ## Sign of the column energy -/

/-- The quartic fitted for the 130 nm node is positive. -/
theorem quartic_130_pos (x : ℚ) :
    0 < 0.0004 * x ^ 4 - 0.0087 * x ^ 3 + 0.0742 * x ^ 2 - 0.2725 * x + 1.2211 := by
  nlinarith [sq_nonneg (x ^ 2 - 10.875 * x + 20), sq_nonneg (x - 4.522)]

/-- The quartic fitted for the 65 nm node is positive. -/
theorem quartic_65_pos (x : ℚ) :
    0 < 0.0036 * x ^ 4 - 0.0363 * x ^ 3 + 0.1043 * x ^ 2 - 0.0346 * x + 1.0512 := by
  nlinarith [sq_nonneg (x ^ 2 - 5.0417 * x + 1), sq_nonneg (x + 0.152)]

/-- The quartic fitted for the 90 nm node is positive on `[0, 20]`. -/
theorem quartic_90_pos (x : ℚ) (h0 : 0 ≤ x) (h20 : x ≤ 20) :
    0 < 0.0000008 * x ^ 4 - 0.00007 * x ^ 3 + 0.0017 * x ^ 2 - 0.0188 * x + 0.9835 := by
  have h3 : 0 ≤ x * ((20 - x) * (20 + x)) :=
    mul_nonneg h0 (mul_nonneg (by linarith) (by linarith))
  have h4 : 0 ≤ x ^ 4 := by positivity
  have h2 : 0 ≤ x ^ 2 := by positivity
  nlinarith

/-- The quartic fitted for the 45 nm node is positive on `[0, 20]`. -/
theorem quartic_45_pos (x : ℚ) (h0 : 0 ≤ x) (h20 : x ≤ 20) :
    0 < 0.000001 * x ^ 4 - 0.00006 * x ^ 3 + 0.0001 * x ^ 2 - 0.0171 * x + 1.0057 := by
  have h3 : 0 ≤ x * ((20 - x) * (20 + x)) :=
    mul_nonneg h0 (mul_nonneg (by linarith) (by linarith))
  have h4 : 0 ≤ x ^ 4 := by positivity
  have h2 : 0 ≤ x ^ 2 := by positivity
  nlinarith

/-- The cubic fitted for the 130 nm node is positive for `x >= 0`. -/
theorem cubic_130_pos (x : ℚ) (h0 : 0 ≤ x) :
    0 < 3.915 * x ^ 3 - 5.3996 * x ^ 2 + 2.4653 * x + 0.3856 := by
  nlinarith [mul_nonneg h0 (sq_nonneg (x - 0.6896))]

/-- The cubic fitted for the 90 nm node is positive for `x >= 0`. -/
theorem cubic_90_pos (x : ℚ) (h0 : 0 ≤ x) :
    0 < 3.726 * x ^ 3 - 5.651 * x ^ 2 + 2.8249 * x + 0.3574 := by
  nlinarith [mul_nonneg h0 (sq_nonneg (x - 0.7583))]

/-- The cubic fitted for the 65 nm node is positive for `x >= 0`. -/
theorem cubic_65_pos (x : ℚ) (h0 : 0 ≤ x) :
    0 < 1.3899 * x ^ 3 - 2.6913 * x ^ 2 + 2.0483 * x + 0.3202 := by
  nlinarith [mul_nonneg h0 (sq_nonneg (x - 0.9682))]

/-- The cubic fitted for the 45 nm node is positive for `x >= 0`. -/
theorem cubic_45_pos (x : ℚ) (h0 : 0 ≤ x) :
    0 < 3.7949 * x ^ 3 - 5.6685 * x ^ 2 + 2.6492 * x + 0.4807 := by
  nlinarith [mul_nonneg h0 (sq_nonneg (x - 0.7469))]



/-- The settling time of the 130 nm branch is finite and not negative for a baseline
`T_max >= 0` and a positive ratio. -/
theorem T_130_nonneg (tm x : ℚ) (htm : 0 ≤ tm) (hx : 0 < x) :
    ∃ t : ℚ, GetColumnPower.T_130 3 1.1 0.9 (fin tm) (fin x) = fin t ∧ 0 ≤ t := by
  simp only [GetColumnPower.T_130, Dbl.ge, Dbl.le, Dbl.gt, Dbl.lt, Dbl.ofBool, Dbl.pow,
    Dbl.hMul_eq, Dbl.hAdd_eq, Dbl.hSub_eq, Dbl.mul, Dbl.add, Dbl.sub, Dbl.neg,
    Dbl.ofScientific_eq, Dbl.ofNat_eq, Bool.or_eq_true, decide_eq_true_eq]
  by_cases h1 : ((20 : ℕ) : ℚ) ≤ x ∨ x ≤ 5e-2
  · rw [if_pos h1]
    exact ⟨_, rfl, by norm_num⟩
  · rw [if_neg h1]
    have h20 : x < 20 := by
      by_contra hc
      exact h1 (Or.inl (by push_cast; linarith))
    by_cases h2 : x ≤ 0.9
    · rw [if_pos h2]
      refine ⟨_, rfl, mul_nonneg htm ?_⟩
      have hc := cubic_130_pos x hx.le
      norm_num at hc ⊢
      linarith
    · rw [if_neg h2]
      have hq := quartic_130_pos x
      have hch : (if (1.1 : ℚ) ≤ x then (1 : ℚ) else 0) ≤ ((3 : ℕ) : ℚ) := by
        split_ifs <;> norm_num
      rw [if_pos hch]
      refine ⟨_, rfl, mul_nonneg htm ?_⟩
      norm_num at hq ⊢
      linarith

/-- The settling time of the 90 nm branch is finite and not negative for a baseline
`T_max >= 0` and a positive ratio. -/
theorem T_90_nonneg (tm x : ℚ) (htm : 0 ≤ tm) (hx : 0 < x) :
    ∃ t : ℚ, GetColumnPower.T_90 3 1.1 0.9 (fin tm) (fin x) = fin t ∧ 0 ≤ t := by
  simp only [GetColumnPower.T_90, Dbl.ge, Dbl.le, Dbl.gt, Dbl.lt, Dbl.ofBool, Dbl.pow,
    Dbl.hMul_eq, Dbl.hAdd_eq, Dbl.hSub_eq, Dbl.mul, Dbl.add, Dbl.sub, Dbl.neg,
    Dbl.ofScientific_eq, Dbl.ofNat_eq, Bool.or_eq_true, decide_eq_true_eq]
  by_cases h1 : ((20 : ℕ) : ℚ) ≤ x ∨ x ≤ 5e-2
  · rw [if_pos h1]
    exact ⟨_, rfl, by norm_num⟩
  · rw [if_neg h1]
    have h20 : x < 20 := by
      by_contra hc
      exact h1 (Or.inl (by push_cast; linarith))
    by_cases h2 : x ≤ 0.9
    · rw [if_pos h2]
      refine ⟨_, rfl, mul_nonneg htm ?_⟩
      have hc := cubic_90_pos x hx.le
      norm_num at hc ⊢
      linarith
    · rw [if_neg h2]
      have hq := quartic_90_pos x hx.le (by linarith)
      have hch : (if (1.1 : ℚ) ≤ x then (1 : ℚ) else 0) ≤ ((3 : ℕ) : ℚ) := by
        split_ifs <;> norm_num
      rw [if_pos hch]
      refine ⟨_, rfl, mul_nonneg htm ?_⟩
      norm_num at hq ⊢
      linarith

/-- The settling time of the 65 nm branch is finite and not negative for a baseline
`T_max >= 0` and a positive ratio. -/
theorem T_65_nonneg (tm x : ℚ) (htm : 0 ≤ tm) (hx : 0 < x) :
    ∃ t : ℚ, GetColumnPower.T_65 3 1.1 0.9 (fin tm) (fin x) = fin t ∧ 0 ≤ t := by
  simp only [GetColumnPower.T_65, Dbl.ge, Dbl.le, Dbl.gt, Dbl.lt, Dbl.ofBool, Dbl.pow,
    Dbl.hMul_eq, Dbl.hAdd_eq, Dbl.hSub_eq, Dbl.mul, Dbl.add, Dbl.sub, Dbl.neg,
    Dbl.ofScientific_eq, Dbl.ofNat_eq, Bool.or_eq_true, decide_eq_true_eq]
  by_cases h1 : ((20 : ℕ) : ℚ) ≤ x ∨ x ≤ 5e-2
  · rw [if_pos h1]
    exact ⟨_, rfl, by norm_num⟩
  · rw [if_neg h1]
    have h20 : x < 20 := by
      by_contra hc
      exact h1 (Or.inl (by push_cast; linarith))
    by_cases h2 : x ≤ 0.9
    · rw [if_pos h2]
      refine ⟨_, rfl, mul_nonneg htm ?_⟩
      have hc := cubic_65_pos x hx.le
      norm_num at hc ⊢
      linarith
    · rw [if_neg h2]
      have hq := quartic_65_pos x
      have hch : (if (1.1 : ℚ) ≤ x then (1 : ℚ) else 0) ≤ ((3 : ℕ) : ℚ) := by
        split_ifs <;> norm_num
      rw [if_pos hch]
      refine ⟨_, rfl, mul_nonneg htm ?_⟩
      norm_num at hq ⊢
      linarith

/-- The settling time of the 45 nm branch is finite and not negative for a baseline
`T_max >= 0` and a positive ratio. -/
theorem T_45_nonneg (tm x : ℚ) (htm : 0 ≤ tm) (hx : 0 < x) :
    ∃ t : ℚ, GetColumnPower.T_45 3 1.1 0.9 (fin tm) (fin x) = fin t ∧ 0 ≤ t := by
  simp only [GetColumnPower.T_45, Dbl.ge, Dbl.le, Dbl.gt, Dbl.lt, Dbl.ofBool, Dbl.pow,
    Dbl.hMul_eq, Dbl.hAdd_eq, Dbl.hSub_eq, Dbl.mul, Dbl.add, Dbl.sub, Dbl.neg,
    Dbl.ofScientific_eq, Dbl.ofNat_eq, Bool.or_eq_true, decide_eq_true_eq]
  by_cases h1 : ((20 : ℕ) : ℚ) ≤ x ∨ x ≤ 5e-2
  · rw [if_pos h1]
    exact ⟨_, rfl, by norm_num⟩
  · rw [if_neg h1]
    have h20 : x < 20 := by
      by_contra hc
      exact h1 (Or.inl (by push_cast; linarith))
    by_cases h2 : x ≤ 0.9
    · rw [if_pos h2]
      refine ⟨_, rfl, mul_nonneg htm ?_⟩
      have hc := cubic_45_pos x hx.le
      norm_num at hc ⊢
      linarith
    · rw [if_neg h2]
      have hq := quartic_45_pos x hx.le (by linarith)
      have hch : (if (1.1 : ℚ) ≤ x then (1 : ℚ) else 0) ≤ ((3 : ℕ) : ℚ) := by
        split_ifs <;> norm_num
      rw [if_pos hch]
      refine ⟨_, rfl, mul_nonneg htm ?_⟩
      norm_num at hq ⊢
      linarith

/-- The logarithm term of a positive finite resistance is finite. -/
theorem log_of_pos (ln : ℚ → ℚ) (q : ℚ) (hq : 0 < q) :
    Dbl.log ln (fin q / 1000) = fin (ln (q / 1000)) := by
  have h1 : ¬ q / 1000 < 0 := not_lt.mpr (by positivity)
  have h2 : q / 1000 ≠ 0 := by positivity
  have h3 : ((1000 : ℕ) : ℚ) ≠ 0 := by norm_num
  simp only [Dbl.hDiv_eq, Dbl.ofNat_eq, Dbl.div, if_neg h3, Dbl.log]
  push_cast
  rw [if_neg h1, if_neg h2]

/-- A positive finite resistance passes the degenerate-case test. -/
theorem degenerate_test_false_of_pos (q : ℚ) (hq : 0 < q) :
    (Dbl.eq (1 / fin q) 0 || Dbl.eq (fin q) 0) = false :=
  degenerate_test_false (fin q) (by simp [hq.ne']) (by simp) (by simp)


/-- The energy model computes the per-level settling time exactly as the latency model. -/
theorem levelTime_eq (ln : ℚ → ℚ) (technode : Int) (columnRes Rref_i : Dbl) :
    GetColumnPower.levelTime ln technode columnRes Rref_i
      = GetColumnLatency.levelTime ln technode columnRes Rref_i := rfl

/-- The baseline `T_max` of a positive finite resistance is finite. -/
theorem T_max_of_pos (ln : ℚ → ℚ) (q a b : ℚ) (hq : 0 < q) :
    (fin a * Dbl.log ln (fin q / 1000) + fin b) * fin 1e-9
      = fin ((a * ln (q / 1000) + b) * 1e-9) := by
  rw [log_of_pos ln q hq]
  rfl

/-- For a positive finite resistance with a baseline `T_max` that is not negative and a
positive finite threshold, the per-level settling time is finite and not negative. -/
theorem levelTime_nonneg (ln : ℚ → ℚ) (technode : Int) (q x : ℚ) (hq : 0 < q) (hx : 0 < x)
    (hT : Dbl.le 0 (GetColumnPower.T_max ln technode (fin q)) = true) :
    ∃ t : ℚ, GetColumnPower.levelTime ln technode (fin q) (fin x) = fin t ∧ 0 ≤ t := by
  have hratio : fin x / fin q = fin (x / q) := by
    simp only [Dbl.hDiv_eq, Dbl.div, if_neg hq.ne']
  have hpos : 0 < x / q := div_pos hx hq
  have h0 : ∀ t : ℚ, Dbl.le 0 (fin t) = true → 0 ≤ t := by
    intro t ht
    simpa [Dbl.le, Dbl.ofNat_eq] using ht
  unfold GetColumnPower.T_max at hT
  unfold GetColumnPower.levelTime
  simp only [Dbl.ofScientific_eq] at hT ⊢
  split_ifs at hT ⊢
  · rw [T_max_of_pos ln q _ _ hq] at hT
    rw [T_max_of_pos ln q _ _ hq, hratio]
    exact T_130_nonneg _ _ (h0 _ hT) hpos
  · rw [T_max_of_pos ln q _ _ hq] at hT
    rw [T_max_of_pos ln q _ _ hq, hratio]
    exact T_90_nonneg _ _ (h0 _ hT) hpos
  · rw [T_max_of_pos ln q _ _ hq] at hT
    rw [T_max_of_pos ln q _ _ hq, hratio]
    exact T_65_nonneg _ _ (h0 _ hT) hpos
  · rw [T_max_of_pos ln q _ _ hq] at hT
    rw [T_max_of_pos ln q _ _ hq, hratio]
    exact T_45_nonneg _ _ (h0 _ hT) hpos
  · exact ⟨0, by simp [Dbl.ofNat_eq], le_refl _⟩

/-- A property of both branches of a conditional holds of the conditional. -/
theorem ite_of_both {P : Dbl → Prop} {c : Prop} [Decidable c] {a b : Dbl} (ha : P a)
    (hb : P b) : P (if c then a else b) := by
  split
  · exact ha
  · exact hb

/-- The power fit of a positive finite resistance is finite; under the high-performance
roadmap it is not negative when the logarithm term is at least `-137`. -/
theorem Column_Power_of_pos (ln : ℚ → ℚ) (param : Param) (q : ℚ) (hq : 0 < q) :
    ∃ p : ℚ, GetColumnPower.Column_Power ln param (fin q) = fin p ∧
      (param.deviceroadmap = 1 → -137 ≤ ln (q / 1000) → 0 ≤ p) := by
  have h1 : Dbl.eq (1 / fin q) 0 = false := by
    have := degenerate_test_false_of_pos q hq
    simp only [Bool.or_eq_false_iff] at this
    exact this.1
  have h2 : Dbl.eq (fin q) 0 = false := by
    have := degenerate_test_false_of_pos q hq
    simp only [Bool.or_eq_false_iff] at this
    exact this.2
  have hlog : Dbl.log ln (fin q / 1000.0) = fin (ln (q / 1000)) := by
    have h := log_of_pos ln q hq
    have h3 : (1000.0 : Dbl) = 1000 := by
      simp only [Dbl.ofScientific_eq, Dbl.ofNat_eq]
      congr 1
      norm_num
    rw [h3]
    exact h
  unfold GetColumnPower.Column_Power
  rw [if_neg (by simp [h1]), if_neg (by simp [h2])]
  simp only [hlog]
  by_cases hroad : param.deviceroadmap = 1
  · rw [if_pos hroad]
    repeat' apply ite_of_both (P := fun x =>
      ∃ p : ℚ, x = fin p ∧ (param.deviceroadmap = 1 → -137 ≤ ln (q / 1000) → 0 ≤ p))
    all_goals
      refine ⟨_, rfl, fun _ hl => ?_⟩
      apply mul_nonneg _ (by norm_num)
      norm_num
      linarith
  · rw [if_neg hroad]
    repeat' apply ite_of_both (P := fun x =>
      ∃ p : ℚ, x = fin p ∧ (param.deviceroadmap = 1 → -137 ≤ ln (q / 1000) → 0 ≤ p))
    all_goals exact ⟨_, rfl, fun h => absurd h hroad⟩

/-- On an initialized component, in the low-power branches with a per-level loop,
`GetColumnLatency` is the running `std::max`, from 0, of the level times. -/
theorem GetColumnLatency_levels (ln : ℚ → ℚ) (param : Param) (s : MultilevelSenseAmp)
    (hs : Initialized s) (columnRes : Dbl)
    (hd : (Dbl.eq (1 / columnRes) 0 || Dbl.eq columnRes 0) = false)
    (hroad : param.deviceroadmap ≠ 1)
    (hnode : param.technode = 130 ∨ param.technode = 90 ∨ param.technode = 65 ∨
      param.technode = 45 ∨ param.technode = 32) :
    GetColumnLatency ln param s columnRes
      = some (((levelThresholds s).map
          (GetColumnLatency.levelTime ln param.technode columnRes)).foldl Dbl.max 0) := by
  rw [GetColumnLatency_lowPower ln param s columnRes hd hroad hnode, forLevels_eq s hs,
    List.foldl_map]

/-- On an initialized component, in the low-power branches with a per-level loop,
`GetColumnPower` adds `Column_Power * T`, from 0, over the level times of the latency
model. -/
theorem GetColumnPower_levels (ln : ℚ → ℚ) (param : Param) (s : MultilevelSenseAmp)
    (hs : Initialized s) (columnRes : Dbl)
    (hd : (Dbl.eq (1 / columnRes) 0 || Dbl.eq columnRes 0) = false)
    (hroad : param.deviceroadmap ≠ 1)
    (hnode : param.technode = 130 ∨ param.technode = 90 ∨ param.technode = 65 ∨
      param.technode = 45 ∨ param.technode = 32) :
    GetColumnPower ln param s columnRes
      = some (((levelThresholds s).map
          (GetColumnLatency.levelTime ln param.technode columnRes)).foldl
            (fun E T => E + GetColumnPower.Column_Power ln param columnRes * T) 0) := by
  rw [GetColumnPower_lowPower ln param s columnRes hd hroad hnode, forLevels_eq s hs,
    List.foldl_map]
  rfl

/-- C17, amended: the energy model reuses the per-level timing of the latency model exactly:
under a low-power roadmap at each of the nodes 130, 90, 65, 45 and 32 the settling time
`T_i` computed inside `GetColumnPower` equals the `T_i` computed inside `GetColumnLatency`
for every resistance and threshold (same `T_max` formula, same bounds, same coefficients), so
that on an initialized component, for every finite nonzero column resistance and every
ladder, `GetColumnLatency` is the running maximum from 0 of the `T_i` over the levels
`1..levelOutput-2`, while `GetColumnPower` is the sum of the products `Column_Power * T_i`,
added to the running `Column_Energy` level by level from 0 in the order of the levels. -/
theorem levelTime_shared_by_latency_and_energy (ln : ℚ → ℚ) (param : Param)
    (s : MultilevelSenseAmp) (hs : Initialized s) (hroad : param.deviceroadmap ≠ 1)
    (hnode : param.technode = 130 ∨ param.technode = 90 ∨ param.technode = 65 ∨
      param.technode = 45 ∨ param.technode = 32)
    (q : ℚ) (hq : q ≠ 0) :
    (∀ columnRes Rref_i : Dbl,
      GetColumnPower.levelTime ln param.technode columnRes Rref_i
        = GetColumnLatency.levelTime ln param.technode columnRes Rref_i) ∧
    GetColumnLatency ln param s (fin q)
      = some (((levelThresholds s).map
          (GetColumnLatency.levelTime ln param.technode (fin q))).foldl Dbl.max 0) ∧
    GetColumnPower ln param s (fin q)
      = some (((levelThresholds s).map
          (GetColumnLatency.levelTime ln param.technode (fin q))).foldl
            (fun Column_Energy T =>
              Column_Energy + GetColumnPower.Column_Power ln param (fin q) * T) 0) := by
  have hd : (Dbl.eq (1 / fin q) 0 || Dbl.eq (fin q) 0) = false :=
    degenerate_test_false (fin q) (by simp [hq]) (by simp) (by simp)
  exact ⟨fun _ _ => rfl, GetColumnLatency_levels ln param s hs _ hd hroad hnode,
    GetColumnPower_levels ln param s hs _ hd hroad hnode⟩

/-- C17, amended, at a concrete input: the sample component at 65 nm, `columnRes = 25000`. -/
theorem levelTime_shared_by_latency_and_energy_witness :
    (∀ columnRes Rref_i : Dbl,
      GetColumnPower.levelTime (fun _ => 0) (65 : Int) columnRes Rref_i
        = GetColumnLatency.levelTime (fun _ => 0) (65 : Int) columnRes Rref_i) ∧
    GetColumnLatency (fun _ => 0) ⟨1000, 100000, 128, 2, 65⟩ sample (fin 25000)
      = some (((levelThresholds sample).map
          (GetColumnLatency.levelTime (fun _ => 0) (65 : Int) (fin 25000))).foldl Dbl.max 0) ∧
    GetColumnPower (fun _ => 0) ⟨1000, 100000, 128, 2, 65⟩ sample (fin 25000)
      = some (((levelThresholds sample).map
          (GetColumnLatency.levelTime (fun _ => 0) (65 : Int) (fin 25000))).foldl
            (fun Column_Energy T =>
              Column_Energy
                + GetColumnPower.Column_Power (fun _ => 0) ⟨1000, 100000, 128, 2, 65⟩
                    (fin 25000) * T) 0) :=
  levelTime_shared_by_latency_and_energy (fun _ => 0) ⟨1000, 100000, 128, 2, 65⟩ sample
    Initialized_sample (by decide) (by decide) 25000 (by norm_num)

/-- C17, as stated, fails for a negative resistance: on a two-level initialized component at
the low-power 130 nm node with `columnRes = -1000`, `GetColumnPower` returns 0 (no level
is visited), while `Column_Power` is NaN (the logarithm of a negative number), so that
`Column_Power` times the sum of the `T_i` is NaN. -/
theorem getColumnPower_not_product_for_negative_resistance :
    Initialized
      (Initialize ⟨1000, 100000, 128, 2, 130⟩ (ctor zeroed) 8 2 (fin 1000000000) 1 false) ∧
    ∀ ln : ℚ → ℚ,
      GetColumnPower ln ⟨1000, 100000, 128, 2, 130⟩
          (Initialize ⟨1000, 100000, 128, 2, 130⟩ (ctor zeroed) 8 2 (fin 1000000000) 1 false)
          (fin (-1000)) = some (fin 0) ∧
      GetColumnPower.Column_Power ln ⟨1000, 100000, 128, 2, 130⟩ (fin (-1000))
          * ((levelThresholds
                (Initialize ⟨1000, 100000, 128, 2, 130⟩ (ctor zeroed) 8 2 (fin 1000000000) 1
                  false)).map
              (GetColumnLatency.levelTime ln (130 : Int) (fin (-1000)))).foldl
                (fun S T => S + T) 0
        = nan := by
  refine ⟨Initialized_Initialize _ _ _ _ _ _ _, fun ln => ⟨?_, ?_⟩⟩
  · have hd : (Dbl.eq (1 / fin (-1000)) 0 || Dbl.eq (fin (-1000)) 0) = false :=
      degenerate_test_false _ (by simp) (by simp) (by simp)
    rw [GetColumnPower_lowPower ln _ _ _ hd (by decide) (Or.inl rfl)]
    exact forLevels_two _ _ _
  · have hP : GetColumnPower.Column_Power ln ⟨1000, 100000, 128, 2, 130⟩ (fin (-1000))
        = nan := by
      have hd : (Dbl.eq (1 / fin (-1000)) 0 || Dbl.eq (fin (-1000)) 0) = false :=
        degenerate_test_false _ (by simp) (by simp) (by simp)
      simp only [Bool.or_eq_false_iff] at hd
      have hr : (fin (-1000) : Dbl) / 1000.0 = fin (-1) := by
        simp only [Dbl.hDiv_eq, Dbl.ofScientific_eq, Dbl.div]
        norm_num
      have hl : Dbl.log ln (fin (-1000) / 1000.0) = nan := by
        rw [hr]
        simp [Dbl.log]
      unfold GetColumnPower.Column_Power
      rw [if_neg (by simp [hd.1]), if_neg (by simp [hd.2]), if_neg (by decide),
        if_pos (by decide), hl]
      rfl
    rw [hP]
    cases h : List.foldl (fun S T => S + T) (0 : Dbl)
        ((levelThresholds
            (Initialize ⟨1000, 100000, 128, 2, 130⟩ (ctor zeroed) 8 2 (fin 1000000000) 1
              false)).map (GetColumnLatency.levelTime ln (130 : Int) (fin (-1000)))) <;> rfl


/-- Outside the low-power branches with a per-level loop, `GetColumnPower` of a resistance
neither zero nor infinite is `Column_Power * 1e-9 * (levelOutput - 1)`. -/
theorem GetColumnPower_flat (ln : ℚ → ℚ) (param : Param) (s : MultilevelSenseAmp)
    (columnRes : Dbl) (hd : (Dbl.eq (1 / columnRes) 0 || Dbl.eq columnRes 0) = false)
    (h : param.deviceroadmap = 1 ∨
      ¬ (param.technode = 130 ∨ param.technode = 90 ∨ param.technode = 65 ∨
        param.technode = 45 ∨ param.technode = 32)) :
    GetColumnPower ln param s columnRes
      = some (GetColumnPower.Column_Power ln param columnRes * 1e-9
          * Dbl.ofInt (s.levelOutput - 1)) := by
  by_cases hroad : param.deviceroadmap = 1
  · simp [GetColumnPower, hd, hroad]
  · have hn := h.resolve_left hroad
    simp only [not_or] at hn
    obtain ⟨h1, h2, h3, h4, h5⟩ := hn
    simp [GetColumnPower, hd, hroad, h1, h2, h3, h4, h5, Dbl.add_zero_left]

/-- Adding products `p * T` of values that are finite and not negative gives a value that is
finite and not negative. -/
theorem fold_energy_nonneg (p : ℚ) (hp : 0 ≤ p) (Ts : List Dbl)
    (hTs : ∀ T ∈ Ts, ∃ t : ℚ, T = fin t ∧ 0 ≤ t) (e0 : ℚ) (he0 : 0 ≤ e0) :
    ∃ e : ℚ, Ts.foldl (fun E T => E + fin p * T) (fin e0) = fin e ∧ 0 ≤ e := by
  induction Ts generalizing e0 with
  | nil => exact ⟨e0, rfl, he0⟩
  | cons T rest ih =>
    obtain ⟨t, rfl, ht⟩ := hTs _ (List.mem_cons_self _ _)
    rw [List.foldl_cons]
    exact ih (fun T' hT' => hTs T' (List.mem_cons_of_mem _ hT')) (e0 + p * t)
      (by positivity)

/-- The thresholds read by the per-level loops are entries of the ladder. -/
theorem mem_Rref_of_mem_levelThresholds (s : MultilevelSenseAmp) (R : Dbl)
    (h : R ∈ levelThresholds s) : R ∈ s.Rref :=
  List.mem_of_mem_drop (List.mem_of_mem_take h)

/-- The energy of one column is finite and not negative for a positive finite resistance
at which the power fit and, under a low-power roadmap, the baseline `T_max` are not negative,
on a ladder of positive thresholds. -/
theorem GetColumnPower_nonneg (ln : ℚ → ℚ) (param : Param) (s : MultilevelSenseAmp)
    (hs : Initialized s) (hlevel : 2 ≤ s.levelOutput)
    (hladder : ∀ R ∈ s.Rref, ∃ x : ℚ, R = fin x ∧ 0 < x)
    (q : ℚ) (hq : 0 < q)
    (hP : Dbl.le 0 (GetColumnPower.Column_Power ln param (fin q)) = true)
    (hT : param.deviceroadmap ≠ 1 →
      Dbl.le 0 (GetColumnPower.T_max ln param.technode (fin q)) = true) :
    ∃ e : ℚ, GetColumnPower ln param s (fin q) = some (fin e) ∧ 0 ≤ e := by
  have hd := degenerate_test_false_of_pos q hq
  obtain ⟨p, hp, -⟩ := Column_Power_of_pos ln param q hq
  have hp0 : 0 ≤ p := by
    rw [hp] at hP
    simpa [Dbl.le, Dbl.ofNat_eq] using hP
  by_cases h : param.deviceroadmap = 1 ∨
      ¬ (param.technode = 130 ∨ param.technode = 90 ∨ param.technode = 65 ∨
        param.technode = 45 ∨ param.technode = 32)
  · rw [GetColumnPower_flat ln param s _ hd h, hp]
    refine ⟨p * 1e-9 * ((s.levelOutput - 1 : Int) : ℚ), rfl, ?_⟩
    have hL : (0 : ℚ) ≤ ((s.levelOutput - 1 : Int) : ℚ) := by
      exact_mod_cast (by omega : (0 : Int) ≤ s.levelOutput - 1)
    positivity
  · rw [not_or, not_not] at h
    obtain ⟨hroad, hnode⟩ := h
    rw [GetColumnPower_levels ln param s hs _ hd hroad hnode, hp]
    have h0 : (0 : Dbl) = fin 0 := by simp [Dbl.ofNat_eq]
    rw [h0]
    obtain ⟨e, he, he0⟩ := fold_energy_nonneg p hp0
      ((levelThresholds s).map (GetColumnLatency.levelTime ln param.technode (fin q)))
      (by
        intro T hT'
        rw [List.mem_map] at hT'
        obtain ⟨R, hR, rfl⟩ := hT'
        obtain ⟨x, rfl, hx⟩ := hladder R (mem_Rref_of_mem_levelThresholds s R hR)
        exact levelTime_nonneg ln param.technode q x hq hx (hT hroad))
      0 (le_refl _)
    exact ⟨e, by rw [he], he0⟩

/-- The sum over columns with energies that are finite and not negative is finite and not
negative. -/
theorem sum_energy_nonneg (ln : ℚ → ℚ) (param : Param) (s : MultilevelSenseAmp)
    (l : List Dbl)
    (hl : ∀ r ∈ l, ∃ e : ℚ, GetColumnPower ln param s r = some (fin e) ∧ 0 ≤ e)
    (e0 : ℚ) (he0 : 0 ≤ e0) :
    ∃ S : ℚ, l.foldlM
        (fun S r => (GetColumnPower ln param s r).map fun E_Col => S + E_Col) (fin e0)
      = some (fin S) ∧ 0 ≤ S := by
  induction l generalizing e0 with
  | nil => exact ⟨e0, rfl, he0⟩
  | cons r rest ih =>
    obtain ⟨e, he, hpos⟩ := hl r (List.mem_cons_self _ _)
    rw [List.foldlM_cons, he, Option.map_some', Option.bind_eq_bind, Option.some_bind]
    exact ih (fun r' hr' => hl r' (List.mem_cons_of_mem _ hr')) (e0 + e) (by positivity)

/-- C20, amended: on an initialized component with `levelOutput >= 2` and a ladder of
positive thresholds, for every roadmap and technology node and every finite positive column
resistance at which the fitted `Column_Power` is not negative and, under a low-power roadmap,
the fitted baseline `T_max` (computed at the nodes 130, 90, 65, 45 and 32) is not negative,
`GetColumnPower` returns a finite value `>= 0`; under the high-performance roadmap this
covers every node and every finite positive resistance with `log(columnRes/1000) >= -137`;
hence `readDynamicEnergy >= 0` after `CalculatePower` on such resistances for every finite
`numRead >= 0`. -/
theorem getColumnPower_not_negative (ln : ℚ → ℚ) (param : Param) (s : MultilevelSenseAmp)
    (hs : Initialized s) (hlevel : 2 ≤ s.levelOutput)
    (hladder : ∀ R ∈ s.Rref, ∃ x : ℚ, R = fin x ∧ 0 < x) :
    (∀ q : ℚ, 0 < q →
      Dbl.le 0 (GetColumnPower.Column_Power ln param (fin q)) = true →
      (param.deviceroadmap ≠ 1 →
        Dbl.le 0 (GetColumnPower.T_max ln param.technode (fin q)) = true) →
      ∃ e : ℚ, GetColumnPower ln param s (fin q) = some (fin e) ∧ 0 ≤ e) ∧
    (param.deviceroadmap = 1 → ∀ q : ℚ, 0 < q → -137 ≤ ln (q / 1000) →
      ∃ e : ℚ, GetColumnPower ln param s (fin q) = some (fin e) ∧ 0 ≤ e) ∧
    (∀ (columnResistance : List Dbl) (numRead : ℚ),
      (∀ r ∈ columnResistance, ∃ q : ℚ, r = fin q ∧ 0 < q ∧
        Dbl.le 0 (GetColumnPower.Column_Power ln param (fin q)) = true ∧
        (param.deviceroadmap ≠ 1 →
          Dbl.le 0 (GetColumnPower.T_max ln param.technode (fin q)) = true)) →
      0 ≤ numRead →
      ∃ (s' : MultilevelSenseAmp) (e : ℚ),
        CalculatePower ln param s columnResistance (fin numRead) = some s' ∧
        s'.readDynamicEnergy = fin e ∧ 0 ≤ e) := by
  refine ⟨fun q hq hP hT => GetColumnPower_nonneg ln param s hs hlevel hladder q hq hP hT,
    ?_, ?_⟩
  · intro hroad q hq hlog
    obtain ⟨p, hp, hp0⟩ := Column_Power_of_pos ln param q hq
    refine GetColumnPower_nonneg ln param s hs hlevel hladder q hq ?_
      (fun h => absurd hroad h)
    rw [hp]
    simpa [Dbl.le, Dbl.ofNat_eq] using hp0 hroad hlog
  intro columnResistance numRead hcols hnum
  have h0 : (0 : Dbl) = fin 0 := by simp [Dbl.ofNat_eq]
  obtain ⟨S, hS, hS0⟩ := sum_energy_nonneg ln param s
    (columnResistance.filter fun r => Dbl.eq r r)
    (by
      intro r hr
      obtain ⟨q, rfl, hq, hP, hT⟩ := hcols r (List.mem_of_mem_filter hr)
      exact GetColumnPower_nonneg ln param s hs hlevel hladder q hq hP hT)
    0 (le_refl _)
  have hsum : CalculatePower.sumOverColumns ln param s columnResistance = some (fin S) := by
    unfold CalculatePower.sumOverColumns
    rw [h0]
    exact hS
  refine ⟨{ s with leakage := 0, readDynamicEnergy := fin S * fin numRead }, S * numRead, ?_,
    rfl, by positivity⟩
  rw [CalculatePower_eq ln param s hs, hsum]
  rfl

/-- The ladder of the sample component. -/
theorem sample_Rref : sample.Rref = [fin 26000, fin 51000, fin 76000] := by
  unfold sample
  rw [Initialize_Rref_seq _ _ _ _ _ _ rfl (by decide)]
  have h3 : ((4 : Int) - 1).toNat = 3 := by decide
  simp only [h3, ctor, List.nil_append, List.range_succ, List.range_zero, List.map_append,
    List.map_cons, List.map_nil, List.cons.injEq, Dbl.fin.injEq, and_true]
  norm_num

/-- The sample component has four output levels. -/
theorem sample_levelOutput : sample.levelOutput = 4 := by
  simp [sample, Initialize, ctor, zeroed]

/-- C20, amended, at a concrete input: the sample component at the low-power 130 nm node. -/
theorem getColumnPower_not_negative_witness :
    (∀ q : ℚ, 0 < q →
      Dbl.le 0 (GetColumnPower.Column_Power (fun _ => 0) ⟨1000, 100000, 128, 2, 130⟩ (fin q))
        = true →
      ((2 : Int) ≠ 1 →
        Dbl.le 0 (GetColumnPower.T_max (fun _ => 0) (130 : Int) (fin q)) = true) →
      ∃ e : ℚ, GetColumnPower (fun _ => 0) ⟨1000, 100000, 128, 2, 130⟩ sample (fin q)
        = some (fin e) ∧ 0 ≤ e) ∧
    ((2 : Int) = 1 → ∀ q : ℚ, 0 < q → -137 ≤ (fun _ : ℚ => (0 : ℚ)) (q / 1000) →
      ∃ e : ℚ, GetColumnPower (fun _ => 0) ⟨1000, 100000, 128, 2, 130⟩ sample (fin q)
        = some (fin e) ∧ 0 ≤ e) ∧
    (∀ (columnResistance : List Dbl) (numRead : ℚ),
      (∀ r ∈ columnResistance, ∃ q : ℚ, r = fin q ∧ 0 < q ∧
        Dbl.le 0 (GetColumnPower.Column_Power (fun _ => 0) ⟨1000, 100000, 128, 2, 130⟩ (fin q))
          = true ∧
        ((2 : Int) ≠ 1 →
          Dbl.le 0 (GetColumnPower.T_max (fun _ => 0) (130 : Int) (fin q)) = true)) →
      0 ≤ numRead →
      ∃ (s' : MultilevelSenseAmp) (e : ℚ),
        CalculatePower (fun _ => 0) ⟨1000, 100000, 128, 2, 130⟩ sample columnResistance
          (fin numRead) = some s' ∧
        s'.readDynamicEnergy = fin e ∧ 0 ≤ e) :=
  getColumnPower_not_negative (fun _ => 0) ⟨1000, 100000, 128, 2, 130⟩ sample
    Initialized_sample
    (by rw [sample_levelOutput]; decide)
    (by
      intro R hR
      rw [sample_Rref] at hR
      simp only [List.mem_cons, List.mem_singleton, List.not_mem_nil, or_false] at hR
      rcases hR with rfl | rfl | rfl
      · exact ⟨26000, rfl, by norm_num⟩
      · exact ⟨51000, rfl, by norm_num⟩
      · exact ⟨76000, rfl, by norm_num⟩)

/-- The real logarithm of one half lies between `-0.70` and `-0.69`. -/
theorem real_log_half_bounds :
    (-7 / 10 : ℝ) ≤ Real.log (1 / 2) ∧ Real.log (1 / 2) ≤ (-69 / 100 : ℝ) := by
  have h : Real.log (1 / 2) = -Real.log 2 := by
    rw [one_div, Real.log_inv]
  have h1 := Real.log_two_gt_d9
  have h2 := Real.log_two_lt_d9
  rw [h]
  constructor <;> norm_num at h1 h2 ⊢ <;> linarith

/-- C20, as stated, fails: on the initialized three-level component with the ladder
`[300, 500]` at the low-power 130 nm node, for `columnRes = 500` and every `log` whose value
at `500/1000` lies in `[-0.70, -0.69]`, as the real logarithm of one half does,
`GetColumnPower` returns a negative value: the baseline `T_max` is negative below about
837 while `Column_Power` is positive. -/
theorem getColumnPower_negative_below_1000 :
    ((-7 / 10 : ℝ) ≤ Real.log (1 / 2) ∧ Real.log (1 / 2) ≤ (-69 / 100 : ℝ)) ∧
    Initialized
      (Initialize ⟨100, 600, 128, 2, 130⟩ (ctor zeroed) 8 3 (fin 1000000000) 1 false) ∧
    (Initialize ⟨100, 600, 128, 2, 130⟩ (ctor zeroed) 8 3 (fin 1000000000) 1 false).Rref
      = [fin 300, fin 500] ∧
    ∀ ln : ℚ → ℚ, -7 / 10 ≤ ln (500 / 1000) → ln (500 / 1000) ≤ -69 / 100 →
      ∃ e : ℚ,
        GetColumnPower ln ⟨100, 600, 128, 2, 130⟩
            (Initialize ⟨100, 600, 128, 2, 130⟩ (ctor zeroed) 8 3 (fin 1000000000) 1 false)
            (fin 500) = some (fin e) ∧
        e < 0 := by
  have hR : (Initialize ⟨100, 600, 128, 2, 130⟩ (ctor zeroed) 8 3 (fin 1000000000) 1
      false).Rref = [fin 300, fin 500] := by
    rw [Initialize_Rref_seq _ _ _ _ _ _ rfl (by decide)]
    have h2 : ((3 : Int) - 1).toNat = 2 := by decide
    simp only [h2, ctor, List.nil_append, List.range_succ, List.range_zero, List.map_append,
      List.map_cons, List.map_nil, List.cons.injEq, Dbl.fin.injEq, and_true]
    norm_num
  have hinit := Initialized_Initialize ⟨100, 600, 128, 2, 130⟩ zeroed 8 3 (fin 1000000000) 1
    false
  refine ⟨real_log_half_bounds, hinit, hR, fun ln hlo hhi => ?_⟩
  have hq : (0 : ℚ) < 500 := by norm_num
  have hd := degenerate_test_false_of_pos 500 hq
  have hlev : levelThresholds
      (Initialize ⟨100, 600, 128, 2, 130⟩ (ctor zeroed) 8 3 (fin 1000000000) 1 false)
        = [fin 500] := by
    unfold levelThresholds
    rw [hR]
    rfl
  have hP : GetColumnPower.Column_Power ln ⟨100, 600, 128, 2, 130⟩ (fin 500)
      = fin ((0.2811 * ln (500 / 1000) + 7.0809) * 1e-6) := by
    have hlog : Dbl.log ln (fin 500 / 1000.0) = fin (ln (500 / 1000)) := by
      have h3 : (1000.0 : Dbl) = 1000 := by
        simp only [Dbl.ofScientific_eq, Dbl.ofNat_eq]
        congr 1
        norm_num
      rw [h3]
      exact log_of_pos ln 500 hq
    simp only [Bool.or_eq_false_iff] at hd
    unfold GetColumnPower.Column_Power
    rw [if_neg (by simp [hd.1]), if_neg (by simp [hd.2]), if_neg (by decide),
      if_pos (by decide), hlog]
    rfl
  have hT : GetColumnLatency.levelTime ln (130 : Int) (fin 500) (fin 500)
      = fin ((0.2679 * ln (500 / 1000) + 0.0478) * 1e-9 * 1.0145) := by
    have hratio : (fin 500 : Dbl) / fin 500 = fin 1 := by
      simp only [Dbl.hDiv_eq, Dbl.div]
      norm_num
    unfold GetColumnLatency.levelTime
    rw [if_pos rfl]
    simp only [Dbl.ofScientific_eq]
    rw [T_max_of_pos ln 500 _ _ hq, hratio]
    simp only [GetColumnLatency.T_130, Dbl.ge, Dbl.le, Dbl.gt, Dbl.lt, Dbl.ofBool, Dbl.pow,
      Dbl.hMul_eq, Dbl.hAdd_eq, Dbl.hSub_eq, Dbl.mul, Dbl.add, Dbl.sub, Dbl.neg,
      Dbl.ofScientific_eq, Dbl.ofNat_eq, Bool.or_eq_true, decide_eq_true_eq]
    norm_num
  rw [GetColumnPower_levels ln _ _ hinit _ hd (by decide) (Or.inl rfl), hlev, hP]
  simp only [List.map_cons, List.map_nil, List.foldl_cons, List.foldl_nil, hT]
  refine ⟨0 + (0.2811 * ln (500 / 1000) + 7.0809) * 1e-6
      * ((0.2679 * ln (500 / 1000) + 0.0478) * 1e-9 * 1.0145), ?_, ?_⟩
  · simp only [Dbl.ofNat_eq, Dbl.hAdd_eq, Dbl.hMul_eq, Dbl.add, Dbl.mul]
    norm_num
  · have hp : (0 : ℚ) < (0.2811 * ln (500 / 1000) + 7.0809) * 1e-6 := by
      norm_num
      linarith
    have ht : (0.2679 * ln (500 / 1000) + 0.0478) * 1e-9 * 1.0145 < (0 : ℚ) := by
      norm_num
      linarith
    have := mul_neg_of_pos_of_neg hp ht
    linarith


end MultilevelSenseAmp

end NeuroSim
